import Mathlib

/-!
Verification of the NL2TDL requirement-to-TDL pipeline.

This file gives a shallow embedding of the Python sources under
`src/nl2tdl/` (`models.py`, `requirement_analysis.py`, `tdl_generator.py`,
`robot_selector.py`, `validators.py`) and proves properties of the embedded
definitions.

Modelling conventions:
* Python `float` is modelled as `ℚ` (exact rational arithmetic).
* Python `datetime` values are modelled as their ISO-format `String`; the
  current time (`datetime.utcnow()`) is an explicit parameter `now`.
* Python `re` patterns are modelled by hand-written deterministic scanners
  over `List Char` that implement the exact backtracking behaviour of the
  concrete patterns appearing in the sources.
* Python `set` iteration order is unspecified; `detect_object_terms` is
  modelled with first-occurrence order.  No claim depends on that order.
* Python exceptions are modelled with `Except String`.
-/

namespace NL2TDL

/-! ## Character classes (ASCII fragment of Python `re` classes) -/

/-- Python regex `\s` (ASCII fragment, which is all that the inputs use). -/
def isPySpace (c : Char) : Bool :=
  c = ' ' || c = '\t' || c = '\n' || c = '\x0d' || c = '\x0b' || c = '\x0c'

/-- Python regex `[A-Za-z0-9_]` (also `\w` on ASCII text). -/
def isWordChar (c : Char) : Bool :=
  c.isAlphanum || c = '_'

/-- Python regex `[\w-]` as used by the location pattern. -/
def isLocChar (c : Char) : Bool :=
  isWordChar c || c = '-'

/-- Python `str.lower` (ASCII fragment; non-ASCII characters are untouched,
matching Python's behaviour on the Korean map keys used in the sources). -/
def pyLower (s : String) : String :=
  ⟨s.data.map Char.toLower⟩

/-- Left-and-right whitespace strip on character lists (Python `str.strip()`). -/
def pyStripL (l : List Char) : List Char :=
  ((l.dropWhile isPySpace).reverse.dropWhile isPySpace).reverse

/-- Right-only strip, used to reason about the final `.strip()` of a text whose
head is known not to be whitespace. -/
def pyRStripL (l : List Char) : List Char :=
  (l.reverse.dropWhile isPySpace).reverse

/-- Python `str.strip()`. -/
def pyStrip (s : String) : String :=
  ⟨pyStripL s.data⟩

/-- Python `str.rstrip('s')`: remove every trailing `'s'`. -/
def pyRStripS (l : List Char) : List Char :=
  (l.reverse.dropWhile (fun c => c = 's')).reverse

/-- Python's substring test `needle in hay` (contiguous occurrence). -/
def containsSub (needle : List Char) : List Char → Bool
  | [] => needle.isEmpty
  | c :: cs => needle.isPrefixOf (c :: cs) || containsSub needle cs

/-! ## Data model (`models.py`) -/

/-- The `constraints` dictionary of a `RequirementAnalysisResult`.  The source
only ever stores the keys `payload_kg` and `reach_m`, and only those two keys
are ever read, so the dictionary is modelled as a pair of optional values. -/
structure RequirementConstraints where
  payload_kg : Option ℚ
  reach_m : Option ℚ
deriving DecidableEq

/-- `models.RequirementAnalysisResult`. -/
structure RequirementAnalysisResult where
  source_requirement : String
  detected_actions : List String
  objects : List String
  source_location : Option String
  target_location : Option String
  constraints : RequirementConstraints
  notes : List String
deriving DecidableEq

/-- `models.GoalNode`. -/
structure GoalNode where
  name : String
  description : String
  commands : List String
deriving DecidableEq

/-- `models.CommandDefinition`. -/
structure CommandDefinition where
  name : String
  signature : String
  body : String
deriving DecidableEq

/-- `models.TDLHeader`; `converted_at` is the ISO rendering of the timestamp. -/
structure TDLHeader where
  converted_at : String
  source_requirement : String
  manufacturer : String
  model : String
deriving DecidableEq

/-- `models.TDLDocument`. -/
structure TDLDocument where
  header : TDLHeader
  goals : List GoalNode
  commands : List CommandDefinition
deriving DecidableEq

/-- Python `"\n".join(...)`. -/
def joinNl : List String → String
  | [] => ""
  | [s] => s
  | s :: rest => s ++ "\n" ++ joinNl rest

/-- The `HEADER { ... }` block emitted by `TDLDocument.to_text`. -/
def headerBlock (h : TDLHeader) : String :=
  "HEADER \x7b\n    Converted At: " ++ h.converted_at ++
    "\n    Source Requirement: \"" ++ h.source_requirement ++
    "\"\n    Manufacturer: " ++ h.manufacturer ++
    "\n    Model: " ++ h.model ++ "\n\x7d\n\n"

/-- One `GOAL` block emitted by `TDLDocument.to_text`. -/
def goalBlock (g : GoalNode) : String :=
  "GOAL " ++ g.name ++ "() \x7b\n    // " ++ g.description ++ "\n" ++
    joinNl (g.commands.map (fun cmd => "    SPAWN " ++ cmd)) ++ "\n\x7d\n"

/-- One `COMMAND` block emitted by `TDLDocument.to_text`. -/
def commandBlock (c : CommandDefinition) : String :=
  "COMMAND \x7b\n    DEFINE " ++ c.name ++ c.signature ++ " \x7b\n        " ++
    c.body ++ "\n    \x7d\n\x7d\n"

/-- `models.TDLDocument.to_text`. -/
def TDLDocument.to_text (doc : TDLDocument) : String :=
  pyStrip (headerBlock doc.header ++ joinNl (doc.goals.map goalBlock) ++ "\n\n" ++
    joinNl (doc.commands.map commandBlock))

/-- `models.VerificationReport`. -/
structure VerificationReport where
  syntax_ok : Bool
  schema_ok : Bool
  logical_ok : Bool
  details : List String
deriving DecidableEq

/-! ## Robot selector (`robot_selector.py`) -/

/-- `robot_selector.RobotSpec`. -/
structure RobotSpec where
  manufacturer : String
  model : String
  payload_kg : ℚ
  reach_m : ℚ
  repeatability_mm : ℚ
  energy_class : String
deriving DecidableEq

/-- `robot_selector.EvaluationCriteria` (defaults 0.4 / 0.3 / 0.2 / 0.1). -/
structure EvaluationCriteria where
  weight_payload : ℚ := 2/5
  weight_reach : ℚ := 3/10
  weight_repeatability : ℚ := 1/5
  weight_energy : ℚ := 1/10
deriving DecidableEq

/-- `robot_selector.ENERGY_SCORES`. -/
def ENERGY_SCORES : List (String × ℚ) :=
  [("A", 1), ("B", 4/5), ("C", 3/5), ("D", 2/5), ("unknown", 1/2)]

/-- `ENERGY_SCORES.get(c, ENERGY_SCORES["unknown"])`. -/
def energyLookup (c : String) : ℚ :=
  (ENERGY_SCORES.lookup c).getD ((ENERGY_SCORES.lookup "unknown").getD 0)

/-- `robot_selector.RobotCandidate`. -/
structure RobotCandidate where
  manufacturer : String
  model : String
  payload : ℚ
  reach : ℚ
  repeatability : ℚ
  energy_class : String
  score : ℚ
  passes_constraints : Bool
deriving DecidableEq

/-- `robot_selector.RobotSelectionResult`. -/
structure RobotSelectionResult where
  candidates : List RobotCandidate
  validation_notes : List String
  verification_notes : List String
deriving DecidableEq

/-- `robot_selector.compute_score` (unrounded weighted sum). -/
def compute_score (robot : RobotSpec) (criteria : EvaluationCriteria) : ℚ :=
  let normalized_payload := robot.payload_kg / 20
  let normalized_reach := robot.reach_m / 2
  let normalized_repeatability := max 0 (1 - robot.repeatability_mm / (1/10))
  let energy_score := energyLookup robot.energy_class
  normalized_payload * criteria.weight_payload
    + normalized_reach * criteria.weight_reach
    + normalized_repeatability * criteria.weight_repeatability
    + energy_score * criteria.weight_energy

/-- One `x < requirement` test of `passes_constraints` (False when the
constraint is absent). -/
def belowRequirement (v : ℚ) : Option ℚ → Bool
  | some req => decide (v < req)
  | none => false

/-- `robot_selector.passes_constraints`. -/
def passes_constraints (robot : RobotSpec) (constraints : RequirementConstraints) : Bool :=
  !(belowRequirement robot.payload_kg constraints.payload_kg) &&
    !(belowRequirement robot.reach_m constraints.reach_m)

/-- Round-half-to-even on `ℚ` (the rounding mode of Python's `round`). -/
def roundHalfEven (q : ℚ) : ℤ :=
  let f : ℤ := ⌊q⌋
  if q - f < 1/2 then f
  else if (1 : ℚ)/2 < q - f then f + 1
  else if f % 2 = 0 then f else f + 1

/-- Python `round(q, 3)` on the exact rational model. -/
def pyRound3 (q : ℚ) : ℚ :=
  (roundHalfEven (q * 1000) : ℚ) / 1000

/-- The `RobotCandidate` built for one spec inside `evaluate_robots`. -/
def evalCandidate (criteria : EvaluationCriteria) (constraints : RequirementConstraints)
    (spec : RobotSpec) : RobotCandidate :=
  let compliant := passes_constraints spec constraints
  let score := if compliant then compute_score spec criteria else 0
  { manufacturer := spec.manufacturer
    model := spec.model
    payload := spec.payload_kg
    reach := spec.reach_m
    repeatability := spec.repeatability_mm
    energy_class := spec.energy_class
    score := pyRound3 score
    passes_constraints := compliant }

/-- Stable insertion for descending-by-score order (earlier elements win ties). -/
def insertDesc (c : RobotCandidate) : List RobotCandidate → List RobotCandidate
  | [] => [c]
  | d :: ds => if d.score ≤ c.score then c :: d :: ds else d :: insertDesc c ds

/-- Stable sort, descending by score: the model of
`candidates.sort(key=lambda c: c.score, reverse=True)` (CPython's sort is
stable, and any two stable sorts under the same comparator agree). -/
def sortDesc : List RobotCandidate → List RobotCandidate
  | [] => []
  | c :: cs => insertDesc c (sortDesc cs)

/-- `robot_selector.evaluate_robots`. -/
def evaluate_robots (document : TDLDocument) (robot_specs : List RobotSpec)
    (criteria : EvaluationCriteria) (constraints : RequirementConstraints) :
    RobotSelectionResult :=
  let execute_goal_commands :=
    match document.goals with
    | _ :: g :: _ => g.commands
    | _ => []
  let validation_notes :=
    if execute_goal_commands.any (fun c => containsSub "Move".data c.data) then []
    else ["Execute goal does not contain an explicit movement command."]
  let candidates := robot_specs.map (evalCandidate criteria constraints)
  let verification_notes :=
    if candidates.any (fun c => c.passes_constraints) then
      ["At least one robot satisfies payload and reach requirements."]
    else ["No robot satisfies the mandatory constraints."]
  { candidates := sortDesc candidates
    validation_notes := validation_notes
    verification_notes := verification_notes }

/-! ## Verifier (`validators.py`) -/

/-- Anchored test for `validators.GOAL_PATTERN`,
`GOAL\s+([A-Za-z0-9_]+)\(\)\s*{`, at the head of the text. -/
def vGoalMatchAt (l : List Char) : Bool :=
  "GOAL".data.isPrefixOf l &&
    (let r0 := l.drop 4
     let sp := r0.takeWhile isPySpace
     let r1 := r0.dropWhile isPySpace
     !sp.isEmpty &&
       (let name := r1.takeWhile isWordChar
        let r2 := r1.dropWhile isWordChar
        !name.isEmpty &&
          ("()".data.isPrefixOf r2 &&
            (match (r2.drop 2).dropWhile isPySpace with
             | '\x7b' :: _ => true
             | _ => false))))

/-- `re.search` sweep for `validators.GOAL_PATTERN`. -/
def vGoalSearch : List Char → Bool
  | [] => false
  | c :: cs => vGoalMatchAt (c :: cs) || vGoalSearch cs

/-- Anchored test for `validators.COMMAND_PATTERN`,
`COMMAND\s*{\s*DEFINE\s+([A-Za-z0-9_]+)\(`, at the head of the text. -/
def vCommandMatchAt (l : List Char) : Bool :=
  "COMMAND".data.isPrefixOf l &&
    (match (l.drop 7).dropWhile isPySpace with
     | '\x7b' :: r1 =>
       (match r1.dropWhile isPySpace with
        | 'D' :: 'E' :: 'F' :: 'I' :: 'N' :: 'E' :: r2 =>
          let sp := r2.takeWhile isPySpace
          let r3 := r2.dropWhile isPySpace
          !sp.isEmpty &&
            (let name := r3.takeWhile isWordChar
             let r4 := r3.dropWhile isWordChar
             !name.isEmpty &&
               (match r4 with
                | '(' :: _ => true
                | _ => false))
        | _ => false)
     | _ => false)

/-- `re.search` sweep for `validators.COMMAND_PATTERN`. -/
def vCommandSearch : List Char → Bool
  | [] => false
  | c :: cs => vCommandMatchAt (c :: cs) || vCommandSearch cs

/-- The per-goal detail strings produced by the logical check of
`validators.verify_tdl`. -/
def logicalDetails (g : GoalNode) : List String :=
  (if g.commands.isEmpty then ["Goal " ++ g.name ++ " has no commands"] else []) ++
    (if "Execute".data.isPrefixOf g.name.data &&
        g.commands.all (fun cmd => !(containsSub "Move".data cmd.data)) then
      ["Execute goal " ++ g.name ++ " does not contain any movement commands"]
    else [])

/-- `validators.verify_tdl`. -/
def verify_tdl (document : TDLDocument) : VerificationReport :=
  let tdl_text := document.to_text
  let syntax_ok := vGoalSearch tdl_text.data && vCommandSearch tdl_text.data
  let schema_ok := decide (3 ≤ document.goals.length) && decide (0 < document.commands.length)
  let logical_details := document.goals.flatMap logicalDetails
  let logical_ok := logical_details.isEmpty
  { syntax_ok := syntax_ok
    schema_ok := schema_ok
    logical_ok := logical_ok
    details := if logical_details.isEmpty then ["TDL commands pass logical consistency checks."]
      else logical_details }

/-! ## Basic lemmas about the stable descending sort -/

theorem mem_insertDesc {c x : RobotCandidate} {l : List RobotCandidate} :
    x ∈ insertDesc c l ↔ x = c ∨ x ∈ l := by
  induction l with
  | nil => simp [insertDesc]
  | cons d ds ih =>
    by_cases h : d.score ≤ c.score
    · simp [insertDesc, h]
    · simp only [insertDesc, if_neg h, List.mem_cons, ih]
      tauto

theorem pairwise_insertDesc {c : RobotCandidate} {l : List RobotCandidate}
    (h : l.Pairwise (fun a b => b.score ≤ a.score)) :
    (insertDesc c l).Pairwise (fun a b => b.score ≤ a.score) := by
  induction l with
  | nil => simp [insertDesc]
  | cons d ds ih =>
    rcases List.pairwise_cons.mp h with ⟨hd, hds⟩
    by_cases hc : d.score ≤ c.score
    · rw [insertDesc, if_pos hc]
      refine List.pairwise_cons.mpr ⟨?_, h⟩
      intro x hx
      rcases List.mem_cons.mp hx with rfl | hx
      · exact hc
      · exact le_trans (hd x hx) hc
    · rw [insertDesc, if_neg hc]
      refine List.pairwise_cons.mpr ⟨?_, ih hds⟩
      intro x hx
      rcases mem_insertDesc.mp hx with rfl | hx
      · exact le_of_lt (lt_of_not_le hc)
      · exact hd x hx

theorem sortDesc_pairwise (l : List RobotCandidate) :
    (sortDesc l).Pairwise (fun a b => b.score ≤ a.score) := by
  induction l with
  | nil => simp [sortDesc]
  | cons c cs ih => exact pairwise_insertDesc ih

theorem filter_insertDesc (s : ℚ) (c : RobotCandidate) (l : List RobotCandidate) :
    (insertDesc c l).filter (fun x => decide (x.score = s)) =
      (c :: l).filter (fun x => decide (x.score = s)) := by
  induction l with
  | nil => rfl
  | cons d ds ih =>
    by_cases h : d.score ≤ c.score
    · rw [insertDesc, if_pos h]
    · rw [insertDesc, if_neg h]
      by_cases hd : d.score = s
      · have hc : ¬ c.score = s := by
          intro hcs
          have hlt := lt_of_not_le h
          rw [hcs, hd] at hlt
          exact lt_irrefl _ hlt
        simp [List.filter_cons, hd, hc, ih]
      · simp [List.filter_cons, hd, ih]

theorem filter_sortDesc (s : ℚ) (l : List RobotCandidate) :
    (sortDesc l).filter (fun x => decide (x.score = s)) =
      l.filter (fun x => decide (x.score = s)) := by
  induction l with
  | nil => rfl
  | cons c cs ih =>
    calc (sortDesc (c :: cs)).filter (fun x => decide (x.score = s))
        = (c :: sortDesc cs).filter (fun x => decide (x.score = s)) :=
          filter_insertDesc s c (sortDesc cs)
      _ = (c :: cs).filter (fun x => decide (x.score = s)) := by
          simp only [List.filter_cons, ih]

theorem length_insertDesc (c : RobotCandidate) (l : List RobotCandidate) :
    (insertDesc c l).length = l.length + 1 := by
  induction l with
  | nil => rfl
  | cons d ds ih =>
    by_cases h : d.score ≤ c.score
    · simp [insertDesc, h]
    · simp [insertDesc, h, ih]

theorem length_sortDesc (l : List RobotCandidate) :
    (sortDesc l).length = l.length := by
  induction l with
  | nil => rfl
  | cons c cs ih => simp [sortDesc, length_insertDesc, ih]

theorem pyRound3_zero : pyRound3 0 = 0 := by
  norm_num [pyRound3, roundHalfEven]

/-! ## Claims about the robot selector -/

/-- C3: a candidate passes iff its payload and reach meet the (optional)
constraints; non-passing candidates score exactly 0 with
`passes_constraints = false`; passing candidates score the rounded weighted
sum; and the returned candidates are the stable descending-by-score ordering
of the evaluated specs (sorted, ties keeping input order). -/
theorem robot_scoring_spec (doc : TDLDocument) (specs : List RobotSpec)
    (criteria : EvaluationCriteria) (cs : RequirementConstraints) :
    (∀ spec ∈ specs,
      (passes_constraints spec cs = true ↔
        ((∀ p, cs.payload_kg = some p → p ≤ spec.payload_kg) ∧
          (∀ r, cs.reach_m = some r → r ≤ spec.reach_m)))
      ∧ (passes_constraints spec cs = false →
          (evalCandidate criteria cs spec).score = 0 ∧
            (evalCandidate criteria cs spec).passes_constraints = false)
      ∧ (passes_constraints spec cs = true →
          (evalCandidate criteria cs spec).score =
            pyRound3 (spec.payload_kg / 20 * criteria.weight_payload
              + spec.reach_m / 2 * criteria.weight_reach
              + max 0 (1 - spec.repeatability_mm / (1/10)) * criteria.weight_repeatability
              + energyLookup spec.energy_class * criteria.weight_energy)))
    ∧ (evaluate_robots doc specs criteria cs).candidates =
        sortDesc (specs.map (evalCandidate criteria cs))
    ∧ (evaluate_robots doc specs criteria cs).candidates.Pairwise
        (fun a b => b.score ≤ a.score)
    ∧ (∀ s : ℚ, (evaluate_robots doc specs criteria cs).candidates.filter
          (fun c => decide (c.score = s)) =
        (specs.map (evalCandidate criteria cs)).filter (fun c => decide (c.score = s))) := by
  refine ⟨?_, rfl, sortDesc_pairwise _, fun s => filter_sortDesc s _⟩
  intro spec _
  refine ⟨?_, ?_, ?_⟩
  · rcases cs with ⟨p, r⟩
    cases p <;> cases r <;>
      simp [passes_constraints, belowRequirement, not_lt]
  · intro h
    simp [evalCandidate, h, pyRound3_zero]
  · intro h
    simp [evalCandidate, h, compute_score]

/-- C3 witness: concrete evaluation of the scoring theorem on a candidate
below the payload constraint. -/
theorem robot_scoring_spec_witness :
    passes_constraints ⟨"KUKA", "K1", 1, 1, 0, "A"⟩ ⟨some 5, none⟩ = false ∧
      (evalCandidate {} ⟨some 5, none⟩ ⟨"KUKA", "K1", 1, 1, 0, "A"⟩).score = 0 := by
  refine ⟨by decide, ?_⟩
  exact (((robot_scoring_spec ⟨⟨"t", "s", "m", "d"⟩, [], []⟩
    [⟨"KUKA", "K1", 1, 1, 0, "A"⟩] {} ⟨some 5, none⟩).1 _ (by simp)).2.1 (by decide)).1

/-- C5: `verify(document).schema_ok` holds iff the document has at least 3
goals and at least one command definition. -/
theorem schema_ok_iff (document : TDLDocument) :
    (verify_tdl document).schema_ok = true ↔
      (3 ≤ document.goals.length ∧ 1 ≤ document.commands.length) := by
  simp only [verify_tdl, Bool.and_eq_true, decide_eq_true_eq]
  omega

/-- C9: with fewer than two goals the selector treats the Execute commands as
empty, so the movement-missing validation note is always emitted, while every
spec is still scored and ranked. -/
theorem short_document_note (doc : TDLDocument) (specs : List RobotSpec)
    (criteria : EvaluationCriteria) (cs : RequirementConstraints)
    (h : doc.goals.length < 2) :
    (evaluate_robots doc specs criteria cs).validation_notes =
        ["Execute goal does not contain an explicit movement command."]
      ∧ (evaluate_robots doc specs criteria cs).candidates =
          sortDesc (specs.map (evalCandidate criteria cs))
      ∧ (evaluate_robots doc specs criteria cs).candidates.length = specs.length := by
  have hg : (match doc.goals with
      | _ :: g :: _ => g.commands
      | _ => []) = ([] : List String) := by
    rcases doc with ⟨_, goals, _⟩
    match goals with
    | [] => rfl
    | [g] => rfl
    | g1 :: g2 :: gs => simp only [List.length_cons] at h; omega
  refine ⟨?_, rfl, by simp [evaluate_robots, length_sortDesc]⟩
  simp [evaluate_robots, hg]

/-- C9 witness: concrete evaluation on a one-goal document. -/
theorem short_document_note_witness :
    (⟨⟨"t", "s", "m", "d"⟩, [⟨"G", "d", []⟩], []⟩ : TDLDocument).goals.length < 2 ∧
      (evaluate_robots ⟨⟨"t", "s", "m", "d"⟩, [⟨"G", "d", []⟩], []⟩ [] {} ⟨none, none⟩).validation_notes =
        ["Execute goal does not contain an explicit movement command."] := by
  refine ⟨by decide, ?_⟩
  exact (short_document_note ⟨⟨"t", "s", "m", "d"⟩, [⟨"G", "d", []⟩], []⟩ [] {} ⟨none, none⟩
    (by decide)).1

/-- C10: an energy class outside the exact table keys (case-sensitive) scores
the same 0.5 energy term as `"unknown"`. -/
theorem energy_class_fallback (robot : RobotSpec) (criteria : EvaluationCriteria)
    (h : robot.energy_class ∉ ["A", "B", "C", "D", "unknown"]) :
    energyLookup robot.energy_class = 1/2 ∧
      compute_score robot criteria =
        robot.payload_kg / 20 * criteria.weight_payload
          + robot.reach_m / 2 * criteria.weight_reach
          + max 0 (1 - robot.repeatability_mm / (1/10)) * criteria.weight_repeatability
          + (1/2) * criteria.weight_energy := by
  simp only [List.mem_cons, not_or, List.not_mem_nil] at h
  obtain ⟨hA, hB, hC, hD, hU, -⟩ := h
  have eA : (robot.energy_class == "A") = false := beq_eq_false_iff_ne.mpr hA
  have eB : (robot.energy_class == "B") = false := beq_eq_false_iff_ne.mpr hB
  have eC : (robot.energy_class == "C") = false := beq_eq_false_iff_ne.mpr hC
  have eD : (robot.energy_class == "D") = false := beq_eq_false_iff_ne.mpr hD
  have eU : (robot.energy_class == "unknown") = false := beq_eq_false_iff_ne.mpr hU
  have hl : energyLookup robot.energy_class = 1/2 := by
    simp [energyLookup, ENERGY_SCORES, List.lookup, eA, eB, eC, eD, eU]
  exact ⟨hl, by simp [compute_score, hl]⟩

/-- C10 witness: concrete evaluation with the unmapped class `"E"`. -/
theorem energy_class_fallback_witness :
    ((⟨"m", "d", 20, 2, 0, "E"⟩ : RobotSpec).energy_class ∉
        ["A", "B", "C", "D", "unknown"]) ∧
      energyLookup (⟨"m", "d", 20, 2, 0, "E"⟩ : RobotSpec).energy_class = 1/2 := by
  refine ⟨by decide, ?_⟩
  exact (energy_class_fallback ⟨"m", "d", 20, 2, 0, "E"⟩ {} (by decide)).1

/-! ## Requirement analysis (`requirement_analysis.py`) -/

/-- `ACTION_KEYWORDS` in the iteration order of the Python dict. -/
def ACTION_KEYWORDS : List (String × List String) :=
  [("pick", ["pick", "grasp", "grab", "collect", "lift"]),
   ("place", ["place", "put", "set", "drop"]),
   ("move", ["move", "transfer", "carry", "deliver"]),
   ("wait", ["wait", "hold"])]

/-- `requirement_analysis.detect_actions`. -/
def detect_actions (requirement : String) : List String :=
  let lower := pyLower requirement
  let actions := (ACTION_KEYWORDS.filter
    (fun kw => kw.2.any (fun k => containsSub k.data lower.data))).map (·.1)
  if actions.isEmpty then ["analyze"] else actions

/-- Case-insensitive anchored literal match (`re.IGNORECASE` on ASCII):
returns the verbatim matched characters and the remaining text. -/
def matchCI (pat l : List Char) : Option (List Char × List Char) :=
  let m := l.take pat.length
  if m.length = pat.length ∧ m.map Char.toLower = pat then some (m, l.drop pat.length)
  else none

/-- A case-insensitive literal followed by an optional (greedy) `s?`. -/
def matchCIOptS (pat l : List Char) : Option (List Char × List Char) :=
  match matchCI pat l with
  | none => none
  | some (m, r) =>
    match r with
    | c :: r2 => if c.toLower = 's' then some (m ++ [c], r2) else some (m, r)
    | [] => some (m, r)

/-- The alternatives of `OBJECT_PATTERN`, in pattern order. -/
def OBJECT_WORDS : List String :=
  ["object", "box", "cup", "component", "part", "tool", "payload"]

/-- Ordered alternation of case-insensitive literals (regex `a|b|...`). -/
def firstAltCI : List String → List Char → Option (List Char × List Char)
  | [], _ => none
  | w :: ws, l =>
    match matchCI w.data l with
    | some r => some r
    | none => firstAltCI ws l

/-- `OBJECT_PATTERN.finditer` sweep collecting the lowercased matches
(fuel-driven; `fuel = length` always suffices because a match consumes at
least one character). -/
def objectScanAux : Nat → List Char → List (List Char)
  | 0, _ => []
  | _ + 1, [] => []
  | fuel + 1, c :: cs =>
    match firstAltCI OBJECT_WORDS (c :: cs) with
    | some (m, rest) => m.map Char.toLower :: objectScanAux fuel rest
    | none => objectScanAux fuel cs

/-- First-occurrence deduplication (the model of `list(set(...))`; CPython's
set order is unspecified and no claim depends on it). -/
def firstSeen (l : List String) : List String :=
  l.foldl (fun acc n => if n ∈ acc then acc else acc ++ [n]) []

/-- `requirement_analysis.detect_object_terms`. -/
def detect_object_terms (requirement : String) : List String :=
  firstSeen ((objectScanAux requirement.data.length requirement.data).map
    (fun m => (⟨m⟩ : String)))

/-- Backtracking over the end of the first `[\w-]+` group of
`LOCATION_PATTERN`, longest split first (regex greediness). -/
def locBT : List Char → List Char → Option (String × String)
  | [], _ => none
  | c :: fr, rest =>
    match (if " to ".data.isPrefixOf rest then
        (let second := (rest.drop 4).takeWhile isLocChar
         if second.isEmpty then none
         else some ((⟨(c :: fr).reverse⟩ : String), (⟨second⟩ : String)))
      else none) with
    | some r => some r
    | none => locBT fr (c :: rest)

/-- Anchored attempt of `LOCATION_PATTERN` (`from ([\w-]+) to ([\w-]+)`). -/
def locMatchAt (l : List Char) : Option (String × String) :=
  match matchCI "from ".data l with
  | none => none
  | some (_, r) =>
    let run := r.takeWhile isLocChar
    if run.isEmpty then none else locBT run.reverse (r.dropWhile isLocChar)

/-- `re.search` sweep of `LOCATION_PATTERN`. -/
def locScan : List Char → Option (String × String)
  | [] => none
  | c :: cs =>
    match locMatchAt (c :: cs) with
    | some r => some r
    | none => locScan cs

/-- `requirement_analysis.detect_locations`. -/
def detect_locations (requirement : String) : Option String × Option String :=
  match locScan requirement.data with
  | none => (none, none)
  | some (a, b) => (some a, some b)

/-- Anchored `\d+(?:\.\d+)?`: the integer digits, the optional fraction
digits, and the remaining text. -/
def numMatchAt (l : List Char) : Option (List Char × Option (List Char) × List Char) :=
  let ds := l.takeWhile Char.isDigit
  if ds.isEmpty then none
  else
    let r1 := l.dropWhile Char.isDigit
    match r1 with
    | '.' :: r2 =>
      let fs := r2.takeWhile Char.isDigit
      if fs.isEmpty then some (ds, none, r1)
      else some (ds, some fs, r2.dropWhile Char.isDigit)
    | _ => some (ds, none, r1)

/-- Decimal digits to a natural number. -/
def digitsToNat (ds : List Char) : ℕ :=
  ds.foldl (fun a c => 10 * a + (c.toNat - 48)) 0

/-- Python `float` of a matched `\d+(?:\.\d+)?` group. -/
def numValue (intPart : List Char) (fracPart : Option (List Char)) : ℚ :=
  (digitsToNat intPart : ℚ) +
    (match fracPart with
     | none => 0
     | some f => (digitsToNat f : ℚ) / (10 ^ f.length))

/-- The `(?:kg|kilograms?)` alternation of `PAYLOAD_PATTERN`. -/
def kgMatch (l : List Char) : Bool :=
  (matchCI "kg".data l).isSome || (matchCIOptS "kilogram".data l).isSome

/-- Anchored attempt of `PAYLOAD_PATTERN` (`(\d+(?:\.\d+)?)\s*(?:kg|kilograms?)`). -/
def payloadMatchAt (l : List Char) : Option ℚ :=
  match numMatchAt l with
  | none => none
  | some (ds, fs, rest) =>
    if kgMatch (rest.dropWhile isPySpace) then some (numValue ds fs) else none

/-- `re.search` sweep of `PAYLOAD_PATTERN`. -/
def payloadScan : List Char → Option ℚ
  | [] => none
  | c :: cs =>
    match payloadMatchAt (c :: cs) with
    | some v => some v
    | none => payloadScan cs

/-- `requirement_analysis.extract_payload`. -/
def extract_payload (requirement : String) : Option ℚ :=
  payloadScan requirement.data

/-- A successful `REACH_PATTERN` match, split into its verbatim pieces
(`group(0)` is their concatenation). -/
structure ReachInfo where
  reachLit : List Char
  ws1 : List Char
  intPart : List Char
  fracPart : Option (List Char)
  ws2 : List Char
  unit : List Char
deriving DecidableEq

/-- The distance-unit alternation `mm|millimeters?|cm|centimeters?|m|meters?`,
tried in pattern order. -/
def unitMatchAt (l : List Char) : Option (List Char × List Char) :=
  match matchCI "mm".data l with
  | some r => some r
  | none =>
    match matchCIOptS "millimeter".data l with
    | some r => some r
    | none =>
      match matchCI "cm".data l with
      | some r => some r
      | none =>
        match matchCIOptS "centimeter".data l with
        | some r => some r
        | none =>
          match matchCI "m".data l with
          | some r => some r
          | none => matchCIOptS "meter".data l

/-- The `\s*(\d+(?:\.\d+)?)\s*(unit)` tail of `REACH_PATTERN`. -/
def reachNumUnit (lit : List Char) (l : List Char) : Option ReachInfo :=
  let ws1 := l.takeWhile isPySpace
  let r1 := l.dropWhile isPySpace
  match numMatchAt r1 with
  | none => none
  | some (ds, fs, rest) =>
    let ws2 := rest.takeWhile isPySpace
    let r3 := rest.dropWhile isPySpace
    match unitMatchAt r3 with
    | some (u, _) => some ⟨lit, ws1, ds, fs, ws2, u⟩
    | none => none

/-- Anchored attempt of `REACH_PATTERN`
(`reach(?:es)?\s*(\d+(?:\.\d+)?)\s*(?:mm|millimeters?|cm|centimeters?|m|meters?)`);
the greedy optional `es` is tried first, then retried without it. -/
def reachMatchAt (l : List Char) : Option ReachInfo :=
  match matchCI "reach".data l with
  | none => none
  | some (lit, r0) =>
    match matchCI "es".data r0 with
    | some (es, r1) =>
      match reachNumUnit (lit ++ es) r1 with
      | some ri => some ri
      | none => reachNumUnit lit r0
    | none => reachNumUnit lit r0

/-- `re.search` sweep of `REACH_PATTERN`. -/
def reachScan : List Char → Option ReachInfo
  | [] => none
  | c :: cs =>
    match reachMatchAt (c :: cs) with
    | some ri => some ri
    | none => reachScan cs

/-- `group(0)` of a reach match: the verbatim matched span. -/
def ReachInfo.group0 (ri : ReachInfo) : List Char :=
  ri.reachLit ++ ri.ws1 ++ ri.intPart ++
    (match ri.fracPart with
     | none => []
     | some f => '.' :: f) ++ ri.ws2 ++ ri.unit

/-- `re.search` sweep of the bare unit pattern used inside `extract_reach`. -/
def unitSearch : List Char → Option (List Char)
  | [] => none
  | c :: cs =>
    match unitMatchAt (c :: cs) with
    | some (u, _) => some u
    | none => unitSearch cs

/-- `requirement_analysis.METRIC_CONVERSIONS`. -/
def METRIC_CONVERSIONS : List (String × ℚ) :=
  [("mm", 1/1000), ("millimeter", 1/1000), ("millimeters", 1/1000),
   ("cm", 1/100), ("centimeter", 1/100), ("centimeters", 1/100),
   ("m", 1), ("meter", 1), ("meters", 1)]

/-- `requirement_analysis.normalize_distance`. -/
def normalize_distance (value : ℚ) (unit : String) : ℚ :=
  let u := pyLower unit
  let base_unit : String := ⟨pyRStripS u.data⟩
  match METRIC_CONVERSIONS.lookup base_unit with
  | none => value
  | some f => value * f

/-- `requirement_analysis.extract_reach`. -/
def extract_reach (requirement : String) : Option ℚ :=
  match reachScan requirement.data with
  | none => none
  | some ri =>
    let value := numValue ri.intPart ri.fracPart
    match unitSearch ri.group0 with
    | none => some value
    | some u => some (normalize_distance value ⟨u⟩)

/-- `requirement_analysis.analyze_requirement_heuristic`. -/
def analyze_requirement_heuristic (requirement : String) : RequirementAnalysisResult :=
  let actions := detect_actions requirement
  let objects := detect_object_terms requirement
  let locs := detect_locations requirement
  let payload := extract_payload requirement
  let reach := extract_reach requirement
  let notes :=
    (if objects.isEmpty then
        ["No explicit object detected; default handling will be applied."]
      else []) ++
    (match locs.1, locs.2 with
     | some s, some t => ["Detected transfer from " ++ s ++ " to " ++ t ++ "."]
     | _, _ => [])
  { source_requirement := requirement
    detected_actions := actions
    objects := objects
    source_location := locs.1
    target_location := locs.2
    constraints := ⟨payload, reach⟩
    notes := notes }

/-! ## Heuristic TDL generation (`tdl_generator.py`) -/

/-- A `(x, y, z, rx, ry, rz)` coordinate tuple. -/
structure Pos6 where
  x : Int
  y : Int
  z : Int
  rx : Int
  ry : Int
  rz : Int
deriving DecidableEq

/-- `tdl_generator.DEFAULT_LOCATION_MAP`. -/
def DEFAULT_LOCATION_MAP : List (String × Pos6) :=
  [("a", ⟨0, 0, 50, 0, 0, 0⟩), ("b", ⟨300, 200, 50, 0, 0, 0⟩),
   ("home", ⟨0, 0, 200, 0, 0, 0⟩), ("pickup", ⟨100, 0, 50, 0, 0, 0⟩),
   ("dropoff", ⟨100, 300, 50, 0, 0, 0⟩),
   ("시작", ⟨0, 0, 50, 0, 0, 0⟩), ("목표", ⟨300, 200, 50, 0, 0, 0⟩)]

/-- `tdl_generator._get_position_coords` (the `if not location` test is
Python truthiness, so the empty string also falls back). -/
def _get_position_coords (location : Option String) (default : Pos6) : Pos6 :=
  match location with
  | none => default
  | some l =>
    if l = "" then default
    else
      match DEFAULT_LOCATION_MAP.lookup (pyLower l) with
      | some c => c
      | none => default

/-- The rendered `PosX(x,y,z,rx,ry,rz)` literal of the generated commands. -/
def posXText (x y z rx ry rz : Int) : String :=
  toString x ++ "," ++ toString y ++ "," ++ toString z ++ "," ++
    toString rx ++ "," ++ toString ry ++ "," ++ toString rz

/-- Approach command of the `pick` sequence. -/
def approachCmd (p : Pos6) (comment : String) : String :=
  "MoveLinear(PosX(" ++ posXText p.x p.y (p.z + 100) p.rx p.ry p.rz ++
    "), 100, 50, \"gripper\", 0.1)  // Approach " ++ comment ++ " (above)"

/-- Descend-to-grasp-height command of the `pick` sequence. -/
def graspMoveCmd (p : Pos6) (comment : String) : String :=
  "MoveLinear(PosX(" ++ posXText p.x p.y (p.z + 10) p.rx p.ry p.rz ++
    "), 50, 30, \"gripper\", 0.0)  // Move to " ++ comment ++ " (grasp height)"

/-- Lift command of the `pick` sequence. -/
def liftCmd (p : Pos6) (comment : String) : String :=
  "MoveLinear(PosX(" ++ posXText p.x p.y (p.z + 100) p.rx p.ry p.rz ++
    "), 100, 50, \"gripper\", 0.1)  // Lift from " ++ comment

/-- Transit command of the `move` sequence. -/
def moveToCmd (p : Pos6) (comment : String) : String :=
  "MoveLinear(PosX(" ++ posXText p.x p.y (p.z + 100) p.rx p.ry p.rz ++
    "), 100, 50, \"gripper\", 0.1)  // Move to " ++ comment ++ " (above)"

/-- Lower command of the `place` sequence. -/
def lowerCmd (p : Pos6) (comment : String) : String :=
  "MoveLinear(PosX(" ++ posXText p.x p.y (p.z + 10) p.rx p.ry p.rz ++
    "), 50, 30, \"gripper\", 0.0)  // Lower to " ++ comment ++ " (place height)"

/-- Retract command of the `place` sequence. -/
def retractCmd (p : Pos6) (comment : String) : String :=
  "MoveLinear(PosX(" ++ posXText p.x p.y (p.z + 100) p.rx p.ry p.rz ++
    "), 100, 50, \"gripper\", 0.1)  // Retract from " ++ comment

/-- The location comment marker (`source_X` / `source_position`); the empty
string is Python-falsy and also falls back. -/
def locComment (tag : String) (loc : Option String) : String :=
  match loc with
  | some l => if l = "" then tag ++ "_position" else tag ++ "_" ++ l
  | none => tag ++ "_position"

/-- `tdl_generator._pick_command_names`. -/
def _pick_command_names (actions : List String)
    (source_loc target_loc : Option String) : List String :=
  let source_coords := _get_position_coords source_loc ⟨0, 0, 50, 0, 0, 0⟩
  let target_coords := _get_position_coords target_loc ⟨300, 200, 50, 0, 0, 0⟩
  let source_comment := locComment "source" source_loc
  let target_comment := locComment "target" target_loc
  (if "pick" ∈ actions then
      [approachCmd source_coords source_comment,
       graspMoveCmd source_coords source_comment,
       "GraspObject(40)  // Close gripper",
       liftCmd source_coords source_comment]
    else []) ++
  (if "move" ∈ actions then [moveToCmd target_coords target_comment] else []) ++
  (if "place" ∈ actions then
      [lowerCmd target_coords target_comment,
       "ReleaseObject()  // Open gripper",
       retractCmd target_coords target_comment]
    else [])

/-- `cmd.startswith("ReleaseCompliance(")`. -/
def startsWithRC (cmd : String) : Bool :=
  "ReleaseCompliance(".data.isPrefixOf cmd.data

/-- Python `", ".join(...)`. -/
def joinComma : List String → String
  | [] => ""
  | [s] => s
  | s :: rest => s ++ ", " ++ joinComma rest

/-- Python truthiness of an optional string. -/
def optTruthy : Option String → Bool
  | some s => !(s.isEmpty)
  | none => false

/-- `tdl_generator._build_goals_heuristic`. -/
def _build_goals_heuristic (analysis : RequirementAnalysisResult) : List GoalNode :=
  let initialize_commands := ["SetJointVelocity(30)", "SetTool(\"gripper\")"]
  let execute_commands :=
    (_pick_command_names analysis.detected_actions analysis.source_location
      analysis.target_location).filter (fun cmd => !(startsWithRC cmd))
  let finalize_commands := ["ReleaseCompliance()"]
  let object_desc :=
    if analysis.objects.isEmpty then " object" else " " ++ joinComma analysis.objects
  let location_desc :=
    if optTruthy analysis.source_location && optTruthy analysis.target_location then
      " from " ++ analysis.source_location.getD "" ++ " to " ++
        analysis.target_location.getD ""
    else if optTruthy analysis.target_location then
      " to " ++ analysis.target_location.getD ""
    else ""
  [⟨"Initialize_Process", "Prepare robot and gripper for" ++ object_desc,
      initialize_commands⟩,
   ⟨"Execute_Process", "Transfer" ++ object_desc ++ location_desc, execute_commands⟩,
   ⟨"Finalize_Process", "Return robot to safe state", finalize_commands⟩]

/-- `command_call.split("(")[0]`: the text before the first parenthesis. -/
def commandName (call : String) : String :=
  ⟨call.data.takeWhile (fun c => c ≠ '(')⟩

/-- `tdl_generator.COMMAND_LIBRARY`. -/
def COMMAND_LIBRARY : List (String × CommandDefinition) :=
  [("SetJointVelocity",
      ⟨"SetJointVelocity", "(velocity)", "motion.configure_joint_velocity(velocity);"⟩),
   ("MoveLinear",
      ⟨"MoveLinear", "(pose, velocity, acceleration, tool, blend)",
        "motion.execute(type=\"Linear\", pose=pose, vel=velocity, acc=acceleration, tool=tool, blend=blend);"⟩),
   ("WaitForDigitalInput",
      ⟨"WaitForDigitalInput", "(signal, state, timeout)",
        "io.wait_for_digital(signal=signal, state=state, timeout=timeout);"⟩),
   ("ReleaseCompliance", ⟨"ReleaseCompliance", "()", "compliance.release();"⟩),
   ("SetTool", ⟨"SetTool", "(tool_name)", "tooling.activate(tool_name);"⟩),
   ("GraspObject", ⟨"GraspObject", "(force)", "end_effector.grasp(force=force);"⟩),
   ("ReleaseObject", ⟨"ReleaseObject", "()", "end_effector.release();"⟩)]

/-- One step of the required-commands dict of `_gather_commands_for_goals`
(re-inserting an existing key keeps its position and rewrites the identical
library value, which is the same as skipping). -/
def gatherStep (d : List (String × CommandDefinition)) (call : String) :
    List (String × CommandDefinition) :=
  match COMMAND_LIBRARY.lookup (commandName call) with
  | some defn =>
    if d.any (fun p => p.1 = commandName call) then d
    else d ++ [(commandName call, defn)]
  | none => d

/-- `tdl_generator._gather_commands_for_goals`. -/
def _gather_commands_for_goals (goals : List GoalNode) : List CommandDefinition :=
  (((goals.map (·.commands)).flatten).foldl gatherStep []).map (·.2)

/-- `tdl_generator._generate_tdl_document_heuristic`; `now` models
`datetime.utcnow().isoformat()`. -/
def _generate_tdl_document_heuristic (now : String)
    (analysis : RequirementAnalysisResult) (manufacturer model : String) :
    TDLDocument :=
  let goals := _build_goals_heuristic analysis
  let commands := _gather_commands_for_goals goals
  { header := ⟨now, analysis.source_requirement, manufacturer, model⟩
    goals := goals
    commands := commands }

/-! ## Lemmas about generated command names -/

theorem takeWhile_append_stop {p : Char → Bool} {l₁ : List Char} (l₂ : List Char)
    (h : ∃ c ∈ l₁, p c = false) :
    (l₁ ++ l₂).takeWhile p = l₁.takeWhile p := by
  rw [List.takeWhile_append]
  split
  · rename_i hlen
    obtain ⟨c, hc, hpc⟩ := h
    have hself : l₁.takeWhile p = l₁ :=
      (List.takeWhile_prefix p).eq_of_length hlen
    have := (List.takeWhile_eq_self_iff.mp hself) c hc
    rw [hpc] at this
    exact absurd this (by simp)
  · rfl

theorem commandName_append_mvl (rest : String) :
    commandName ("MoveLinear(PosX(" ++ rest) = "MoveLinear" := by
  unfold commandName
  rw [String.data_append, takeWhile_append_stop _ ⟨'(', by decide, by decide⟩]
  rfl

theorem startsWithRC_head_ne (s rest : String)
    (h : s.data = 'M' :: rest.data) : startsWithRC s = false := by
  unfold startsWithRC
  rw [h, show ("ReleaseCompliance(".data : List Char) = 'R' :: "eleaseCompliance(".data from rfl]
  simp [List.isPrefixOf]

theorem approachCmd_eq (p : Pos6) (c : String) :
    approachCmd p c = "MoveLinear(PosX(" ++
      (posXText p.x p.y (p.z + 100) p.rx p.ry p.rz ++
        ("), 100, 50, \"gripper\", 0.1)  // Approach " ++ (c ++ " (above)"))) := by
  simp [approachCmd, String.append_assoc]

theorem graspMoveCmd_eq (p : Pos6) (c : String) :
    graspMoveCmd p c = "MoveLinear(PosX(" ++
      (posXText p.x p.y (p.z + 10) p.rx p.ry p.rz ++
        ("), 50, 30, \"gripper\", 0.0)  // Move to " ++ (c ++ " (grasp height)"))) := by
  simp [graspMoveCmd, String.append_assoc]

theorem liftCmd_eq (p : Pos6) (c : String) :
    liftCmd p c = "MoveLinear(PosX(" ++
      (posXText p.x p.y (p.z + 100) p.rx p.ry p.rz ++
        ("), 100, 50, \"gripper\", 0.1)  // Lift from " ++ c)) := by
  simp [liftCmd, String.append_assoc]

theorem moveToCmd_eq (p : Pos6) (c : String) :
    moveToCmd p c = "MoveLinear(PosX(" ++
      (posXText p.x p.y (p.z + 100) p.rx p.ry p.rz ++
        ("), 100, 50, \"gripper\", 0.1)  // Move to " ++ (c ++ " (above)"))) := by
  simp [moveToCmd, String.append_assoc]

theorem lowerCmd_eq (p : Pos6) (c : String) :
    lowerCmd p c = "MoveLinear(PosX(" ++
      (posXText p.x p.y (p.z + 10) p.rx p.ry p.rz ++
        ("), 50, 30, \"gripper\", 0.0)  // Lower to " ++ (c ++ " (place height)"))) := by
  simp [lowerCmd, String.append_assoc]

theorem retractCmd_eq (p : Pos6) (c : String) :
    retractCmd p c = "MoveLinear(PosX(" ++
      (posXText p.x p.y (p.z + 100) p.rx p.ry p.rz ++
        ("), 100, 50, \"gripper\", 0.1)  // Retract from " ++ c)) := by
  simp [retractCmd, String.append_assoc]

theorem data_append_mvl (rest : String) :
    ("MoveLinear(PosX(" ++ rest).data = 'M' :: ("oveLinear(PosX(" ++ rest).data := by
  rw [String.data_append, String.data_append]
  rfl

theorem commandName_mvl_mem (rest : String) :
    commandName ("MoveLinear(PosX(" ++ rest) ∈
      (["MoveLinear", "GraspObject", "ReleaseObject"] : List String) := by
  rw [commandName_append_mvl]
  exact List.mem_cons_self _ _

/-- Every command emitted by `_pick_command_names` has a library name and does
not start with a compliance-release call. -/
theorem pick_cmd_shape (actions : List String) (src tgt : Option String) :
    ∀ cmd ∈ _pick_command_names actions src tgt,
      commandName cmd ∈ (["MoveLinear", "GraspObject", "ReleaseObject"] : List String) ∧
        startsWithRC cmd = false := by
  intro cmd hcmd
  simp only [_pick_command_names, List.mem_append, List.mem_ite_nil_right, List.mem_cons,
    List.not_mem_nil, or_false] at hcmd
  rcases hcmd with (⟨-, (rfl | rfl | rfl | rfl)⟩ | ⟨-, rfl⟩) | ⟨-, (rfl | rfl | rfl)⟩
  · rw [approachCmd_eq]
    exact ⟨commandName_mvl_mem _, startsWithRC_head_ne _ _ (data_append_mvl _)⟩
  · rw [graspMoveCmd_eq]
    exact ⟨commandName_mvl_mem _, startsWithRC_head_ne _ _ (data_append_mvl _)⟩
  · exact ⟨by decide, by decide⟩
  · rw [liftCmd_eq]
    exact ⟨commandName_mvl_mem _, startsWithRC_head_ne _ _ (data_append_mvl _)⟩
  · rw [moveToCmd_eq]
    exact ⟨commandName_mvl_mem _, startsWithRC_head_ne _ _ (data_append_mvl _)⟩
  · rw [lowerCmd_eq]
    exact ⟨commandName_mvl_mem _, startsWithRC_head_ne _ _ (data_append_mvl _)⟩
  · exact ⟨by decide, by decide⟩
  · rw [retractCmd_eq]
    exact ⟨commandName_mvl_mem _, startsWithRC_head_ne _ _ (data_append_mvl _)⟩

/-! ## C1: fixed goal skeleton of the heuristic generator -/

/-- C1: the heuristic document always has exactly three goals in the order
Initialize / Execute / Finalize, the last goal's commands are exactly the
single compliance release, and every compliance-release-prefixed command is
filtered out of the Execute goal. -/
theorem heuristic_goal_structure (a : RequirementAnalysisResult)
    (now manufacturer model : String) :
    3 ≤ (_generate_tdl_document_heuristic now a manufacturer model).goals.length
    ∧ (_generate_tdl_document_heuristic now a manufacturer model).goals.map (·.name) =
        ["Initialize_Process", "Execute_Process", "Finalize_Process"]
    ∧ ((_generate_tdl_document_heuristic now a manufacturer model).goals.getLast?).map
        (·.commands) = some ["ReleaseCompliance()"]
    ∧ ((_generate_tdl_document_heuristic now a manufacturer model).goals[1]?).map
        (·.commands) = some
        ((_pick_command_names a.detected_actions a.source_location a.target_location).filter
          (fun cmd => !(startsWithRC cmd)))
    ∧ ∀ g ∈ (_generate_tdl_document_heuristic now a manufacturer model).goals,
        g.name = "Execute_Process" → ∀ cmd ∈ g.commands, startsWithRC cmd = false := by
  refine ⟨by simp [_generate_tdl_document_heuristic, _build_goals_heuristic], rfl, rfl, rfl, ?_⟩
  intro g hg
  simp only [_generate_tdl_document_heuristic, _build_goals_heuristic, List.mem_cons,
    List.not_mem_nil, or_false] at hg
  rcases hg with rfl | rfl | rfl
  · intro hname
    simp at hname
  · intro _ cmd hcmd
    have := (List.mem_filter.mp hcmd).2
    simpa using this
  · intro hname
    simp at hname

/-- C1 witness: concrete instantiation of the Execute-goal filter property. -/
theorem heuristic_goal_structure_witness :
    ((⟨"Execute_Process", "Transfer object",
        [moveToCmd ⟨300, 200, 50, 0, 0, 0⟩ "target_position"]⟩ : GoalNode) ∈
      (_generate_tdl_document_heuristic "T"
        ⟨"r", ["move"], [], none, none, ⟨none, none⟩, []⟩ "m" "d").goals) ∧
      startsWithRC (moveToCmd ⟨300, 200, 50, 0, 0, 0⟩ "target_position") = false := by
  refine ⟨by decide, ?_⟩
  exact (heuristic_goal_structure ⟨"r", ["move"], [], none, none, ⟨none, none⟩, []⟩
      "T" "m" "d").2.2.2.2
    ⟨"Execute_Process", "Transfer object",
      [moveToCmd ⟨300, 200, 50, 0, 0, 0⟩ "target_position"]⟩ (by decide) rfl
    (moveToCmd ⟨300, 200, 50, 0, 0, 0⟩ "target_position") (by decide)

/-! ## C7: the concrete pick-and-place scenario -/

/-- C7: the scenario input detects the `move` action, the 5 kg payload and
the two station names, and the generated Execute goal is the single linear
move to the default target coordinates. -/
theorem scenario_move_box :
    "move" ∈ (analyze_requirement_heuristic
        "Move the box from stationA to stationB carrying a 5 kg payload").detected_actions
    ∧ (analyze_requirement_heuristic
        "Move the box from stationA to stationB carrying a 5 kg payload").constraints.payload_kg
        = some 5
    ∧ (analyze_requirement_heuristic
        "Move the box from stationA to stationB carrying a 5 kg payload").source_location
        = some "stationA"
    ∧ (analyze_requirement_heuristic
        "Move the box from stationA to stationB carrying a 5 kg payload").target_location
        = some "stationB"
    ∧ ((_generate_tdl_document_heuristic "2024-01-01T00:00:00"
          (analyze_requirement_heuristic
            "Move the box from stationA to stationB carrying a 5 kg payload")
          "Doosan" "M1013").goals[1]?).map (·.commands) =
        some ["MoveLinear(PosX(300,200,150,0,0,0), 100, 50, \"gripper\", 0.1)  // Move to target_stationB (above)"] := by
  refine ⟨by decide, ?_, by decide, by decide, by decide⟩
  have h1 : (analyze_requirement_heuristic
      "Move the box from stationA to stationB carrying a 5 kg payload").constraints.payload_kg
      = some (numValue ['5'] none) := rfl
  rw [h1]
  norm_num [numValue, digitsToNat, show '5'.toNat - 48 = 5 from by decide]

/-! ## C8: command definitions cover every referenced command -/

theorem library_name_eq_key : ∀ p ∈ COMMAND_LIBRARY, p.2.name = p.1 := by decide

theorem gatherStep_eq_of_none {d : List (String × CommandDefinition)} {call : String}
    (hl : COMMAND_LIBRARY.lookup (commandName call) = none) :
    gatherStep d call = d := by
  unfold gatherStep
  rw [hl]

theorem gatherStep_eq_of_any {d : List (String × CommandDefinition)} {call : String}
    {defn : CommandDefinition}
    (hl : COMMAND_LIBRARY.lookup (commandName call) = some defn)
    (h : (d.any fun p => p.1 = commandName call) = true) :
    gatherStep d call = d := by
  unfold gatherStep
  rw [hl]
  simp [h]

theorem gatherStep_eq_append {d : List (String × CommandDefinition)} {call : String}
    {defn : CommandDefinition}
    (hl : COMMAND_LIBRARY.lookup (commandName call) = some defn)
    (h : ¬ (d.any fun p => p.1 = commandName call) = true) :
    gatherStep d call = d ++ [(commandName call, defn)] := by
  unfold gatherStep
  rw [hl]
  simp [h]

theorem gatherStep_pre (d : List (String × CommandDefinition)) (call : String) :
    d <+: gatherStep d call := by
  cases hl : COMMAND_LIBRARY.lookup (commandName call) with
  | none => rw [gatherStep_eq_of_none hl]
  | some defn =>
    by_cases hany : (d.any fun p => p.1 = commandName call) = true
    · rw [gatherStep_eq_of_any hl hany]
    · rw [gatherStep_eq_append hl hany]
      exact List.prefix_append d _

theorem gather_prefix_mono (calls : List String) :
    ∀ d : List (String × CommandDefinition), d <+: calls.foldl gatherStep d := by
  induction calls with
  | nil => intro d; exact List.prefix_refl d
  | cons c cs ih =>
    intro d
    rw [List.foldl_cons]
    exact (gatherStep_pre d c).trans (ih (gatherStep d c))

theorem gatherStep_inv {d : List (String × CommandDefinition)} {call : String}
    (h : ∀ p ∈ d, COMMAND_LIBRARY.lookup p.1 = some p.2) :
    ∀ p ∈ gatherStep d call, COMMAND_LIBRARY.lookup p.1 = some p.2 := by
  cases hl : COMMAND_LIBRARY.lookup (commandName call) with
  | none => rw [gatherStep_eq_of_none hl]; exact h
  | some defn =>
    by_cases hany : (d.any fun p => p.1 = commandName call) = true
    · rw [gatherStep_eq_of_any hl hany]; exact h
    · rw [gatherStep_eq_append hl hany]
      intro p hp
      rcases List.mem_append.mp hp with hp | hp
      · exact h p hp
      · simp only [List.mem_singleton] at hp
        subst hp
        exact hl

theorem gather_values_inv (calls : List String) :
    ∀ d : List (String × CommandDefinition),
      (∀ p ∈ d, COMMAND_LIBRARY.lookup p.1 = some p.2) →
      ∀ p ∈ calls.foldl gatherStep d, COMMAND_LIBRARY.lookup p.1 = some p.2 := by
  induction calls with
  | nil => intro d h; exact h
  | cons c cs ih =>
    intro d h
    rw [List.foldl_cons]
    exact ih _ (gatherStep_inv h)

theorem gather_covers (calls : List String) :
    ∀ (d : List (String × CommandDefinition)) (call : String), call ∈ calls →
      ∀ defn, COMMAND_LIBRARY.lookup (commandName call) = some defn →
      (∀ p ∈ d, COMMAND_LIBRARY.lookup p.1 = some p.2) →
      ∃ q ∈ calls.foldl gatherStep d, q.1 = commandName call ∧ q.2 = defn := by
  induction calls with
  | nil => intro d call h; exact absurd h (List.not_mem_nil call)
  | cons c cs ih =>
    intro d call hmem defn hdefn hinv
    rw [List.foldl_cons]
    rcases List.mem_cons.mp hmem with rfl | hmem
    · by_cases hany : d.any (fun p => p.1 = commandName call) = true
      · obtain ⟨p, hp, hpname⟩ := List.any_eq_true.mp hany
        simp only [decide_eq_true_eq] at hpname
        refine ⟨p, (gather_prefix_mono cs (gatherStep d call)).subset
          ((gatherStep_pre d call).subset hp), hpname, ?_⟩
        have := hinv p hp
        rw [hpname, hdefn] at this
        exact (Option.some.injEq _ _ ▸ this.symm)
      · have hstep : (commandName call, defn) ∈ gatherStep d call := by
          rw [gatherStep_eq_append hdefn hany]
          exact List.mem_append_right _ (List.mem_singleton.mpr rfl)
        exact ⟨(commandName call, defn),
          (gather_prefix_mono cs (gatherStep d call)).subset hstep, rfl, rfl⟩
    · exact ih (gatherStep d c) call hmem defn hdefn (gatherStep_inv hinv)

theorem any_fst_eq_mem (d : List (String × CommandDefinition)) (n : String) :
    (d.any fun p => p.1 = n) = decide (n ∈ d.map (·.1)) := by
  induction d with
  | nil => rfl
  | cons p ps ih =>
    simp only [List.any_cons, ih, List.map_cons, List.mem_cons]
    by_cases h : p.1 = n
    · subst h; simp
    · have h2 : ¬ n = p.1 := fun hn => h hn.symm
      simp [h, h2]

theorem gather_names_eq (calls : List String) :
    ∀ d : List (String × CommandDefinition),
      (calls.foldl gatherStep d).map (·.1) =
        ((calls.map commandName).filter
            (fun n => (COMMAND_LIBRARY.lookup n).isSome)).foldl
          (fun acc n => if n ∈ acc then acc else acc ++ [n]) (d.map (·.1)) := by
  induction calls with
  | nil => intro d; rfl
  | cons c cs ih =>
    intro d
    rw [List.foldl_cons, List.map_cons, List.filter_cons]
    cases hl : COMMAND_LIBRARY.lookup (commandName c) with
    | none =>
      simp only [hl, Option.isSome_none, Bool.false_eq_true, if_false]
      rw [gatherStep_eq_of_none hl, ih]
    | some defn =>
      simp only [hl, Option.isSome_some, if_true, List.foldl_cons]
      by_cases hmem : commandName c ∈ d.map (·.1)
      · rw [gatherStep_eq_of_any hl (by rw [any_fst_eq_mem]; exact decide_eq_true hmem),
          ih, if_pos hmem]
      · rw [gatherStep_eq_append hl (by rw [any_fst_eq_mem]; simp [hmem]),
          ih, if_neg hmem]
        simp

theorem firstSeenAux_nodup (l : List String) :
    ∀ acc : List String, acc.Nodup →
      (l.foldl (fun acc n => if n ∈ acc then acc else acc ++ [n]) acc).Nodup := by
  induction l with
  | nil => intro acc h; exact h
  | cons n ns ih =>
    intro acc h
    rw [List.foldl_cons]
    by_cases hn : n ∈ acc
    · rw [if_pos hn]; exact ih acc h
    · rw [if_neg hn]
      exact ih _ (by simp [List.nodup_append, h, hn])

/-- Every command of every heuristic goal resolves in the command library. -/
theorem heuristic_cmd_lookup (a : RequirementAnalysisResult) :
    ∀ g ∈ _build_goals_heuristic a, ∀ cmd ∈ g.commands,
      (COMMAND_LIBRARY.lookup (commandName cmd)).isSome = true := by
  intro g hg cmd hcmd
  simp only [_build_goals_heuristic, List.mem_cons, List.not_mem_nil, or_false] at hg
  rcases hg with rfl | rfl | rfl
  · simp only [List.mem_cons, List.not_mem_nil, or_false] at hcmd
    rcases hcmd with rfl | rfl
    · decide
    · decide
  · have hpick := (pick_cmd_shape a.detected_actions a.source_location a.target_location
      cmd (List.mem_of_mem_filter hcmd)).1
    simp only [List.mem_cons, List.not_mem_nil, or_false] at hpick
    rcases hpick with h | h | h <;> rw [h] <;> decide
  · simp only [List.mem_cons, List.not_mem_nil, or_false] at hcmd
    subst hcmd
    decide

/-- C8: every command invocation of every heuristic goal has a command
definition with the invoked name, and the command list is the deduplicated
first-seen sequence of the library-resolvable invocation names. -/
theorem heuristic_commands_cover (a : RequirementAnalysisResult)
    (now manufacturer model : String) :
    (∀ g ∈ (_generate_tdl_document_heuristic now a manufacturer model).goals,
      ∀ cmd ∈ g.commands,
        ∃ d ∈ (_generate_tdl_document_heuristic now a manufacturer model).commands,
          d.name = commandName cmd)
    ∧ ((_generate_tdl_document_heuristic now a manufacturer model).commands.map (·.name)) =
        firstSeen (((((_generate_tdl_document_heuristic now a manufacturer model).goals.map
            (·.commands)).flatten).map commandName).filter
          (fun n => (COMMAND_LIBRARY.lookup n).isSome))
    ∧ ((_generate_tdl_document_heuristic now a manufacturer model).commands.map
        (·.name)).Nodup := by
  have hGoals : (_generate_tdl_document_heuristic now a manufacturer model).goals =
      _build_goals_heuristic a := rfl
  have hCmds : (_generate_tdl_document_heuristic now a manufacturer model).commands =
      ((((_build_goals_heuristic a).map (·.commands)).flatten).foldl gatherStep []).map
        (·.2) := rfl
  have hvals := gather_values_inv (((_build_goals_heuristic a).map (·.commands)).flatten)
    [] (by intro p hp; exact absurd hp (List.not_mem_nil p))
  have hname2 : ∀ p ∈ (((_build_goals_heuristic a).map (·.commands)).flatten).foldl
      gatherStep [], p.2.name = p.1 := by
    intro p hp
    have hl := hvals p hp
    have hmem : (p.1, p.2) ∈ COMMAND_LIBRARY := by
      obtain ⟨l₁, l₂, heq, -⟩ := List.lookup_eq_some_iff.mp hl
      rw [heq]
      exact List.mem_append_right _ (List.mem_cons_self _ _)
    exact library_name_eq_key _ hmem
  refine ⟨?_, ?_, ?_⟩
  · intro g hg cmd hcmd
    rw [hGoals] at hg
    obtain ⟨defn, hdefn⟩ :=
      Option.isSome_iff_exists.mp (heuristic_cmd_lookup a g hg cmd hcmd)
    have hcall : cmd ∈ ((_build_goals_heuristic a).map (·.commands)).flatten :=
      List.mem_flatten_of_mem (List.mem_map_of_mem _ hg) hcmd
    obtain ⟨q, hq, hq1, hq2⟩ := gather_covers _ [] cmd hcall defn hdefn
      (by intro p hp; exact absurd hp (List.not_mem_nil p))
    refine ⟨q.2, ?_, ?_⟩
    · rw [hCmds]
      exact List.mem_map_of_mem _ hq
    · rw [hname2 q hq, hq1]
  · rw [hCmds, hGoals, List.map_map]
    have : ((((_build_goals_heuristic a).map (·.commands)).flatten).foldl gatherStep
        []).map (CommandDefinition.name ∘ (·.2)) =
        ((((_build_goals_heuristic a).map (·.commands)).flatten).foldl gatherStep
        []).map (·.1) :=
      List.map_congr_left (fun p hp => hname2 p hp)
    rw [this, gather_names_eq]
    rfl
  · rw [hCmds, List.map_map]
    have : ((((_build_goals_heuristic a).map (·.commands)).flatten).foldl gatherStep
        []).map (CommandDefinition.name ∘ (·.2)) =
        ((((_build_goals_heuristic a).map (·.commands)).flatten).foldl gatherStep
        []).map (·.1) :=
      List.map_congr_left (fun p hp => hname2 p hp)
    rw [this, gather_names_eq]
    exact firstSeenAux_nodup _ [] List.nodup_nil

/-- C8 witness: concrete instantiation of the coverage property. -/
theorem heuristic_commands_cover_witness :
    ((⟨"Finalize_Process", "Return robot to safe state", ["ReleaseCompliance()"]⟩ : GoalNode)
        ∈ (_generate_tdl_document_heuristic "T"
            ⟨"r", ["move"], [], none, none, ⟨none, none⟩, []⟩ "m" "d").goals) ∧
      ("ReleaseCompliance()" ∈
        (["ReleaseCompliance()"] : List String)) ∧
      ∃ d ∈ (_generate_tdl_document_heuristic "T"
          ⟨"r", ["move"], [], none, none, ⟨none, none⟩, []⟩ "m" "d").commands,
        d.name = commandName "ReleaseCompliance()" := by
  refine ⟨by decide, by decide, ?_⟩
  exact (heuristic_commands_cover ⟨"r", ["move"], [], none, none, ⟨none, none⟩, []⟩
    "T" "m" "d").1
    ⟨"Finalize_Process", "Return robot to safe state", ["ReleaseCompliance()"]⟩
    (by decide) "ReleaseCompliance()" (by decide)

/-! ## Parsing of model output (`tdl_generator.GOAL_PATTERN` and friends) -/

/-- The tail of `GOAL_PATTERN`
(`\s+([A-Za-z0-9_]+)\s*\([^)]*\)\s*\{(.*?)\}` with `re.DOTALL`) after the
literal `GOAL`; this pattern is deterministic (each greedy or lazy piece has
a unique possible extent), so a straight-line scanner implements it exactly.
Returns `((name, body), rest)`. -/
def goalMatchTail (r0 : List Char) : Option ((List Char × List Char) × List Char) :=
  if (r0.takeWhile isPySpace).isEmpty then none
  else
    let r1 := r0.dropWhile isPySpace
    let name := r1.takeWhile isWordChar
    if name.isEmpty then none
    else
      match (r1.dropWhile isWordChar).dropWhile isPySpace with
      | '(' :: r4 =>
        match r4.dropWhile (fun c => c ≠ ')') with
        | ')' :: r6 =>
          match r6.dropWhile isPySpace with
          | '\x7b' :: r8 =>
            match r8.dropWhile (fun c => c ≠ '\x7d') with
            | '\x7d' :: r10 => some ((name, r8.takeWhile (fun c => c ≠ '\x7d')), r10)
            | _ => none
          | _ => none
        | _ => none
      | _ => none

/-- Anchored attempt of `GOAL_PATTERN`. -/
def goalMatchAt (l : List Char) : Option ((List Char × List Char) × List Char) :=
  if "GOAL".data.isPrefixOf l then goalMatchTail (l.drop 4) else none

/-- `GOAL_PATTERN.finditer` sweep (fuel-driven; `fuel = length` suffices
because every match consumes at least one character). -/
def goalFindAux : Nat → List Char → List (List Char × List Char)
  | 0, _ => []
  | _ + 1, [] => []
  | fuel + 1, c :: cs =>
    match goalMatchAt (c :: cs) with
    | some (m, rest) => m :: goalFindAux fuel rest
    | none => goalFindAux fuel cs

/-- All matches of `GOAL_PATTERN` in a text. -/
def goalFindAll (l : List Char) : List (List Char × List Char) :=
  goalFindAux l.length l

/-- Python `str.splitlines` boundary characters. -/
def isLineBreakChar (c : Char) : Bool :=
  c = '\n' || c = '\x0d' || c = '\x0b' || c = '\x0c' ||
    c = '\x1c' || c = '\x1d' || c = '\x1e' || c = '\x85' ||
    c = '\u2028' || c = '\u2029'

/-- Worker for `str.splitlines` (`\r\n` counts as a single boundary, and no
trailing empty line is produced). -/
def splitlinesAux : List Char → List Char → List (List Char)
  | acc, [] => if acc.isEmpty then [] else [acc.reverse]
  | acc, [c] =>
    if isLineBreakChar c then [acc.reverse] else [(c :: acc).reverse]
  | acc, c :: d :: rest =>
    if c = '\x0d' ∧ d = '\n' then acc.reverse :: splitlinesAux [] rest
    else if isLineBreakChar c then acc.reverse :: splitlinesAux [] (d :: rest)
    else splitlinesAux (c :: acc) (d :: rest)

/-- Python `str.splitlines`. -/
def pySplitlines (l : List Char) : List (List Char) :=
  splitlinesAux [] l

/-- `COMMENT_PATTERN.match` (`//\s*(.*)`), returning `group(1)`. -/
def commentMatch : List Char → Option (List Char)
  | '/' :: '/' :: r => some (r.dropWhile isPySpace)
  | _ => none

/-- `SPAWN_PATTERN.match` (`SPAWN\s+(.*)`), returning `group(1)`. -/
def spawnMatch : List Char → Option (List Char)
  | 'S' :: 'P' :: 'A' :: 'W' :: 'N' :: r =>
    if (r.takeWhile isPySpace).isEmpty then none else some (r.dropWhile isPySpace)
  | _ => none

/-- The default goal description of `_parse_goal_code`. -/
def defaultGoalDesc : String := "Generated goal block"

/-- The per-line loop of `_parse_goal_code`: a first comment line (while the
description is still the default) becomes the description, `SPAWN` lines
become commands. -/
def parseGoalLines : String → List String → List (List Char) → String × List String
  | desc, cmds, [] => (desc, cmds)
  | desc, cmds, line :: rest =>
    let stripped := pyStripL line
    if stripped.isEmpty then parseGoalLines desc cmds rest
    else
      match commentMatch stripped with
      | some g =>
        if desc = defaultGoalDesc then
          parseGoalLines
            (if (pyStripL g).isEmpty then desc else (⟨pyStripL g⟩ : String)) cmds rest
        else
          match spawnMatch stripped with
          | some g2 => parseGoalLines desc (cmds ++ [(⟨pyStripL g2⟩ : String)]) rest
          | none => parseGoalLines desc cmds rest
      | none =>
        match spawnMatch stripped with
        | some g2 => parseGoalLines desc (cmds ++ [(⟨pyStripL g2⟩ : String)]) rest
        | none => parseGoalLines desc cmds rest

/-- `tdl_generator._parse_goal_code`. -/
def _parse_goal_code (goal_code : String) : List GoalNode :=
  (goalFindAll goal_code.data).map (fun m =>
    let parsed := parseGoalLines defaultGoalDesc [] (pySplitlines (pyStripL m.2))
    ⟨⟨m.1⟩, parsed.1, parsed.2⟩)

/-- `tdl_generator._clean_command_definition_text`. -/
def _clean_command_definition_text (definition : String) : List Char :=
  let t0 := pyStripL definition.data
  let t1 := if "COMMAND".data.isPrefixOf t0 then pyStripL (t0.drop 7) else t0
  let t2 :=
    if t1.head? = some '\x7b' ∧ t1.getLast? = some '\x7d' then pyStripL (t1.drop 1).dropLast
    else t1
  if "DEFINE".data.isPrefixOf t2 then pyStripL (t2.drop 6) else t2

/-- The text before the greedy-last `}` of `COMMAND_DEF_PATTERN`'s body. -/
def lastBraceSplit (l : List Char) : Option (List Char) :=
  match l.reverse.dropWhile (fun c => c ≠ '\x7d') with
  | '\x7d' :: restRev => some restRev.reverse
  | _ => none

/-- Anchored `COMMAND_DEF_PATTERN.match`
(`([A-Za-z0-9_]+)\s*(\([^)]*\))\s*\{(.*)\}\s*`, `re.DOTALL`): returns the
three groups (the greedy `(.*)` extends to the last `}`). -/
def cmdDefMatch (l : List Char) : Option (List Char × List Char × List Char) :=
  let name := l.takeWhile isWordChar
  if name.isEmpty then none
  else
    match (l.dropWhile isWordChar).dropWhile isPySpace with
    | '(' :: r2 =>
      (match r2.dropWhile (fun c => c ≠ ')') with
       | ')' :: r3 =>
         (match r3.dropWhile isPySpace with
          | '\x7b' :: r4 =>
            (match lastBraceSplit r4 with
             | some body =>
               some (name, '(' :: r2.takeWhile (fun c => c ≠ ')') ++ [')'], body)
             | none => none)
          | _ => none)
       | _ => none)
    | _ => none

/-! ## JSON values and the model-orchestrated pipeline (`tdl_generator.py`) -/

/-- The JSON values produced by `json.loads` (an external standard-library
call; the parser itself is an abstract environment function). -/
inductive Json where
  | null : Json
  | bool (b : Bool) : Json
  | num (q : ℚ) : Json
  | str (s : String) : Json
  | arr (elems : List Json) : Json
  | obj (fields : List (String × Json)) : Json

/-- Python truthiness of a JSON value. -/
def Json.truthy : Json → Bool
  | .null => false
  | .bool b => b
  | .num q => !(decide (q = 0))
  | .str s => !s.isEmpty
  | .arr l => !l.isEmpty
  | .obj l => !l.isEmpty

/-- Python `payload.get(key)`: `AttributeError` when the receiver is not a
dict. -/
def jsonGetOpt (j : Json) (k : String) : Except String (Option Json) :=
  match j with
  | .obj fields => .ok (fields.lookup k)
  | _ => .error "AttributeError: get"

/-- Python `payload.get(key, default)`. -/
def jsonGetD (j : Json) (k : String) (d : Json) : Except String Json :=
  (jsonGetOpt j k).map (fun o => o.getD d)

/-- Python `for x in j`: `TypeError` for non-iterable values; strings yield
their characters, dicts their keys. -/
def jsonIter : Json → Except String (List Json)
  | .arr l => .ok l
  | .str s => .ok (s.data.map (fun c => .str ⟨[c]⟩))
  | .obj l => .ok (l.map (fun p => .str p.1))
  | _ => .error "TypeError: not iterable"

/-- Using a JSON value as a dict key: lists and dicts are unhashable
(`TypeError`); other non-strings are hashable but never equal a string key. -/
def sigKey : Json → Except String (Option String)
  | .str s => .ok (some s)
  | .arr _ => .error "TypeError: unhashable type"
  | .obj _ => .error "TypeError: unhashable type"
  | _ => .ok none

/-- The loop of `tdl_generator._parse_command_definitions` over
`used_signatures` (with its `seen` set and silent drop of unresolvable or
unparsable definitions). -/
def parseCmdDefsLoop (defsJson : Json) : List String → List CommandDefinition →
    List Json → Except String (List CommandDefinition)
  | _, results, [] => .ok results
  | seen, results, sig :: rest =>
    match defsJson with
    | .obj fields =>
      (match sigKey sig with
       | .error e => .error e
       | .ok none => parseCmdDefsLoop defsJson seen results rest
       | .ok (some k) =>
         match fields.lookup k with
         | none => parseCmdDefsLoop defsJson seen results rest
         | some v =>
           if v.truthy = false then parseCmdDefsLoop defsJson seen results rest
           else if k ∈ seen then parseCmdDefsLoop defsJson seen results rest
           else
             match v with
             | .str s =>
               (match cmdDefMatch (_clean_command_definition_text s) with
                | some (n, sg, body) =>
                  parseCmdDefsLoop defsJson (seen ++ [k])
                    (results ++ [⟨⟨n⟩, ⟨sg⟩, (⟨pyStripL body⟩ : String)⟩]) rest
                | none => parseCmdDefsLoop defsJson (seen ++ [k]) results rest)
             | _ => .error "AttributeError: strip")
    | _ => .error "AttributeError: get"

/-- The abstract model backend (`llm_client.BaseLLM.generate_json`): either a
raw string response or a raised exception. -/
structure BaseLLM where
  generate_json : String → Nat → Except String String

/-- The external collaborators of the model-orchestrated path: the
retrieval loader (`rag.py`, disk I/O), the prompt templates (pure text fed
only to the external model), the standard library's `json` and `datetime`,
and the current time. -/
structure PipeEnv where
  parsing_instructions : String → String
  tdl_syntax_ref : String → String
  create_analysis_prompt : String → String → String
  create_architecture_prompt : String → String → String
  create_synthesis_prompt : String → String → String
  jsonLoads : String → Except String Json
  jsonDumps : Json → String
  fromIsoformat : String → Option String
  now : String

/-- `tdl_generator._build_source_job_text`.  (The numeric constraint values
flow only into the opaque prompt text, so their float rendering is the
`toString` of the exact rational.) -/
def _build_source_job_text (analysis : RequirementAnalysisResult) : String :=
  let lines := ["# Natural language requirement", pyStrip analysis.source_requirement]
  let lines := lines ++
    (if analysis.detected_actions.isEmpty then []
     else ["", "# Detected actions"] ++
       analysis.detected_actions.map (fun a => "action: " ++ a))
  let lines := lines ++
    (if analysis.objects.isEmpty then []
     else ["", "# Objects"] ++ analysis.objects.map (fun o => "object: " ++ o))
  let lines := lines ++
    (if optTruthy analysis.source_location || optTruthy analysis.target_location then
      ["", "# Locations"] ++
        (if optTruthy analysis.source_location then
          ["source: " ++ analysis.source_location.getD ""] else []) ++
        (if optTruthy analysis.target_location then
          ["target: " ++ analysis.target_location.getD ""] else [])
     else [])
  let lines := lines ++
    (match analysis.constraints.payload_kg, analysis.constraints.reach_m with
     | none, none => []
     | p, r =>
       ["", "# Constraints"] ++
         (match p with
          | some v => ["payload_kg: " ++ toString v]
          | none => []) ++
         (match r with
          | some v => ["reach_m: " ++ toString v]
          | none => []))
  let lines := lines ++
    (if analysis.notes.isEmpty then [] else ["", "# Notes"] ++ analysis.notes)
  pyStrip (joinNl lines)

/-- The final goals/commands completeness gate of the model path. -/
def finalizeTDL (header : TDLHeader) (goals : List GoalNode)
    (cmds : List CommandDefinition) : Except String TDLDocument :=
  if goals.isEmpty ∨ cmds.isEmpty then
    .error "LLM synthesis returned incomplete TDL data"
  else .ok ⟨header, goals, cmds⟩

/-- `tdl_generator._generate_tdl_document_with_llm`: the three-stage model
pipeline; every external fault is an `Except.error`. -/
def _generate_tdl_document_with_llm (env : PipeEnv) (llm : BaseLLM)
    (analysis : RequirementAnalysisResult) (manufacturer model : String) :
    Except String TDLDocument :=
  if (env.parsing_instructions manufacturer).isEmpty then
    .error "No parsing instructions available for prompting"
  else do
    let source_job_file := _build_source_job_text analysis
    let analysis_prompt := env.create_analysis_prompt
      (env.parsing_instructions manufacturer) source_job_file
    let s1 ← llm.generate_json analysis_prompt 4096
    let structured_logic_payload ← env.jsonLoads s1
    let structured_logic_text := env.jsonDumps structured_logic_payload
    let architecture_prompt := env.create_architecture_prompt
      (env.tdl_syntax_ref manufacturer) structured_logic_text
    let s2 ← llm.generate_json architecture_prompt 4096
    let architecture_payload ← env.jsonLoads s2
    let synthesis_prompt := env.create_synthesis_prompt
      (env.jsonDumps architecture_payload) structured_logic_text
    let s3 ← llm.generate_json synthesis_prompt 4096
    let synthesis_payload ← env.jsonLoads s3
    let goal_code ← jsonGetD synthesis_payload "goal_code" (.str "")
    let used_signatures ← jsonGetD synthesis_payload "used_signatures" (.arr [])
    let goal_code_str ← (match goal_code with
      | .str s => Except.ok s
      | _ => Except.error "TypeError: expected string or bytes-like object")
    let goals := _parse_goal_code goal_code_str
    let cmd_defs_json ← jsonGetD architecture_payload "command_definitions" (.obj [])
    let sig_list ← jsonIter used_signatures
    let command_definitions ← parseCmdDefsLoop cmd_defs_json [] [] sig_list
    let logic ← jsonGetD structured_logic_payload "logic" (.obj [])
    let metadata ← jsonGetD logic "metadata" (.obj [])
    let converted_at_str ← jsonGetOpt metadata "converted_at"
    let converted_at := match converted_at_str with
      | some (.str s) => (env.fromIsoformat s).getD env.now
      | _ => env.now
    finalizeTDL ⟨converted_at, analysis.source_requirement, manufacturer, model⟩
      goals command_definitions

/-- The note appended on fallback. -/
def fallbackNote (exc : String) : String :=
  "LLM-driven TDL synthesis failed; heuristic fallback used. (" ++ exc ++ ")"

/-- `tdl_generator.generate_tdl_document`: returns the document together
with the final `analysis.notes` (the source mutates the list in place). -/
def generate_tdl_document (env : PipeEnv) (analysis : RequirementAnalysisResult)
    (manufacturer model : String) (llm : Option BaseLLM) :
    TDLDocument × List String :=
  match llm with
  | some l =>
    (match _generate_tdl_document_with_llm env l analysis manufacturer model with
     | .ok doc => (doc, analysis.notes)
     | .error exc =>
       let notes := analysis.notes ++ [fallbackNote exc]
       (_generate_tdl_document_heuristic env.now { analysis with notes := notes }
          manufacturer model, notes))
  | none =>
    (_generate_tdl_document_heuristic env.now analysis manufacturer model,
      analysis.notes)

theorem heuristic_notes_irrel (now : String) (a : RequirementAnalysisResult)
    (notes' : List String) (manufacturer model : String) :
    _generate_tdl_document_heuristic now { a with notes := notes' } manufacturer model =
      _generate_tdl_document_heuristic now a manufacturer model := rfl

theorem exists_of_bind_ok {α β : Type} {e : Except String α}
    {f : α → Except String β} {b : β} (h : e >>= f = .ok b) :
    ∃ a, e = .ok a ∧ f a = .ok b := by
  cases e with
  | error msg => exact absurd h (by simp [Bind.bind, Except.bind])
  | ok a => exact ⟨a, rfl, by simpa [Bind.bind, Except.bind] using h⟩

theorem finalizeTDL_ok {header : TDLHeader} {goals : List GoalNode}
    {cmds : List CommandDefinition} {doc : TDLDocument}
    (h : finalizeTDL header goals cmds = .ok doc) :
    doc.goals ≠ [] ∧ doc.commands ≠ [] := by
  unfold finalizeTDL at h
  split at h
  · exact absurd h (by simp)
  · rename_i hcond
    rw [not_or] at hcond
    cases h
    constructor
    · simpa using hcond.1
    · simpa using hcond.2

/-- C2: `generate_tdl_document` is total; with no model the heuristic
document is returned with unchanged notes; any model-path fault (a raising
`generate_json`, a JSON-stage failure, or a parse producing zero goals or
zero command definitions) yields exactly the heuristic document with one
fallback note appended; a successful model path never returns zero goals or
zero command definitions; and an always-raising backend always faults. -/
theorem generate_tdl_document_fallback (env : PipeEnv) (llm : BaseLLM)
    (analysis : RequirementAnalysisResult) (manufacturer model : String) :
    (generate_tdl_document env analysis manufacturer model none =
      (_generate_tdl_document_heuristic env.now analysis manufacturer model,
        analysis.notes))
    ∧ (∀ exc, _generate_tdl_document_with_llm env llm analysis manufacturer model =
          .error exc →
        generate_tdl_document env analysis manufacturer model (some llm) =
          (_generate_tdl_document_heuristic env.now analysis manufacturer model,
            analysis.notes ++ [fallbackNote exc]))
    ∧ (∀ doc, _generate_tdl_document_with_llm env llm analysis manufacturer model =
          .ok doc →
        generate_tdl_document env analysis manufacturer model (some llm) =
            (doc, analysis.notes)
          ∧ doc.goals ≠ [] ∧ doc.commands ≠ [])
    ∧ ((∀ p n, ∃ e, llm.generate_json p n = .error e) →
        ∃ exc, _generate_tdl_document_with_llm env llm analysis manufacturer model =
          .error exc) := by
  refine ⟨rfl, ?_, ?_, ?_⟩
  · intro exc h
    simp only [generate_tdl_document, h, heuristic_notes_irrel]
  · intro doc h
    refine ⟨by simp only [generate_tdl_document, h], ?_⟩
    unfold _generate_tdl_document_with_llm at h
    split at h
    · exact absurd h (by simp)
    · obtain ⟨s1, -, h⟩ := exists_of_bind_ok h
      obtain ⟨p1, -, h⟩ := exists_of_bind_ok h
      obtain ⟨s2, -, h⟩ := exists_of_bind_ok h
      obtain ⟨p2, -, h⟩ := exists_of_bind_ok h
      obtain ⟨s3, -, h⟩ := exists_of_bind_ok h
      obtain ⟨p3, -, h⟩ := exists_of_bind_ok h
      obtain ⟨gc, -, h⟩ := exists_of_bind_ok h
      obtain ⟨us, -, h⟩ := exists_of_bind_ok h
      obtain ⟨gcs, -, h⟩ := exists_of_bind_ok h
      obtain ⟨cdj, -, h⟩ := exists_of_bind_ok h
      obtain ⟨sl, -, h⟩ := exists_of_bind_ok h
      obtain ⟨cds, -, h⟩ := exists_of_bind_ok h
      obtain ⟨lg, -, h⟩ := exists_of_bind_ok h
      obtain ⟨md, -, h⟩ := exists_of_bind_ok h
      obtain ⟨cas, -, h⟩ := exists_of_bind_ok h
      exact finalizeTDL_ok h
  · intro hraise
    unfold _generate_tdl_document_with_llm
    split
    · exact ⟨_, rfl⟩
    · obtain ⟨e, he⟩ := hraise (env.create_analysis_prompt
        (env.parsing_instructions manufacturer) (_build_source_job_text analysis)) 4096
      refine ⟨e, ?_⟩
      simp only [he]
      rfl

/-- A pipeline environment whose JSON parser always fails (never reached by
the witness, since the backend itself raises first). -/
def witnessEnv : PipeEnv :=
  ⟨fun _ => "instructions", fun _ => "reference", fun _ _ => "", fun _ _ => "",
    fun _ _ => "", fun _ => .error "json", fun _ => "", fun _ => none,
    "2024-01-01T00:00:00"⟩

/-- A backend whose `generate_json` always raises. -/
def witnessLLM : BaseLLM :=
  ⟨fun _ _ => .error "boom"⟩

/-- C2 witness: with the always-raising backend, the returned document is
the heuristic one and the fallback note is appended. -/
theorem generate_tdl_document_fallback_witness :
    _generate_tdl_document_with_llm witnessEnv witnessLLM
        ⟨"move it", ["move"], [], none, none, ⟨none, none⟩, []⟩ "m" "d" =
      .error "boom" ∧
    generate_tdl_document witnessEnv ⟨"move it", ["move"], [], none, none,
        ⟨none, none⟩, []⟩ "m" "d" (some witnessLLM) =
      (_generate_tdl_document_heuristic "2024-01-01T00:00:00"
          ⟨"move it", ["move"], [], none, none, ⟨none, none⟩, []⟩ "m" "d",
        [fallbackNote "boom"]) := by
  have h : _generate_tdl_document_with_llm witnessEnv witnessLLM
      ⟨"move it", ["move"], [], none, none, ⟨none, none⟩, []⟩ "m" "d" =
      .error "boom" := rfl
  exact ⟨h, (generate_tdl_document_fallback witnessEnv witnessLLM
    ⟨"move it", ["move"], [], none, none, ⟨none, none⟩, []⟩ "m" "d").2.1 "boom" h⟩

/-! ## Character and case-insensitive-literal lemmas for the reach pattern -/

theorem isDigit_toNat {c : Char} (h : c.isDigit = true) :
    48 ≤ c.toNat ∧ c.toNat ≤ 57 := by
  unfold Char.isDigit at h
  simp only [Bool.and_eq_true, decide_eq_true_eq] at h
  exact ⟨h.1, h.2⟩

theorem toLower_digit_eq {c : Char} (h : c.isDigit = true) : c.toLower = c := by
  have hd := isDigit_toNat h
  unfold Char.toLower
  rw [if_neg]
  omega

theorem digit_not_mc {c : Char} (h : c.isDigit = true) :
    c.toLower ≠ 'm' ∧ c.toLower ≠ 'c' := by
  rw [toLower_digit_eq h]
  have hd := isDigit_toNat h
  constructor <;> (intro he; subst he; revert hd; decide)

theorem space_cases {c : Char} (h : isPySpace c = true) :
    c = ' ' ∨ c = '\t' ∨ c = '\n' ∨ c = '\x0d' ∨ c = '\x0b' ∨ c = '\x0c' := by
  simp only [isPySpace, Bool.or_eq_true, decide_eq_true_eq] at h
  tauto

theorem space_not_mc {c : Char} (h : isPySpace c = true) :
    c.toLower ≠ 'm' ∧ c.toLower ≠ 'c' := by
  rcases space_cases h with rfl | rfl | rfl | rfl | rfl | rfl <;>
    exact ⟨by decide, by decide⟩

theorem matchCI_sound {pat l m r : List Char} (h : matchCI pat l = some (m, r)) :
    l = m ++ r ∧ m.map Char.toLower = pat := by
  unfold matchCI at h
  simp only [] at h
  split at h
  · rename_i hc
    simp only [Option.some.injEq, Prod.mk.injEq] at h
    obtain ⟨rfl, rfl⟩ := h
    exact ⟨(List.take_append_drop _ l).symm, hc.2⟩
  · exact absurd h (by simp)

theorem matchCI_complete (pat m r : List Char) (h : m.map Char.toLower = pat) :
    matchCI pat (m ++ r) = some (m, r) := by
  have hlen : m.length = pat.length := by rw [← h, List.length_map]
  unfold matchCI
  rw [if_pos]
  · rw [List.take_left' hlen, List.drop_left' hlen]
  · rw [List.take_left' hlen]
    exact ⟨hlen, h⟩

theorem matchCI_none_head {p0 : Char} {pat : List Char} {c : Char} {l : List Char}
    (h : c.toLower ≠ p0) : matchCI (p0 :: pat) (c :: l) = none := by
  unfold matchCI
  rw [if_neg]
  rintro ⟨-, hmap⟩
  rw [List.length_cons, List.take_succ_cons, List.map_cons] at hmap
  exact h (List.cons.injEq .. ▸ hmap).1

theorem matchCI_none_second {p0 p1 : Char} {pat : List Char} {c d : Char}
    {l : List Char} (h : d.toLower ≠ p1) :
    matchCI (p0 :: p1 :: pat) (c :: d :: l) = none := by
  unfold matchCI
  rw [if_neg]
  rintro ⟨-, hmap⟩
  rw [List.length_cons, List.length_cons, List.take_succ_cons, List.take_succ_cons,
    List.map_cons, List.map_cons] at hmap
  exact h (List.cons.injEq .. ▸ (List.cons.injEq .. ▸ hmap).2).1

theorem matchCI_none_short {pat l : List Char} (h : l.length < pat.length) :
    matchCI pat l = none := by
  unfold matchCI
  rw [if_neg]
  rintro ⟨hlen, -⟩
  rw [List.length_take] at hlen
  omega

theorem matchCIOptS_sound {pat l m r : List Char}
    (h : matchCIOptS pat l = some (m, r)) :
    l = m ++ r ∧ (m.map Char.toLower = pat ∨ m.map Char.toLower = pat ++ ['s']) := by
  unfold matchCIOptS at h
  cases hm : matchCI pat l with
  | none => rw [hm] at h; exact absurd h (by simp)
  | some pr =>
    obtain ⟨m0, r0⟩ := pr
    rw [hm] at h
    obtain ⟨hl, hmap⟩ := matchCI_sound hm
    cases r0 with
    | nil =>
      simp only [Option.some.injEq, Prod.mk.injEq] at h
      obtain ⟨rfl, rfl⟩ := h
      exact ⟨hl, Or.inl hmap⟩
    | cons c r2 =>
      dsimp only at h
      by_cases hs : c.toLower = 's'
      · rw [if_pos hs] at h
        simp only [Option.some.injEq, Prod.mk.injEq] at h
        obtain ⟨rfl, rfl⟩ := h
        refine ⟨by simpa using hl, Or.inr ?_⟩
        rw [List.map_append, hmap]
        simp [hs]
      · rw [if_neg hs] at h
        simp only [Option.some.injEq, Prod.mk.injEq] at h
        obtain ⟨rfl, rfl⟩ := h
        exact ⟨hl, Or.inl hmap⟩

theorem matchCIOptS_none {pat l : List Char} (h : matchCI pat l = none) :
    matchCIOptS pat l = none := by
  unfold matchCIOptS
  rw [h]

theorem matchCIOptS_self {pat m : List Char}
    (h : m.map Char.toLower = pat ∨ m.map Char.toLower = pat ++ ['s']) :
    matchCIOptS pat m = some (m, []) := by
  rcases h with h | h
  · have hc := matchCI_complete pat m [] h
    rw [List.append_nil] at hc
    unfold matchCIOptS
    rw [hc]
  · obtain ⟨m0, m1, rfl, h0, h1⟩ := List.map_eq_append_iff.mp h
    obtain ⟨c, cs, rfl, hc, hcs⟩ := List.map_eq_cons_iff.mp h1
    have hnil : cs = [] := by simpa using hcs
    subst hnil
    have hcm := matchCI_complete pat m0 [c] h0
    unfold matchCIOptS
    rw [hcm]
    dsimp only
    rw [if_pos hc]

/-! ## The unit alternation: soundness, self-matching and failure lemmas -/

theorem unitMatchAt_sound {l u r : List Char} (h : unitMatchAt l = some (u, r)) :
    l = u ++ r ∧
      (u.map Char.toLower = "mm".data ∨ u.map Char.toLower = "millimeter".data ∨
       u.map Char.toLower = "millimeters".data ∨ u.map Char.toLower = "cm".data ∨
       u.map Char.toLower = "centimeter".data ∨ u.map Char.toLower = "centimeters".data ∨
       u.map Char.toLower = "m".data) := by
  unfold unitMatchAt at h
  cases h1 : matchCI "mm".data l with
  | some pr =>
    rw [h1] at h
    cases h
    obtain ⟨hl, hm⟩ := matchCI_sound h1
    exact ⟨hl, Or.inl hm⟩
  | none =>
  rw [h1] at h
  cases h2 : matchCIOptS "millimeter".data l with
  | some pr =>
    rw [h2] at h
    cases h
    obtain ⟨hl, hm⟩ := matchCIOptS_sound h2
    rcases hm with hm | hm
    · exact ⟨hl, Or.inr (Or.inl hm)⟩
    · exact ⟨hl, Or.inr (Or.inr (Or.inl hm))⟩
  | none =>
  rw [h2] at h
  cases h3 : matchCI "cm".data l with
  | some pr =>
    rw [h3] at h
    cases h
    obtain ⟨hl, hm⟩ := matchCI_sound h3
    exact ⟨hl, Or.inr (Or.inr (Or.inr (Or.inl hm)))⟩
  | none =>
  rw [h3] at h
  cases h4 : matchCIOptS "centimeter".data l with
  | some pr =>
    rw [h4] at h
    cases h
    obtain ⟨hl, hm⟩ := matchCIOptS_sound h4
    rcases hm with hm | hm
    · exact ⟨hl, Or.inr (Or.inr (Or.inr (Or.inr (Or.inl hm))))⟩
    · exact ⟨hl, Or.inr (Or.inr (Or.inr (Or.inr (Or.inr (Or.inl hm)))))⟩
  | none =>
  rw [h4] at h
  cases h5 : matchCI "m".data l with
  | some pr =>
    rw [h5] at h
    cases h
    obtain ⟨hl, hm⟩ := matchCI_sound h5
    exact ⟨hl, Or.inr (Or.inr (Or.inr (Or.inr (Or.inr (Or.inr hm)))))⟩
  | none =>
  rw [h5] at h
  exfalso
  obtain ⟨hl, hm⟩ := matchCIOptS_sound h
  have hhead : ∃ c u', u = c :: u' ∧ c.toLower = 'm' := by
    rcases hm with hm | hm
    · obtain ⟨c, u', rfl, hc, -⟩ := List.map_eq_cons_iff.mp hm
      exact ⟨c, u', rfl, hc⟩
    · have hm' : u.map Char.toLower = 'm' :: ("eter".data ++ ['s']) := by
        rw [hm]; rfl
      obtain ⟨c, u', rfl, hc, -⟩ := List.map_eq_cons_iff.mp hm'
      exact ⟨c, u', rfl, hc⟩
  obtain ⟨c, u', rfl, hc⟩ := hhead
  have : matchCI "m".data l = some ([c], u' ++ r) := by
    rw [hl, List.cons_append]
    exact matchCI_complete "m".data [c] (u' ++ r) (by simp [hc])
  rw [h5] at this
  exact absurd this (by simp)

theorem unitMatchAt_self {u : List Char}
    (h : u.map Char.toLower = "mm".data ∨ u.map Char.toLower = "millimeter".data ∨
       u.map Char.toLower = "millimeters".data ∨ u.map Char.toLower = "cm".data ∨
       u.map Char.toLower = "centimeter".data ∨ u.map Char.toLower = "centimeters".data ∨
       u.map Char.toLower = "m".data) :
    unitMatchAt u = some (u, []) := by
  rcases h with h | h | h | h | h | h | h
  · have hc := matchCI_complete "mm".data u [] h
    rw [List.append_nil] at hc
    unfold unitMatchAt
    rw [hc]
  · obtain ⟨c0, u0, rfl, hc0, h0⟩ := List.map_eq_cons_iff.mp h
    obtain ⟨c1, u1, rfl, hc1, h1⟩ := List.map_eq_cons_iff.mp h0
    have hmm : matchCI "mm".data (c0 :: c1 :: u1) = none :=
      matchCI_none_second (by rw [hc1]; decide)
    have hml : matchCIOptS "millimeter".data (c0 :: c1 :: u1) =
        some (c0 :: c1 :: u1, []) :=
      matchCIOptS_self (Or.inl (by simp [hc0, hc1, h1]))
    unfold unitMatchAt
    rw [hmm, hml]
  · obtain ⟨c0, u0, rfl, hc0, h0⟩ := List.map_eq_cons_iff.mp h
    obtain ⟨c1, u1, rfl, hc1, h1⟩ := List.map_eq_cons_iff.mp h0
    have hmm : matchCI "mm".data (c0 :: c1 :: u1) = none :=
      matchCI_none_second (by rw [hc1]; decide)
    have hml : matchCIOptS "millimeter".data (c0 :: c1 :: u1) =
        some (c0 :: c1 :: u1, []) := by
      refine matchCIOptS_self (Or.inr ?_)
      simp only [List.map_cons, hc0, hc1, h1]
      rfl
    unfold unitMatchAt
    rw [hmm, hml]
  · obtain ⟨c0, u0, rfl, hc0, h0⟩ := List.map_eq_cons_iff.mp h
    have hmm : matchCI "mm".data (c0 :: u0) = none :=
      matchCI_none_head (by rw [hc0]; decide)
    have hml : matchCIOptS "millimeter".data (c0 :: u0) = none :=
      matchCIOptS_none (matchCI_none_head (by rw [hc0]; decide))
    have hcm := matchCI_complete "cm".data (c0 :: u0) []
      (by simp [hc0, h0])
    rw [List.append_nil] at hcm
    unfold unitMatchAt
    rw [hmm, hml, hcm]
  · obtain ⟨c0, u0, rfl, hc0, h0⟩ := List.map_eq_cons_iff.mp h
    obtain ⟨c1, u1, rfl, hc1, h1⟩ := List.map_eq_cons_iff.mp h0
    have hmm : matchCI "mm".data (c0 :: c1 :: u1) = none :=
      matchCI_none_head (by rw [hc0]; decide)
    have hml : matchCIOptS "millimeter".data (c0 :: c1 :: u1) = none :=
      matchCIOptS_none (matchCI_none_head (by rw [hc0]; decide))
    have hcm : matchCI "cm".data (c0 :: c1 :: u1) = none :=
      matchCI_none_second (by rw [hc1]; decide)
    have hct : matchCIOptS "centimeter".data (c0 :: c1 :: u1) =
        some (c0 :: c1 :: u1, []) :=
      matchCIOptS_self (Or.inl (by simp [hc0, hc1, h1]))
    unfold unitMatchAt
    rw [hmm, hml, hcm, hct]
  · obtain ⟨c0, u0, rfl, hc0, h0⟩ := List.map_eq_cons_iff.mp h
    obtain ⟨c1, u1, rfl, hc1, h1⟩ := List.map_eq_cons_iff.mp h0
    have hmm : matchCI "mm".data (c0 :: c1 :: u1) = none :=
      matchCI_none_head (by rw [hc0]; decide)
    have hml : matchCIOptS "millimeter".data (c0 :: c1 :: u1) = none :=
      matchCIOptS_none (matchCI_none_head (by rw [hc0]; decide))
    have hcm : matchCI "cm".data (c0 :: c1 :: u1) = none :=
      matchCI_none_second (by rw [hc1]; decide)
    have hct : matchCIOptS "centimeter".data (c0 :: c1 :: u1) =
        some (c0 :: c1 :: u1, []) := by
      refine matchCIOptS_self (Or.inr ?_)
      simp only [List.map_cons, hc0, hc1, h1]
      rfl
    unfold unitMatchAt
    rw [hmm, hml, hcm, hct]
  · obtain ⟨c0, u0, rfl, hc0, h0⟩ := List.map_eq_cons_iff.mp h
    have hu0 : u0 = [] := by simpa using h0
    subst hu0
    have hmm : matchCI "mm".data [c0] = none := matchCI_none_short (by show 1 < 2; decide)
    have hml : matchCIOptS "millimeter".data [c0] = none :=
      matchCIOptS_none (matchCI_none_short (by show 1 < 10; decide))
    have hcm : matchCI "cm".data [c0] = none :=
      matchCI_none_head (by rw [hc0]; decide)
    have hct : matchCIOptS "centimeter".data [c0] = none :=
      matchCIOptS_none (matchCI_none_head (by rw [hc0]; decide))
    have hm2 := matchCI_complete "m".data [c0] [] (by simp [hc0])
    rw [List.append_nil] at hm2
    unfold unitMatchAt
    rw [hmm, hml, hcm, hct, hm2]

theorem unitMatchAt_none_head {c : Char} {l : List Char}
    (h1 : c.toLower ≠ 'm') (h2 : c.toLower ≠ 'c') :
    unitMatchAt (c :: l) = none := by
  unfold unitMatchAt
  rw [@matchCI_none_head 'm' "m".data _ _ h1,
    matchCIOptS_none (@matchCI_none_head 'm' "illimeter".data _ _ h1),
    @matchCI_none_head 'c' "m".data _ _ h2,
    matchCIOptS_none (@matchCI_none_head 'c' "entimeter".data _ _ h2),
    @matchCI_none_head 'm' ([] : List Char) _ _ h1,
    matchCIOptS_none (@matchCI_none_head 'm' "eter".data _ _ h1)]

theorem unitMatchAt_none_ch {c d : Char} {l : List Char} (hc : c.toLower = 'c')
    (hm : d.toLower ≠ 'm') (he : d.toLower ≠ 'e') :
    unitMatchAt (c :: d :: l) = none := by
  have hcm : c.toLower ≠ 'm' := by rw [hc]; decide
  unfold unitMatchAt
  rw [@matchCI_none_head 'm' "m".data _ _ hcm,
    matchCIOptS_none (@matchCI_none_head 'm' "illimeter".data _ _ hcm),
    @matchCI_none_second 'c' 'm' ([] : List Char) _ _ _ hm,
    matchCIOptS_none
      (@matchCI_none_second 'c' 'e' "ntimeter".data _ _ _ he),
    @matchCI_none_head 'm' ([] : List Char) _ _ hcm,
    matchCIOptS_none (@matchCI_none_head 'm' "eter".data _ _ hcm)]

theorem unitSearch_cons_of_none {c : Char} {cs : List Char}
    (h : unitMatchAt (c :: cs) = none) :
    unitSearch (c :: cs) = unitSearch cs := by
  rw [show unitSearch (c :: cs) = (match unitMatchAt (c :: cs) with
      | some (u, _) => some u
      | none => unitSearch cs) from rfl, h]

theorem unitSearch_append_class (p : List Char)
    (h : ∀ c ∈ p, c.toLower ≠ 'm' ∧ c.toLower ≠ 'c') (l : List Char) :
    unitSearch (p ++ l) = unitSearch l := by
  induction p with
  | nil => rfl
  | cons c p' ih =>
    rw [List.cons_append,
      unitSearch_cons_of_none (unitMatchAt_none_head
        (h c (List.mem_cons_self c p')).1 (h c (List.mem_cons_self c p')).2)]
    exact ih (fun d hd => h d (List.mem_cons_of_mem c hd))

/-! ## Characterisation of successful reach matches -/

/-- The shapes (case-insensitively) a matched unit can take. -/
abbrev unitShape (u : List Char) : Prop :=
  u.map Char.toLower = "mm".data ∨ u.map Char.toLower = "millimeter".data ∨
    u.map Char.toLower = "millimeters".data ∨ u.map Char.toLower = "cm".data ∨
    u.map Char.toLower = "centimeter".data ∨ u.map Char.toLower = "centimeters".data ∨
    u.map Char.toLower = "m".data

/-- Structural facts that hold of every successful reach match. -/
abbrev ReachInfoWF (ri : ReachInfo) : Prop :=
  (ri.reachLit.map Char.toLower = "reach".data ∨
      ri.reachLit.map Char.toLower = "reaches".data)
    ∧ (∀ c ∈ ri.ws1, isPySpace c = true)
    ∧ (∀ c ∈ ri.intPart, c.isDigit = true)
    ∧ (∀ f, ri.fracPart = some f → ∀ c ∈ f, c.isDigit = true)
    ∧ (∀ c ∈ ri.ws2, isPySpace c = true)
    ∧ unitShape ri.unit

theorem numMatchAt_sound {l ds : List Char} {fs : Option (List Char)}
    {rest : List Char} (h : numMatchAt l = some (ds, fs, rest)) :
    (∀ c ∈ ds, c.isDigit = true) ∧ (∀ f, fs = some f → ∀ c ∈ f, c.isDigit = true) := by
  unfold numMatchAt at h
  simp only [] at h
  split at h
  · exact absurd h (by simp)
  · split at h
    · split at h
      · simp only [Option.some.injEq, Prod.mk.injEq] at h
        obtain ⟨rfl, rfl, rfl⟩ := h
        exact ⟨fun c hc => List.mem_takeWhile_imp hc, by simp⟩
      · simp only [Option.some.injEq, Prod.mk.injEq] at h
        obtain ⟨rfl, rfl, rfl⟩ := h
        refine ⟨fun c hc => List.mem_takeWhile_imp hc, ?_⟩
        intro f hf c hc
        injection hf with hf
        subst hf
        exact List.mem_takeWhile_imp hc
    · simp only [Option.some.injEq, Prod.mk.injEq] at h
      obtain ⟨rfl, rfl, rfl⟩ := h
      exact ⟨fun c hc => List.mem_takeWhile_imp hc, by simp⟩

theorem reachNumUnit_sound {lit l : List Char} {ri : ReachInfo}
    (h : reachNumUnit lit l = some ri) :
    ri.reachLit = lit ∧ (∀ c ∈ ri.ws1, isPySpace c = true)
      ∧ (∀ c ∈ ri.intPart, c.isDigit = true)
      ∧ (∀ f, ri.fracPart = some f → ∀ c ∈ f, c.isDigit = true)
      ∧ (∀ c ∈ ri.ws2, isPySpace c = true)
      ∧ unitShape ri.unit := by
  unfold reachNumUnit at h
  simp only [] at h
  cases hn : numMatchAt (l.dropWhile isPySpace) with
  | none => rw [hn] at h; exact absurd h (by simp)
  | some tr =>
    obtain ⟨ds, fs, rest⟩ := tr
    rw [hn] at h
    dsimp only at h
    cases hu : unitMatchAt (rest.dropWhile isPySpace) with
    | none => rw [hu] at h; exact absurd h (by simp)
    | some pr =>
      obtain ⟨u, r2⟩ := pr
      rw [hu] at h
      dsimp only at h
      cases h
      obtain ⟨hds, hfs⟩ := numMatchAt_sound hn
      refine ⟨rfl, fun c hc => List.mem_takeWhile_imp hc, hds, hfs,
        fun c hc => List.mem_takeWhile_imp hc, (unitMatchAt_sound hu).2⟩

theorem reachMatchAt_sound {l : List Char} {ri : ReachInfo}
    (h : reachMatchAt l = some ri) : ReachInfoWF ri := by
  unfold reachMatchAt at h
  cases h1 : matchCI "reach".data l with
  | none => rw [h1] at h; exact absurd h (by simp)
  | some pr =>
    obtain ⟨lit, r0⟩ := pr
    rw [h1] at h
    dsimp only at h
    have hlit := (matchCI_sound h1).2
    cases h2 : matchCI "es".data r0 with
    | none =>
      rw [h2] at h
      obtain ⟨hlit', rest⟩ := reachNumUnit_sound h
      exact ⟨Or.inl (by rw [hlit', hlit]), rest⟩
    | some pr2 =>
      obtain ⟨es, r1⟩ := pr2
      rw [h2] at h
      dsimp only at h
      have hes := (matchCI_sound h2).2
      cases h3 : reachNumUnit (lit ++ es) r1 with
      | some ri' =>
        rw [h3] at h
        cases h
        obtain ⟨hlit', rest⟩ := reachNumUnit_sound h3
        refine ⟨Or.inr ?_, rest⟩
        rw [hlit', List.map_append, hlit, hes]
        rfl
      | none =>
        rw [h3] at h
        obtain ⟨hlit', rest⟩ := reachNumUnit_sound h
        exact ⟨Or.inl (by rw [hlit', hlit]), rest⟩

theorem reachScan_sound : ∀ {l : List Char} {ri : ReachInfo},
    reachScan l = some ri → ReachInfoWF ri := by
  intro l
  induction l with
  | nil => intro ri h; exact absurd h (by simp [reachScan])
  | cons c cs ih =>
    intro ri h
    unfold reachScan at h
    cases hm : reachMatchAt (c :: cs) with
    | some ri' =>
      rw [hm] at h
      cases h
      exact reachMatchAt_sound hm
    | none =>
      rw [hm] at h
      exact ih h

/-! ## The inner unit search always re-finds the matched unit -/

theorem unitSearch_cons_of_some {c : Char} {cs u r : List Char}
    (h : unitMatchAt (c :: cs) = some (u, r)) :
    unitSearch (c :: cs) = some u := by
  rw [show unitSearch (c :: cs) = (match unitMatchAt (c :: cs) with
      | some (u, _) => some u
      | none => unitSearch cs) from rfl, h]

theorem unitSearch_reachLit {lit : List Char} (rest : List Char)
    (h : lit.map Char.toLower = "reach".data ∨
      lit.map Char.toLower = "reaches".data) :
    unitSearch (lit ++ rest) = unitSearch rest := by
  rcases h with h | h
  · obtain ⟨c0, l0, rfl, hc0, h0⟩ := List.map_eq_cons_iff.mp h
    obtain ⟨c1, l1, rfl, hc1, h1⟩ := List.map_eq_cons_iff.mp h0
    obtain ⟨c2, l2, rfl, hc2, h2⟩ := List.map_eq_cons_iff.mp h1
    obtain ⟨c3, l3, rfl, hc3, h3⟩ := List.map_eq_cons_iff.mp h2
    obtain ⟨c4, l4, rfl, hc4, h4⟩ := List.map_eq_cons_iff.mp h3
    have hl4 : l4 = [] := by simpa using h4
    subst hl4
    simp only [List.cons_append, List.nil_append]
    rw [unitSearch_cons_of_none (unitMatchAt_none_head (by rw [hc0]; decide)
        (by rw [hc0]; decide)),
      unitSearch_cons_of_none (unitMatchAt_none_head (by rw [hc1]; decide)
        (by rw [hc1]; decide)),
      unitSearch_cons_of_none (unitMatchAt_none_head (by rw [hc2]; decide)
        (by rw [hc2]; decide)),
      unitSearch_cons_of_none (unitMatchAt_none_ch hc3 (by rw [hc4]; decide)
        (by rw [hc4]; decide)),
      unitSearch_cons_of_none (unitMatchAt_none_head (by rw [hc4]; decide)
        (by rw [hc4]; decide))]
  · obtain ⟨c0, l0, rfl, hc0, h0⟩ := List.map_eq_cons_iff.mp h
    obtain ⟨c1, l1, rfl, hc1, h1⟩ := List.map_eq_cons_iff.mp h0
    obtain ⟨c2, l2, rfl, hc2, h2⟩ := List.map_eq_cons_iff.mp h1
    obtain ⟨c3, l3, rfl, hc3, h3⟩ := List.map_eq_cons_iff.mp h2
    obtain ⟨c4, l4, rfl, hc4, h4⟩ := List.map_eq_cons_iff.mp h3
    obtain ⟨c5, l5, rfl, hc5, h5⟩ := List.map_eq_cons_iff.mp h4
    obtain ⟨c6, l6, rfl, hc6, h6⟩ := List.map_eq_cons_iff.mp h5
    have hl6 : l6 = [] := by simpa using h6
    subst hl6
    simp only [List.cons_append, List.nil_append]
    rw [unitSearch_cons_of_none (unitMatchAt_none_head (by rw [hc0]; decide)
        (by rw [hc0]; decide)),
      unitSearch_cons_of_none (unitMatchAt_none_head (by rw [hc1]; decide)
        (by rw [hc1]; decide)),
      unitSearch_cons_of_none (unitMatchAt_none_head (by rw [hc2]; decide)
        (by rw [hc2]; decide)),
      unitSearch_cons_of_none (unitMatchAt_none_ch hc3 (by rw [hc4]; decide)
        (by rw [hc4]; decide)),
      unitSearch_cons_of_none (unitMatchAt_none_head (by rw [hc4]; decide)
        (by rw [hc4]; decide)),
      unitSearch_cons_of_none (unitMatchAt_none_head (by rw [hc5]; decide)
        (by rw [hc5]; decide)),
      unitSearch_cons_of_none (unitMatchAt_none_head (by rw [hc6]; decide)
        (by rw [hc6]; decide))]

theorem unitShape_ne_nil {u : List Char} (h : unitShape u) : u ≠ [] := by
  rcases h with h | h | h | h | h | h | h <;> (intro he; subst he; simp at h)

theorem unitSearch_group0 {ri : ReachInfo} (h : ReachInfoWF ri) :
    unitSearch ri.group0 = some ri.unit := by
  obtain ⟨hlit, hws1, hint, hfrac, hws2, hunit⟩ := h
  unfold ReachInfo.group0
  simp only [List.append_assoc]
  rw [unitSearch_reachLit _ hlit,
    unitSearch_append_class ri.ws1 (fun c hc => space_not_mc (hws1 c hc)),
    unitSearch_append_class ri.intPart (fun c hc => digit_not_mc (hint c hc))]
  have hrest : unitSearch ((match ri.fracPart with
      | none => []
      | some f => '.' :: f) ++ (ri.ws2 ++ ri.unit)) = unitSearch ri.unit := by
    cases hf : ri.fracPart with
    | none =>
      dsimp only
      rw [List.nil_append,
        unitSearch_append_class ri.ws2 (fun c hc => space_not_mc (hws2 c hc))]
    | some f =>
      dsimp only
      rw [List.cons_append,
        unitSearch_cons_of_none (unitMatchAt_none_head (by decide) (by decide)),
        unitSearch_append_class f (fun c hc => digit_not_mc (hfrac f hf c hc)),
        unitSearch_append_class ri.ws2 (fun c hc => space_not_mc (hws2 c hc))]
  rw [hrest]
  obtain ⟨c, cs, hcc⟩ := List.exists_cons_of_ne_nil (unitShape_ne_nil hunit)
  rw [hcc]
  exact unitSearch_cons_of_some (hcc ▸ unitMatchAt_self hunit)

/-! ## Claim C6: reach extraction -/

/-- Modelled from the claim's words (not the source): the conversion table
`mm=0.001, cm=0.01, m=1.0`, extended to the full spellings and applied after
folding a plural unit form to its singular. -/
def claimFactor (u : List Char) : Option ℚ :=
  match (⟨pyRStripS u⟩ : String) with
  | "mm" => some (1/1000)
  | "millimeter" => some (1/1000)
  | "cm" => some (1/100)
  | "centimeter" => some (1/100)
  | "m" => some 1
  | "meter" => some 1
  | _ => none

/-- Modelled from the claim's words (not the source): a number immediately
followed by a distance unit starts here. -/
def claimNumberUnitAt (l : List Char) : Bool :=
  match numMatchAt l with
  | some (_, _, rest) => (unitMatchAt rest).isSome
  | none => false

/-- Modelled from the claim's words (not the source): the text contains a
number immediately followed by a distance unit. -/
def claimNumberUnit : List Char → Bool
  | [] => false
  | c :: cs => claimNumberUnitAt (c :: cs) || claimNumberUnit cs

theorem normalize_distance_eq (v : ℚ) (s : String) :
    normalize_distance v s =
      match METRIC_CONVERSIONS.lookup
          (⟨pyRStripS (s.data.map Char.toLower)⟩ : String) with
      | none => v
      | some f => v * f := rfl

theorem claimFactor_normalize {u : List Char} (h : unitShape u) :
    ∃ f, claimFactor (u.map Char.toLower) = some f ∧
      ∀ v : ℚ, normalize_distance v ⟨u⟩ = v * f := by
  have he : (String.data ⟨u⟩) = u := rfl
  rcases h with h | h | h | h | h | h | h
  · exact ⟨1/1000, by rw [h]; rfl, fun v => by rw [normalize_distance_eq, he, h]; rfl⟩
  · exact ⟨1/1000, by rw [h]; rfl, fun v => by rw [normalize_distance_eq, he, h]; rfl⟩
  · exact ⟨1/1000, by rw [h]; rfl, fun v => by rw [normalize_distance_eq, he, h]; rfl⟩
  · exact ⟨1/100, by rw [h]; rfl, fun v => by rw [normalize_distance_eq, he, h]; rfl⟩
  · exact ⟨1/100, by rw [h]; rfl, fun v => by rw [normalize_distance_eq, he, h]; rfl⟩
  · exact ⟨1/100, by rw [h]; rfl, fun v => by rw [normalize_distance_eq, he, h]; rfl⟩
  · exact ⟨1, by rw [h]; rfl, fun v => by rw [normalize_distance_eq, he, h]; rfl⟩

/-- C6 (counterexample): the input "carry the box 500mm" contains a number
immediately followed by a distance unit, yet heuristic analysis records no
`reach_m` constraint — the source pattern additionally requires the literal
keyword `reach(es)` before the number. -/
theorem reach_unit_without_keyword :
    claimNumberUnit "carry the box 500mm".data = true ∧
      (analyze_requirement_heuristic
        "carry the box 500mm").constraints.reach_m = none :=
  ⟨by decide, by decide⟩

/-- C6 (amended): heuristic analysis records a `reach_m` constraint exactly
when the text matches `reach(es)? <number> <distance-unit>`; on a match the
recorded value is the matched number times the unit's conversion factor
(mm=0.001, cm=0.01, m=1.0), plural unit forms folded to singular before the
table lookup. -/
theorem reach_constraint_amended (t : String) :
    ((analyze_requirement_heuristic t).constraints.reach_m = none ↔
        reachScan t.data = none)
      ∧ ∀ ri, reachScan t.data = some ri →
          ∃ f, claimFactor (ri.unit.map Char.toLower) = some f ∧
            (analyze_requirement_heuristic t).constraints.reach_m =
              some (numValue ri.intPart ri.fracPart * f) := by
  have hre : (analyze_requirement_heuristic t).constraints.reach_m
      = extract_reach t := rfl
  constructor
  · rw [hre]
    unfold extract_reach
    cases hs : reachScan t.data with
    | none => simp
    | some ri =>
      dsimp only
      cases hu : unitSearch ri.group0 <;> simp [hu]
  · intro ri hs
    rw [hre]
    unfold extract_reach
    rw [hs]
    dsimp only
    have hwf := reachScan_sound hs
    rw [unitSearch_group0 hwf]
    obtain ⟨f, hf, hn⟩ := claimFactor_normalize hwf.2.2.2.2.2
    refine ⟨f, hf, ?_⟩
    dsimp only
    rw [hn]

theorem reach_constraint_amended_witness :
    reachScan "arm reach 50 cm".data =
        some ⟨"reach".data, [' '], ['5', '0'], none, [' '], "cm".data⟩ ∧
      ∃ f, claimFactor ("cm".data.map Char.toLower) = some f ∧
        (analyze_requirement_heuristic "arm reach 50 cm").constraints.reach_m =
          some (numValue ['5', '0'] none * f) := by
  have hs : reachScan "arm reach 50 cm".data =
      some ⟨"reach".data, [' '], ['5', '0'], none, [' '], "cm".data⟩ := by decide
  exact ⟨hs, (reach_constraint_amended "arm reach 50 cm").2 _ hs⟩

/-! ## Claim C4: render/parse round trip -/

/-- A character that may appear in rendered goal descriptions and command
invocations without disturbing the GOAL block scan: not the closing brace
and not a line boundary. -/
def goodChar (c : Char) : Bool :=
  !(c == '\x7d') && !(isLineBreakChar c)

/-- Well-formedness of one goal for faithful re-parsing: a nonempty
word-character name, and a nonempty whitespace-trimmed single-line
brace-free description and command invocations. -/
def goalWF (g : GoalNode) : Bool :=
  !g.name.data.isEmpty && g.name.data.all isWordChar &&
    !g.description.data.isEmpty &&
    (pyStripL g.description.data == g.description.data) &&
    g.description.data.all goodChar &&
    g.commands.all (fun cmd =>
      !cmd.data.isEmpty && (pyStripL cmd.data == cmd.data) && cmd.data.all goodChar)

/-- The `(...)` shape of a rendered signature: an open parenthesis, an
interior free of close parentheses, then the single close parenthesis. -/
def sigShape : List Char → Bool
  | '(' :: rest =>
    !rest.isEmpty && rest.dropLast.all (fun c => !(c == ')')) &&
      (rest.getLast? == some ')')
  | _ => false

/-- Well-formedness of one command definition for faithful re-extraction. -/
def cmdWF (d : CommandDefinition) : Bool :=
  !d.name.data.isEmpty && d.name.data.all isWordChar &&
    sigShape d.signature.data &&
    !d.body.data.isEmpty && (pyStripL d.body.data == d.body.data)

/-- Well-formedness of a document for the rendering round trip: no `GOAL`
occurrence in the rendered header or in the command section, at least one
command definition, and well-formed goals and command definitions. -/
def docRenderWF (doc : TDLDocument) : Bool :=
  !(containsSub "GOAL".data (headerBlock doc.header).data) &&
    !(containsSub "GOAL".data (joinNl (doc.commands.map commandBlock)).data) &&
    !doc.commands.isEmpty &&
    doc.goals.all goalWF && doc.commands.all cmdWF

/-! ### Substring and strip utilities -/

theorem containsSub_iff {n l : List Char} : containsSub n l = true ↔ n <:+: l := by
  induction l with
  | nil =>
    simp only [containsSub, List.isEmpty_iff]
    constructor
    · rintro rfl; exact List.infix_refl []
    · intro h; exact List.eq_nil_of_infix_nil h
  | cons c cs ih =>
    simp only [containsSub, Bool.or_eq_true, List.isPrefixOf_iff_prefix, ih]
    constructor
    · rintro (h | h)
      · exact h.isInfix
      · exact List.infix_cons h
    · intro h
      rcases List.infix_cons_iff.mp h with h | h
      · exact Or.inl h
      · exact Or.inr h

theorem dropWhile_eq_nil_of_all {p : Char → Bool} {l : List Char}
    (h : ∀ c ∈ l, p c = true) : l.dropWhile p = [] := by
  induction l with
  | nil => rfl
  | cons c cs ih =>
    rw [List.dropWhile_cons, if_pos (h c (by simp))]
    exact ih fun d hd => h d (by simp [hd])

theorem dropWhile_append_all {p : Char → Bool} {a : List Char} (b : List Char)
    (h : ∀ c ∈ a, p c = true) :
    (a ++ b).dropWhile p = b.dropWhile p := by
  rw [List.dropWhile_append, if_pos]
  simp [dropWhile_eq_nil_of_all h]

theorem takeWhile_append_all {p : Char → Bool} {a : List Char} (b : List Char)
    (h : ∀ c ∈ a, p c = true) :
    (a ++ b).takeWhile p = a ++ b.takeWhile p := by
  rw [List.takeWhile_append, if_pos]
  rw [List.takeWhile_eq_self_iff.mpr h]

theorem dropWhile_cons_neg {p : Char → Bool} {c : Char} (l : List Char)
    (h : p c = false) : (c :: l).dropWhile p = c :: l := by
  rw [List.dropWhile_cons, if_neg (by simp [h])]

theorem takeWhile_cons_neg {p : Char → Bool} {c : Char} (l : List Char)
    (h : p c = false) : (c :: l).takeWhile p = [] := by
  rw [List.takeWhile_cons, if_neg (by simp [h])]

theorem pyRStripL_append {a b : List Char} (h : pyRStripL b ≠ []) :
    pyRStripL (a ++ b) = a ++ pyRStripL b := by
  unfold pyRStripL at *
  rw [List.reverse_append, List.dropWhile_append, if_neg, List.reverse_append,
    List.reverse_reverse]
  intro he
  rw [List.isEmpty_iff] at he
  rw [he] at h
  exact h rfl

theorem pyRStripL_ne_nil_of_mem {c : Char} {l : List Char} (hc : c ∈ l)
    (hs : isPySpace c = false) : pyRStripL l ≠ [] := by
  unfold pyRStripL
  intro h
  have h2 : l.reverse.dropWhile isPySpace = [] := by
    have := congrArg List.reverse h
    simpa using this
  have hall := List.dropWhile_eq_nil_iff.mp h2
  have := hall c (by simpa using hc)
  rw [hs] at this
  exact absurd this (by simp)

theorem pyStripL_cons_nonspace {c : Char} {l : List Char}
    (h : isPySpace c = false) : pyStripL (c :: l) = pyRStripL (c :: l) := by
  unfold pyStripL pyRStripL
  rw [dropWhile_cons_neg _ h]

theorem sub_pyRStripL {n l : List Char} (h : n <:+: l) {c : Char}
    (hlast : n.getLast? = some c) (hc : isPySpace c = false) :
    n <:+: pyRStripL l := by
  obtain ⟨a, b, rfl⟩ := h
  have hrev : (a ++ n ++ b).reverse = b.reverse ++ (n.reverse ++ a.reverse) := by
    simp [List.reverse_append, List.append_assoc]
  unfold pyRStripL
  rw [hrev, List.dropWhile_append]
  have hhead : n.reverse.head? = some c := by
    rw [List.head?_reverse, hlast]
  have hne : n.reverse ≠ [] := by
    intro he; rw [he] at hhead; exact absurd hhead (by simp)
  obtain ⟨c0, cs0, hc0⟩ := List.exists_cons_of_ne_nil hne
  have hc0c : c0 = c := by
    rw [hc0] at hhead; simpa using hhead
  split
  · rw [hc0, List.cons_append, dropWhile_cons_neg _ (hc0c ▸ hc)]
    rw [← List.cons_append, ← hc0, List.reverse_append, List.reverse_reverse]
    exact ⟨a, [], by simp⟩
  · exact ⟨a, (List.dropWhile isPySpace b.reverse).reverse,
      by simp [List.reverse_append, List.append_assoc]⟩

theorem pyStripL_sub (l : List Char) : pyStripL l <:+: l := by
  unfold pyStripL
  have h1 : l.dropWhile isPySpace <:+ l := List.dropWhile_suffix _
  have h2 : ((l.dropWhile isPySpace).reverse.dropWhile isPySpace).reverse
      <+: l.dropWhile isPySpace := by
    rw [← List.reverse_suffix, List.reverse_reverse]
    exact List.dropWhile_suffix _
  exact h2.isInfix.trans h1.isInfix

/-! ### Character-class and fixed-point helpers -/

theorem word_not_space {c : Char} (h : isWordChar c = true) :
    isPySpace c = false := by
  cases he : isPySpace c
  · rfl
  · rcases space_cases he with rfl | rfl | rfl | rfl | rfl | rfl <;>
      exact absurd h (by decide)

theorem goodChar_spec {c : Char} (h : goodChar c = true) :
    c ≠ '\x7d' ∧ isLineBreakChar c = false := by
  simp only [goodChar, Bool.and_eq_true, Bool.not_eq_true',
    beq_eq_false_iff_ne] at h
  exact h

theorem dropWhile_self_head {p : Char → Bool} {c : Char} {cs : List Char}
    (h : List.dropWhile p (c :: cs) = c :: cs) : p c = false := by
  cases hp : p c
  · rfl
  · rw [List.dropWhile_cons, if_pos hp] at h
    have hlen := congrArg List.length h
    have := (List.dropWhile_suffix p (l := cs)).length_le
    simp at hlen
    omega

theorem pyStripL_fixed {l : List Char} (h : pyStripL l = l) :
    l.dropWhile isPySpace = l ∧ l.reverse.dropWhile isPySpace = l.reverse := by
  unfold pyStripL at h
  have hlen1 : l.length ≤ (l.dropWhile isPySpace).length := by
    have h1 := congrArg List.length h
    have h2 := (List.dropWhile_suffix (l := (l.dropWhile isPySpace).reverse)
      isPySpace).length_le
    simp at h1 h2
    omega
  have hd : l.dropWhile isPySpace = l :=
    (List.dropWhile_suffix _).eq_of_length
      (le_antisymm (List.dropWhile_suffix isPySpace (l := l)).length_le hlen1)
  rw [hd] at h
  have hrev : l.reverse.dropWhile isPySpace = l.reverse := by
    have := congrArg List.reverse h
    simpa using this
  exact ⟨hd, hrev⟩

/-! ### GOAL sweep lemmas -/

theorem goalMatchAt_eq_none {l : List Char}
    (h : "GOAL".data.isPrefixOf l = false) : goalMatchAt l = none := by
  unfold goalMatchAt
  rw [h]
  simp

theorem goalMatchAt_head_ne {c : Char} (l : List Char) (h : c ≠ 'G') :
    goalMatchAt (c :: l) = none := by
  refine goalMatchAt_eq_none ?_
  cases hp : "GOAL".data.isPrefixOf (c :: l)
  · rfl
  · have := List.isPrefixOf_iff_prefix.mp hp
    rw [show "GOAL".data = 'G' :: "OAL".data from rfl] at this
    rcases List.cons_prefix_cons.mp this with ⟨h1, -⟩
    exact absurd h1.symm h

theorem goalMatchTail_rest_suffix {r0 : List Char}
    {m : List Char × List Char} {rest : List Char}
    (h : goalMatchTail r0 = some (m, rest)) : rest <:+ r0 := by
  unfold goalMatchTail at h
  split at h
  · exact absurd h (by simp)
  · simp only [] at h
    split at h
    · exact absurd h (by simp)
    · split at h
      case h_2 => exact absurd h (by simp)
      case h_1 r4 heq1 =>
        split at h
        case h_2 => exact absurd h (by simp)
        case h_1 r6 heq2 =>
          split at h
          case h_2 => exact absurd h (by simp)
          case h_1 r8 heq3 =>
            split at h
            case h_2 => exact absurd h (by simp)
            case h_1 r10 heq4 =>
              simp only [Option.some.injEq, Prod.mk.injEq] at h
              obtain ⟨-, rfl⟩ := h
              have s10 : r10 <:+ r8 := by
                have hs := List.dropWhile_suffix
                  (fun c => decide (c ≠ '\x7d')) (l := r8)
                rw [heq4] at hs
                exact (List.suffix_cons _ _).trans hs
              have s8 : r8 <:+ r6 := by
                have hs := List.dropWhile_suffix isPySpace (l := r6)
                rw [heq3] at hs
                exact (List.suffix_cons _ _).trans hs
              have s6 : r6 <:+ r0 := by
                have hs1 := List.dropWhile_suffix (fun c => decide (c ≠ ')'))
                  (l := r4)
                rw [heq2] at hs1
                have hs2 := List.dropWhile_suffix isPySpace
                  (l := (r0.dropWhile isPySpace).dropWhile isWordChar)
                rw [heq1] at hs2
                have hs3 := List.dropWhile_suffix isWordChar
                  (l := r0.dropWhile isPySpace)
                have hs4 := List.dropWhile_suffix isPySpace (l := r0)
                exact ((List.suffix_cons _ _).trans hs1).trans
                  ((((List.suffix_cons _ _).trans hs2).trans hs3).trans hs4)
              exact (s10.trans s8).trans s6

theorem goalMatchAt_rest_length {l : List Char} {m : List Char × List Char}
    {rest : List Char} (h : goalMatchAt l = some (m, rest)) :
    rest.length < l.length := by
  unfold goalMatchAt at h
  split at h
  · rename_i hp
    have hs := (goalMatchTail_rest_suffix h).length_le
    have hp' := (List.isPrefixOf_iff_prefix.mp hp).length_le
    simp [List.length_drop] at hs
    simp at hp'
    omega
  · exact absurd h (by simp)

theorem goalFindAux_skip : ∀ (s t : List Char) (fuel : Nat),
    (∀ b, b <:+ s → b ≠ [] → "GOAL".data.isPrefixOf (b ++ t) = false) →
    goalFindAux (s.length + fuel) (s ++ t) = goalFindAux fuel t := by
  intro s
  induction s with
  | nil => intro t fuel h; simp
  | cons c s' ih =>
    intro t fuel h
    have hstep : goalFindAux ((c :: s').length + fuel) ((c :: s') ++ t)
        = goalFindAux (s'.length + fuel) (s' ++ t) := by
      have hlen : (c :: s').length + fuel = (s'.length + fuel) + 1 := by
        simp [List.length_cons]
        omega
      rw [hlen, List.cons_append]
      rw [show goalFindAux ((s'.length + fuel) + 1) (c :: (s' ++ t))
          = (match goalMatchAt (c :: (s' ++ t)) with
             | some (m, rest) => m :: goalFindAux (s'.length + fuel) rest
             | none => goalFindAux (s'.length + fuel) (s' ++ t)) from rfl]
      rw [goalMatchAt_eq_none (by
        have := h (c :: s') (List.suffix_refl _) (by simp)
        rwa [List.cons_append] at this)]
    rw [hstep]
    exact ih t fuel fun b hb hbne => h b (hb.trans (List.suffix_cons c s')) hbne

theorem goalFindAux_nil_of_noGoal : ∀ (fuel : Nat) (l : List Char),
    ¬ "GOAL".data <:+: l → goalFindAux fuel l = [] := by
  intro fuel
  induction fuel with
  | zero => intro l h; rfl
  | succ n ih =>
    intro l h
    cases l with
    | nil => rfl
    | cons c cs =>
      rw [show goalFindAux (n + 1) (c :: cs) = (match goalMatchAt (c :: cs) with
          | some (m, rest) => m :: goalFindAux n rest
          | none => goalFindAux n cs) from rfl]
      rw [goalMatchAt_eq_none (by
        cases hp : "GOAL".data.isPrefixOf (c :: cs)
        · rfl
        · exact absurd (List.isPrefixOf_iff_prefix.mp hp).isInfix h)]
      exact ih cs fun hi => h (List.infix_cons hi)

/-! ### Rendered goal bodies and their line-level re-parsing -/

/-- The characters a rendered goal block places between its braces. -/
def goalBody (g : GoalNode) : List Char :=
  "\n    // ".data ++ (g.description.data ++
    ('\n' :: ((joinNl (g.commands.map (fun cmd => "    SPAWN " ++ cmd))).data
      ++ ['\n'])))

theorem pyRStripL_append_fixed {a : List Char} {s : String} (hne : s.data ≠ [])
    (hf : pyStripL s.data = s.data) : pyRStripL (a ++ s.data) = a ++ s.data := by
  have hrev := (pyStripL_fixed hf).2
  obtain ⟨d, ds, hd⟩ := List.exists_cons_of_ne_nil
    (fun he => hne (by simpa using congrArg List.reverse he) : s.data.reverse ≠ [])
  have hdns : isPySpace d = false := by
    rw [hd] at hrev; exact dropWhile_self_head hrev
  unfold pyRStripL
  rw [List.reverse_append, hd, List.cons_append, dropWhile_cons_neg _ hdns,
    ← List.cons_append, ← hd, List.reverse_append, List.reverse_reverse,
    List.reverse_reverse]

theorem strip_spawn_line {cmd : String} (hne : cmd.data ≠ [])
    (hf : pyStripL cmd.data = cmd.data) :
    pyStripL ("    SPAWN ".data ++ cmd.data) = "SPAWN ".data ++ cmd.data := by
  have hL : ("    SPAWN ".data ++ cmd.data).dropWhile isPySpace
      = "SPAWN ".data ++ cmd.data := by
    rw [show "    SPAWN ".data ++ cmd.data
        = "    ".data ++ ("SPAWN ".data ++ cmd.data) from by simp,
      dropWhile_append_all _ (by decide),
      show "SPAWN ".data ++ cmd.data = 'S' :: ("PAWN ".data ++ cmd.data) from rfl,
      dropWhile_cons_neg _ (by decide)]
  have h2 : pyStripL ("    SPAWN ".data ++ cmd.data)
      = pyRStripL ("SPAWN ".data ++ cmd.data) := by
    unfold pyStripL pyRStripL
    rw [hL]
  rw [h2, pyRStripL_append_fixed hne hf]

theorem strip_comment_line {desc : String} (hne : desc.data ≠ [])
    (hf : pyStripL desc.data = desc.data) :
    pyStripL ("// ".data ++ desc.data) = "// ".data ++ desc.data := by
  rw [show "// ".data ++ desc.data = '/' :: ("/ ".data ++ desc.data) from rfl,
    pyStripL_cons_nonspace (by decide),
    show '/' :: ("/ ".data ++ desc.data) = "// ".data ++ desc.data from rfl]
  exact pyRStripL_append_fixed hne hf

theorem splitlinesAux_newline (acc b : List Char) :
    splitlinesAux acc ('\n' :: b) = acc.reverse :: splitlinesAux [] b := by
  cases b <;> rfl

theorem splitlinesAux_cons_nonbreak {c : Char} (h : isLineBreakChar c = false)
    (acc rest : List Char) :
    splitlinesAux acc (c :: rest) = splitlinesAux (c :: acc) rest := by
  have hcr : c ≠ '\x0d' := by
    intro he; subst he; exact absurd h (by decide)
  cases rest with
  | nil =>
    show (if isLineBreakChar c then [acc.reverse] else [(c :: acc).reverse])
      = splitlinesAux (c :: acc) []
    rw [if_neg (by simp [h])]
    rfl
  | cons d rest' =>
    show (if c = '\x0d' ∧ d = '\n' then acc.reverse :: splitlinesAux [] rest'
        else if isLineBreakChar c then acc.reverse :: splitlinesAux [] (d :: rest')
        else splitlinesAux (c :: acc) (d :: rest'))
      = splitlinesAux (c :: acc) (d :: rest')
    rw [if_neg (by intro hh; exact hcr hh.1), if_neg (by simp [h])]

theorem splitlinesAux_break (a : List Char) :
    ∀ (acc b : List Char), (∀ c ∈ a, isLineBreakChar c = false) →
    splitlinesAux acc (a ++ '\n' :: b)
      = (acc.reverse ++ a) :: splitlinesAux [] b := by
  induction a with
  | nil =>
    intro acc b _
    rw [List.nil_append, splitlinesAux_newline]
    simp
  | cons c a' ih =>
    intro acc b ha
    rw [List.cons_append, splitlinesAux_cons_nonbreak (ha c (by simp)),
      ih (c :: acc) b fun d hd => ha d (by simp [hd])]
    simp

theorem splitlinesAux_flat (a : List Char) :
    ∀ acc : List Char, (∀ c ∈ a, isLineBreakChar c = false) →
    acc.reverse ++ a ≠ [] →
    splitlinesAux acc a = [acc.reverse ++ a] := by
  induction a with
  | nil =>
    intro acc _ hne
    show (if acc.isEmpty then [] else [acc.reverse]) = _
    rw [if_neg (by
      simp only [List.isEmpty_iff]
      intro he
      rw [he] at hne
      exact hne (by simp))]
    simp
  | cons c a' ih =>
    intro acc ha hne
    rw [splitlinesAux_cons_nonbreak (ha c (by simp)),
      ih (c :: acc) (fun d hd => ha d (by simp [hd])) (by simp)]
    simp

theorem splitlines_break {a : List Char} (b : List Char)
    (ha : ∀ c ∈ a, isLineBreakChar c = false) :
    pySplitlines (a ++ '\n' :: b) = a :: pySplitlines b := by
  unfold pySplitlines
  rw [splitlinesAux_break a [] b ha]
  simp

theorem splitlines_flat {a : List Char}
    (ha : ∀ c ∈ a, isLineBreakChar c = false) (hne : a ≠ []) :
    pySplitlines a = [a] := by
  unfold pySplitlines
  rw [splitlinesAux_flat a [] ha (by simpa using hne)]
  simp

/-! ### The joined SPAWN section -/

theorem spawnLine_no_brace {cmd : String}
    (h : ∀ c ∈ cmd.data, goodChar c = true) :
    ∀ c ∈ "    SPAWN ".data ++ cmd.data, c ≠ '\x7d' := by
  intro c hc
  rcases List.mem_append.mp hc with hc | hc
  · have hall : ∀ c ∈ "    SPAWN ".data, c ≠ '\x7d' := by decide
    exact hall c hc
  · exact (goodChar_spec (h c hc)).1

theorem spawnLine_no_break {cmd : String}
    (h : ∀ c ∈ cmd.data, goodChar c = true) :
    ∀ c ∈ "    SPAWN ".data ++ cmd.data, isLineBreakChar c = false := by
  intro c hc
  rcases List.mem_append.mp hc with hc | hc
  · have hall : ∀ c ∈ "    SPAWN ".data, isLineBreakChar c = false := by decide
    exact hall c hc
  · exact (goodChar_spec (h c hc)).2

theorem spawnJoin_no_brace : ∀ {cmds : List String},
    (∀ cmd ∈ cmds, ∀ c ∈ cmd.data, goodChar c = true) →
    ∀ c ∈ (joinNl (cmds.map fun cmd => "    SPAWN " ++ cmd)).data, c ≠ '\x7d' := by
  intro cmds
  induction cmds with
  | nil => intro _ c hc; exact absurd hc (by simp [joinNl])
  | cons cmd rest ih =>
    intro h c hc
    cases rest with
    | nil =>
      have : (joinNl [("    SPAWN " ++ cmd)]).data
          = "    SPAWN ".data ++ cmd.data := by simp [joinNl]
      rw [List.map_cons, List.map_nil, this] at hc
      exact spawnLine_no_brace (h cmd (by simp)) c hc
    | cons y rest' =>
      rw [List.map_cons, show joinNl (("    SPAWN " ++ cmd) ::
          (y :: rest').map (fun cmd => "    SPAWN " ++ cmd))
          = ("    SPAWN " ++ cmd) ++ "\n"
            ++ joinNl ((y :: rest').map (fun cmd => "    SPAWN " ++ cmd))
          from rfl] at hc
      simp only [String.data_append] at hc
      rcases List.mem_append.mp hc with hc | hc
      · rcases List.mem_append.mp hc with hc | hc
        · exact spawnLine_no_brace (h cmd (by simp))
            c (by simpa using hc)
        · simp only [show ("\n".data : List Char) = ['\n'] from rfl,
            List.mem_singleton] at hc
          subst hc; decide
      · exact ih (fun z hz => h z (by simp [hz])) c hc

theorem spawnJoin_rev_head : ∀ {cmds : List String}, cmds ≠ [] →
    (∀ cmd ∈ cmds, cmd.data ≠ [] ∧ pyStripL cmd.data = cmd.data) →
    ∃ d ds, (joinNl (cmds.map fun cmd => "    SPAWN " ++ cmd)).data.reverse
        = d :: ds ∧ isPySpace d = false := by
  intro cmds
  induction cmds with
  | nil => intro h _; exact absurd rfl h
  | cons cmd rest ih =>
    intro _ h
    obtain ⟨hne, hf⟩ := h cmd (by simp)
    obtain ⟨d, ds, hd⟩ := List.exists_cons_of_ne_nil
      (fun he => hne (by simpa using congrArg List.reverse he)
        : cmd.data.reverse ≠ [])
    have hdns : isPySpace d = false := by
      have hrev := (pyStripL_fixed hf).2
      rw [hd] at hrev
      exact dropWhile_self_head hrev
    cases rest with
    | nil =>
      refine ⟨d, ds ++ "    SPAWN ".data.reverse, ?_, hdns⟩
      rw [List.map_cons, List.map_nil,
        show joinNl [("    SPAWN " ++ cmd)] = "    SPAWN " ++ cmd from rfl]
      simp [hd]
    | cons y rest' =>
      obtain ⟨e, es, he, hens⟩ := ih (by simp) fun z hz => h z (by simp [hz])
      refine ⟨e, es ++ '\n' :: ("    SPAWN " ++ cmd).data.reverse, ?_, hens⟩
      rw [show (cmd :: y :: rest').map (fun c => "    SPAWN " ++ c)
            = ("    SPAWN " ++ cmd)
              :: (y :: rest').map (fun c => "    SPAWN " ++ c) from rfl,
        show joinNl (("    SPAWN " ++ cmd) ::
          (y :: rest').map (fun c => "    SPAWN " ++ c))
          = ("    SPAWN " ++ cmd) ++ "\n"
            ++ joinNl ((y :: rest').map (fun c => "    SPAWN " ++ c)) from rfl]
      simp only [String.data_append, List.reverse_append]
      rw [he]
      simp [List.append_assoc]

theorem splitlines_spawnJoin : ∀ {cmds : List String},
    (∀ cmd ∈ cmds, cmd.data ≠ [] ∧ (∀ c ∈ cmd.data, goodChar c = true)) →
    pySplitlines ((joinNl (cmds.map fun cmd => "    SPAWN " ++ cmd)).data)
      = cmds.map (fun cmd => "    SPAWN ".data ++ cmd.data) := by
  intro cmds
  induction cmds with
  | nil => intro _; rfl
  | cons cmd rest ih =>
    intro h
    obtain ⟨hne, hgood⟩ := h cmd (by simp)
    cases rest with
    | nil =>
      rw [List.map_cons, List.map_nil,
        show joinNl [("    SPAWN " ++ cmd)] = "    SPAWN " ++ cmd from rfl,
        show ("    SPAWN " ++ cmd).data = "    SPAWN ".data ++ cmd.data
          from by simp,
        splitlines_flat (spawnLine_no_break hgood) (by simp)]
      rfl
    | cons y rest' =>
      rw [List.map_cons (l := y :: rest'),
        show joinNl (("    SPAWN " ++ cmd) ::
          (y :: rest').map (fun c => "    SPAWN " ++ c))
          = ("    SPAWN " ++ cmd) ++ "\n"
            ++ joinNl ((y :: rest').map (fun c => "    SPAWN " ++ c)) from rfl,
        show (("    SPAWN " ++ cmd) ++ "\n"
            ++ joinNl ((y :: rest').map (fun c => "    SPAWN " ++ c))).data
          = ("    SPAWN ".data ++ cmd.data) ++ '\n'
            :: (joinNl ((y :: rest').map (fun c => "    SPAWN " ++ c))).data
          from by simp,
        splitlines_break _ (spawnLine_no_break hgood),
        ih fun z hz => h z (by simp [hz])]
      rfl

/-! ### Stepping the goal-body line parser -/

theorem parseGoalLines_cons_eq (d : String) (acc : List String)
    (line : List Char) (rest : List (List Char)) :
    parseGoalLines d acc (line :: rest) =
      (let stripped := pyStripL line
       if stripped.isEmpty then parseGoalLines d acc rest
       else
         match commentMatch stripped with
         | some g =>
           if d = defaultGoalDesc then
             parseGoalLines
               (if (pyStripL g).isEmpty then d else (⟨pyStripL g⟩ : String))
               acc rest
           else
             match spawnMatch stripped with
             | some g2 =>
               parseGoalLines d (acc ++ [(⟨pyStripL g2⟩ : String)]) rest
             | none => parseGoalLines d acc rest
         | none =>
           match spawnMatch stripped with
           | some g2 => parseGoalLines d (acc ++ [(⟨pyStripL g2⟩ : String)]) rest
           | none => parseGoalLines d acc rest) := rfl

theorem parseGoalLines_step_spawn (d : String) (acc : List String)
    {cmd : String} (hne : cmd.data ≠ []) (hf : pyStripL cmd.data = cmd.data)
    (rest : List (List Char)) :
    parseGoalLines d acc (("    SPAWN ".data ++ cmd.data) :: rest)
      = parseGoalLines d (acc ++ [cmd]) rest := by
  rw [parseGoalLines_cons_eq]
  simp only []
  rw [strip_spawn_line hne hf]
  show parseGoalLines d
    (acc ++ [(⟨pyStripL (cmd.data.dropWhile isPySpace)⟩ : String)]) rest
    = parseGoalLines d (acc ++ [cmd]) rest
  rw [(pyStripL_fixed hf).1, hf]

theorem parseGoalLines_step_comment (acc : List String) {desc : String}
    (hne : desc.data ≠ []) (hf : pyStripL desc.data = desc.data)
    (rest : List (List Char)) :
    parseGoalLines defaultGoalDesc acc (("// ".data ++ desc.data) :: rest)
      = parseGoalLines desc acc rest := by
  rw [parseGoalLines_cons_eq]
  simp only []
  rw [strip_comment_line hne hf]
  show parseGoalLines
    (if (pyStripL (desc.data.dropWhile isPySpace)).isEmpty then defaultGoalDesc
      else (⟨pyStripL (desc.data.dropWhile isPySpace)⟩ : String)) acc rest
    = parseGoalLines desc acc rest
  rw [(pyStripL_fixed hf).1, hf, if_neg (by simpa using hne)]

theorem parseGoalLines_spawns (d : String) : ∀ (cmds : List String)
    (acc : List String),
    (∀ cmd ∈ cmds, cmd.data ≠ [] ∧ pyStripL cmd.data = cmd.data) →
    parseGoalLines d acc (cmds.map (fun cmd => "    SPAWN ".data ++ cmd.data))
      = (d, acc ++ cmds) := by
  intro cmds
  induction cmds with
  | nil => intro acc _; simp [parseGoalLines]
  | cons cmd rest ih =>
    intro acc h
    obtain ⟨hne, hf⟩ := h cmd (by simp)
    rw [List.map_cons, parseGoalLines_step_spawn d acc hne hf,
      ih (acc ++ [cmd]) fun z hz => h z (by simp [hz])]
    simp

theorem ne_nil_of_isEmpty_eq_false {l : List Char} (h : l.isEmpty = false) :
    l ≠ [] := by
  intro he
  rw [he] at h
  exact absurd h (by decide)

theorem goalWF_spec {g : GoalNode} (h : goalWF g = true) :
    g.name.data ≠ [] ∧ (∀ c ∈ g.name.data, isWordChar c = true) ∧
    g.description.data ≠ [] ∧ pyStripL g.description.data = g.description.data ∧
    (∀ c ∈ g.description.data, goodChar c = true) ∧
    (∀ cmd ∈ g.commands, cmd.data ≠ [] ∧ pyStripL cmd.data = cmd.data ∧
      ∀ c ∈ cmd.data, goodChar c = true) := by
  simp only [goalWF, Bool.and_eq_true] at h
  obtain ⟨⟨⟨⟨⟨h1, h2⟩, h3⟩, h4⟩, h5⟩, h6⟩ := h
  refine ⟨ne_nil_of_isEmpty_eq_false (by simpa using h1),
    List.all_eq_true.mp h2,
    ne_nil_of_isEmpty_eq_false (by simpa using h3),
    by simpa using h4,
    List.all_eq_true.mp h5, ?_⟩
  intro cmd hc
  have := List.all_eq_true.mp h6 cmd hc
  simp only [Bool.and_eq_true] at this
  obtain ⟨⟨hc1, hc2⟩, hc3⟩ := this
  exact ⟨ne_nil_of_isEmpty_eq_false (by simpa using hc1),
    by simpa using hc2, List.all_eq_true.mp hc3⟩

theorem pyRStripL_rev_drop {x : List Char} (h : pyRStripL x = x) :
    x.reverse.dropWhile isPySpace = x.reverse := by
  have := congrArg List.reverse h
  unfold pyRStripL at this
  simpa using this

theorem pyRStripL_fixed_of_rev_head {x : List Char} {d : Char} {ds : List Char}
    (hx : x.reverse = d :: ds) (hd : isPySpace d = false) :
    pyRStripL x = x := by
  unfold pyRStripL
  rw [hx, dropWhile_cons_neg _ hd, ← hx, List.reverse_reverse]

theorem pyRStripL_ws_tail {x b : List Char}
    (hb : ∀ c ∈ b, isPySpace c = true) (hx : pyRStripL x = x) :
    pyRStripL (x ++ b) = x := by
  unfold pyRStripL
  rw [List.reverse_append,
    dropWhile_append_all _ (fun c hc => hb c (by simpa using hc)),
    pyRStripL_rev_drop hx]
  simp

theorem pyStripL_as_two (l : List Char) :
    pyStripL l = pyRStripL (l.dropWhile isPySpace) := rfl

theorem parse_goalBody (g : GoalNode) (h : goalWF g = true) :
    parseGoalLines defaultGoalDesc [] (pySplitlines (pyStripL (goalBody g)))
      = (g.description, g.commands) := by
  obtain ⟨-, -, hdne, hdf, hdgood, hcmds⟩ := goalWF_spec h
  have hdesc_nb : ∀ c ∈ "// ".data ++ g.description.data,
      isLineBreakChar c = false := by
    intro c hc
    rcases List.mem_append.mp hc with hc | hc
    · have hall : ∀ c ∈ "// ".data, isLineBreakChar c = false := by decide
      exact hall c hc
    · exact (goodChar_spec (hdgood c hc)).2
  have hleft : (goalBody g).dropWhile isPySpace
      = "// ".data ++ (g.description.data
        ++ ('\n' :: ((joinNl (g.commands.map
            (fun cmd => "    SPAWN " ++ cmd))).data ++ ['\n']))) := by
    rw [goalBody,
      show "\n    // ".data ++ (g.description.data
            ++ ('\n' :: ((joinNl (g.commands.map
              (fun cmd => "    SPAWN " ++ cmd))).data ++ ['\n'])))
          = "\n    ".data ++ ("// ".data ++ (g.description.data
            ++ ('\n' :: ((joinNl (g.commands.map
              (fun cmd => "    SPAWN " ++ cmd))).data ++ ['\n']))))
        from by simp,
      dropWhile_append_all _ (by decide),
      show "// ".data ++ (g.description.data
            ++ ('\n' :: ((joinNl (g.commands.map
              (fun cmd => "    SPAWN " ++ cmd))).data ++ ['\n'])))
          = '/' :: ("/ ".data ++ (g.description.data
            ++ ('\n' :: ((joinNl (g.commands.map
              (fun cmd => "    SPAWN " ++ cmd))).data ++ ['\n'])))) from rfl,
      dropWhile_cons_neg _ (by decide)]
  cases hc : g.commands with
  | nil =>
    have hstrip : pyStripL (goalBody g) = "// ".data ++ g.description.data := by
      rw [pyStripL_as_two, hleft, hc]
      rw [show "// ".data ++ (g.description.data
            ++ ('\n' :: ((joinNl ((List.nil (α := String)).map
              (fun cmd => "    SPAWN " ++ cmd))).data ++ ['\n'])))
          = ("// ".data ++ g.description.data) ++ ['\n', '\n'] from by
        simp [joinNl]]
      exact pyRStripL_ws_tail (by decide) (pyRStripL_append_fixed hdne hdf)
    rw [hstrip, splitlines_flat hdesc_nb (by simp),
      parseGoalLines_step_comment [] hdne hdf]
    rfl
  | cons c1 crest =>
    have hcmds' : ∀ cmd ∈ g.commands,
        cmd.data ≠ [] ∧ pyStripL cmd.data = cmd.data :=
      fun cmd hcm => ⟨(hcmds cmd hcm).1, (hcmds cmd hcm).2.1⟩
    obtain ⟨d, ds, hrev, hdns⟩ :=
      @spawnJoin_rev_head g.commands (by rw [hc]; simp) hcmds'
    have hstrip : pyStripL (goalBody g)
        = ("// ".data ++ g.description.data)
          ++ '\n' :: (joinNl (g.commands.map
            (fun cmd => "    SPAWN " ++ cmd))).data := by
      rw [pyStripL_as_two, hleft,
        show "// ".data ++ (g.description.data
            ++ ('\n' :: ((joinNl (g.commands.map
              (fun cmd => "    SPAWN " ++ cmd))).data ++ ['\n'])))
          = (("// ".data ++ g.description.data)
            ++ '\n' :: (joinNl (g.commands.map
              (fun cmd => "    SPAWN " ++ cmd))).data) ++ ['\n'] from by
        simp [List.append_assoc]]
      refine pyRStripL_ws_tail (by decide) ?_
      refine @pyRStripL_fixed_of_rev_head _ d
        (ds ++ ('\n' :: ("// ".data ++ g.description.data).reverse)) ?_ hdns
      rw [List.reverse_append, List.reverse_cons, hrev]
      simp [List.append_assoc]
    rw [hstrip, splitlines_break _ hdesc_nb,
      splitlines_spawnJoin (fun cmd hcm =>
        ⟨(hcmds cmd hcm).1, (hcmds cmd hcm).2.2⟩),
      parseGoalLines_step_comment [] hdne hdf,
      parseGoalLines_spawns _ _ [] hcmds']
    simp
    exact hc

theorem goalBody_no_brace {g : GoalNode} (h : goalWF g = true) :
    ∀ c ∈ goalBody g, c ≠ '\x7d' := by
  obtain ⟨-, -, -, -, hdgood, hcmds⟩ := goalWF_spec h
  intro c hc
  rw [goalBody] at hc
  rcases List.mem_append.mp hc with hc | hc
  · have hall : ∀ c ∈ "\n    // ".data, c ≠ '\x7d' := by decide
    exact hall c hc
  · rcases List.mem_append.mp hc with hc | hc
    · exact (goodChar_spec (hdgood c hc)).1
    · rcases List.mem_cons.mp hc with rfl | hc
      · decide
      · rcases List.mem_append.mp hc with hc | hc
        · exact spawnJoin_no_brace
            (fun cmd hcm => (hcmds cmd hcm).2.2) c hc
        · rcases List.mem_singleton.mp hc with rfl
          decide

theorem goalBlock_matchAt (g : GoalNode) (rest : List Char)
    (h : goalWF g = true) :
    goalMatchAt ((goalBlock g).data ++ rest)
      = some ((g.name.data, goalBody g), '\n' :: rest) := by
  obtain ⟨hnne, hnword, hdne, hdf, hdgood, hcmds⟩ := goalWF_spec h
  obtain ⟨n0, ns, hn⟩ := List.exists_cons_of_ne_nil hnne
  have hn0w : isPySpace n0 = false :=
    word_not_space (hnword n0 (by rw [hn]; simp))
  have hdata : (goalBlock g).data ++ rest
      = "GOAL ".data ++ (g.name.data ++ ("() \x7b".data
        ++ (goalBody g ++ ('\x7d' :: '\n' :: rest)))) := by
    rw [goalBlock, goalBody]
    simp only [String.data_append, List.append_assoc, List.cons_append,
      List.singleton_append, List.nil_append]
  rw [hdata]
  have hT : ∀ Z : List Char, (g.name.data ++ Z).dropWhile isPySpace
      = g.name.data ++ Z := by
    intro Z
    rw [hn, List.cons_append, dropWhile_cons_neg _ hn0w]
  have hTname : ∀ Z : List Char, isWordChar '\x28' = false →
      (g.name.data ++ ('\x28' :: Z)).takeWhile isWordChar = g.name.data := by
    intro Z hpar
    rw [takeWhile_append_all _ hnword, takeWhile_cons_neg _ hpar,
      List.append_nil]
  have hTdrop : ∀ Z : List Char,
      (g.name.data ++ ('\x28' :: Z)).dropWhile isWordChar = '\x28' :: Z := by
    intro Z
    rw [dropWhile_append_all _ hnword, dropWhile_cons_neg _ (by decide)]
  unfold goalMatchAt
  rw [if_pos (show ("GOAL".data.isPrefixOf ("GOAL ".data ++ (g.name.data
    ++ ("() \x7b".data ++ (goalBody g ++ ('\x7d' :: '\n' :: rest)))))) = true
    from rfl)]
  rw [show ("GOAL ".data ++ (g.name.data ++ ("() \x7b".data
      ++ (goalBody g ++ ('\x7d' :: '\n' :: rest))))).drop 4
    = ' ' :: (g.name.data ++ ("() \x7b".data
      ++ (goalBody g ++ ('\x7d' :: '\n' :: rest)))) from rfl]
  unfold goalMatchTail
  simp only []
  rw [List.takeWhile_cons_of_pos (by decide), if_neg (by simp)]
  rw [List.dropWhile_cons_of_pos (p := isPySpace) (by decide)]
  rw [hT ("() \x7b".data ++ (goalBody g ++ ('\x7d' :: '\n' :: rest)))]
  rw [show "() \x7b".data ++ (goalBody g ++ ('\x7d' :: '\n' :: rest))
      = '\x28' :: (')' :: ' ' :: '\x7b'
        :: (goalBody g ++ ('\x7d' :: '\n' :: rest))) from by simp]
  rw [hTname _ (by decide), if_neg (by rw [hn]; simp)]
  rw [hTdrop]
  rw [dropWhile_cons_neg (p := isPySpace) _ (by decide)]
  have hbody_p : ∀ c ∈ goalBody g, (decide (c ≠ '\x7d')) = true := by
    intro c hc
    simp only [decide_eq_true_eq]
    exact goalBody_no_brace h c hc
  have e1 : List.dropWhile (fun c => decide (c ≠ ')'))
      (')' :: ' ' :: '\x7b' :: (goalBody g ++ '\x7d' :: '\n' :: rest))
      = ')' :: ' ' :: '\x7b' :: (goalBody g ++ '\x7d' :: '\n' :: rest) :=
    dropWhile_cons_neg _ (by decide)
  have e2 : List.dropWhile isPySpace
      (' ' :: '\x7b' :: (goalBody g ++ '\x7d' :: '\n' :: rest))
      = '\x7b' :: (goalBody g ++ '\x7d' :: '\n' :: rest) := by
    rw [List.dropWhile_cons_of_pos (by decide),
      dropWhile_cons_neg _ (by decide)]
  have e3 : List.dropWhile (fun c => decide (c ≠ '\x7d'))
      (goalBody g ++ '\x7d' :: '\n' :: rest) = '\x7d' :: ('\n' :: rest) := by
    rw [show goalBody g ++ '\x7d' :: '\n' :: rest
        = goalBody g ++ ('\x7d' :: ('\n' :: rest)) from rfl,
      dropWhile_append_all _ hbody_p,
      dropWhile_cons_neg _
        (show (decide ('\x7d' ≠ '\x7d')) = false from by decide)]
  have e4 : List.takeWhile (fun c => decide (c ≠ '\x7d'))
      (goalBody g ++ '\x7d' :: '\n' :: rest) = goalBody g := by
    rw [show goalBody g ++ '\x7d' :: '\n' :: rest
        = goalBody g ++ ('\x7d' :: ('\n' :: rest)) from rfl,
      takeWhile_append_all _ hbody_p,
      takeWhile_cons_neg _
        (show (decide ('\x7d' ≠ '\x7d')) = false from by decide),
      List.append_nil]
  simp only [e1, e2, e3, e4]

theorem goalFindAux_cons_eq (fuel : Nat) (c : Char) (cs : List Char) :
    goalFindAux (fuel + 1) (c :: cs) = (match goalMatchAt (c :: cs) with
      | some (m, rest) => m :: goalFindAux fuel rest
      | none => goalFindAux fuel cs) := rfl

theorem noGoal_cons_nl {v : List Char} (hv : ¬ "GOAL".data <:+: v) :
    ¬ "GOAL".data <:+: ('\n' :: v) := by
  intro hi
  rcases List.infix_cons_iff.mp hi with hp | hi2
  · rw [show "GOAL".data = 'G' :: "OAL".data from rfl] at hp
    rcases List.cons_prefix_cons.mp hp with ⟨h1, -⟩
    exact absurd h1 (by decide)
  · exact hv hi2

theorem goalBlock_data_ne_nil (g : GoalNode) : (goalBlock g).data ≠ [] := by
  simp [goalBlock]

theorem goalFindAux_goals : ∀ (gs : List GoalNode) (u : List Char) (fuel : Nat),
    (∀ g ∈ gs, goalWF g = true) → ¬ "GOAL".data <:+: u →
    ((joinNl (gs.map goalBlock)).data ++ u).length ≤ fuel →
    goalFindAux fuel ((joinNl (gs.map goalBlock)).data ++ u)
      = gs.map (fun g => (g.name.data, goalBody g)) := by
  intro gs
  induction gs with
  | nil =>
    intro u fuel _ hu _
    rw [show (joinNl (([] : List GoalNode).map goalBlock)).data
        = ([] : List Char) from rfl, List.nil_append, List.map_nil]
    exact goalFindAux_nil_of_noGoal fuel u hu
  | cons g gs' ih =>
    intro u fuel hwf hu hfuel
    have hg := hwf g (by simp)
    cases gs' with
    | nil =>
      have htext : (joinNl ([g].map goalBlock)).data ++ u
          = (goalBlock g).data ++ u := by
        rw [show joinNl ([g].map goalBlock) = goalBlock g from rfl]
      rw [htext] at hfuel ⊢
      cases fuel with
      | zero =>
        exfalso
        rw [List.length_append] at hfuel
        have h1 : (goalBlock g).data.length = 0 := by omega
        exact goalBlock_data_ne_nil g (List.length_eq_zero.mp h1)
      | succ f =>
        have hcons : (goalBlock g).data ++ u
            = 'G' :: ("OAL ".data ++ (g.name.data ++ ("() \x7b".data
              ++ (goalBody g ++ ('\x7d' :: '\n' :: u))))) := by
          rw [goalBlock, goalBody]
          simp [List.append_assoc]
        rw [hcons, goalFindAux_cons_eq, ← hcons, goalBlock_matchAt g u hg]
        show (g.name.data, goalBody g) :: goalFindAux f ('\n' :: u)
          = [(g.name.data, goalBody g)]
        rw [goalFindAux_nil_of_noGoal f ('\n' :: u) (noGoal_cons_nl hu)]
    | cons g2 gs'' =>
      have htext : (joinNl ((g :: g2 :: gs'').map goalBlock)).data ++ u
          = (goalBlock g).data
            ++ ('\n' :: ((joinNl ((g2 :: gs'').map goalBlock)).data ++ u)) := by
        rw [show joinNl ((g :: g2 :: gs'').map goalBlock)
            = goalBlock g ++ "\n" ++ joinNl ((g2 :: gs'').map goalBlock)
          from rfl]
        simp [List.append_assoc]
      rw [htext] at hfuel ⊢
      cases fuel with
      | zero =>
        exfalso
        rw [List.length_append] at hfuel
        have h1 : (goalBlock g).data.length = 0 := by omega
        exact goalBlock_data_ne_nil g (List.length_eq_zero.mp h1)
      | succ f =>
        have hcons : (goalBlock g).data
            ++ ('\n' :: ((joinNl ((g2 :: gs'').map goalBlock)).data ++ u))
            = 'G' :: ("OAL ".data ++ (g.name.data ++ ("() \x7b".data
              ++ (goalBody g ++ ('\x7d' :: '\n' :: ('\n'
                :: ((joinNl ((g2 :: gs'').map goalBlock)).data ++ u))))))) := by
          rw [goalBlock, goalBody]
          simp [List.append_assoc]
        rw [hcons, goalFindAux_cons_eq, ← hcons,
          goalBlock_matchAt g ('\n'
            :: ((joinNl ((g2 :: gs'').map goalBlock)).data ++ u)) hg]
        have hrest := goalMatchAt_rest_length
          (goalBlock_matchAt g ('\n'
            :: ((joinNl ((g2 :: gs'').map goalBlock)).data ++ u)) hg)
        simp only [List.length_cons, List.length_append] at hrest hfuel
        show (g.name.data, goalBody g) :: goalFindAux f ('\n' :: '\n'
            :: ((joinNl ((g2 :: gs'').map goalBlock)).data ++ u))
          = (g.name.data, goalBody g)
            :: (g2 :: gs'').map (fun g => (g.name.data, goalBody g))
        refine congrArg (fun t => (g.name.data, goalBody g) :: t) ?_
        cases f with
        | zero => exfalso; omega
        | succ f2 =>
          rw [goalFindAux_cons_eq, goalMatchAt_head_ne _ (by decide)]
          cases f2 with
          | zero => exfalso; omega
          | succ f3 =>
            rw [goalFindAux_cons_eq, goalMatchAt_head_ne _ (by decide)]
            refine ih u f3 (fun x hx => hwf x (by simp [hx])) hu ?_
            simp only [List.length_append]
            omega

theorem pyRStripL_pre (l : List Char) : pyRStripL l <+: l := by
  unfold pyRStripL
  rw [← List.reverse_suffix, List.reverse_reverse]
  exact List.dropWhile_suffix isPySpace

theorem suffix_right_of_short {b x y : List Char} (h : b <:+ x ++ y)
    (hlen : b.length ≤ y.length) : b <:+ y := by
  rw [← List.reverse_prefix] at h ⊢
  rw [List.reverse_append] at h
  have htake := List.prefix_iff_eq_take.mp h
  rw [List.take_append_eq_append_take,
    show b.reverse.length - y.reverse.length = 0 from by
      simp only [List.length_reverse]; omega,
    List.take_zero, List.append_nil] at htake
  exact List.prefix_iff_eq_take.mpr htake

theorem noGoal_of_not_containsSub {l : List Char}
    (h : containsSub "GOAL".data l = false) : ¬ "GOAL".data <:+: l := by
  intro hi
  rw [containsSub_iff.mpr hi] at h
  exact absurd h (by decide)

theorem headerBlock_tail (hh : TDLHeader) : ∃ pre,
    (headerBlock hh).data = pre ++ ('\n' :: '\x7d' :: '\n' :: '\n' :: []) := by
  refine ⟨"HEADER \x7b\n    Converted At: ".data ++ (hh.converted_at.data
    ++ ("\n    Source Requirement: \"".data ++ (hh.source_requirement.data
    ++ ("\"\n    Manufacturer: ".data ++ (hh.manufacturer.data
    ++ ("\n    Model: ".data ++ hh.model.data)))))), ?_⟩
  rw [headerBlock]
  simp [List.append_assoc]

theorem headerBlock_cons (hh : TDLHeader) (W : List Char) :
    (headerBlock hh).data ++ W
      = 'H' :: ("EADER \x7b\n    Converted At: ".data ++ (hh.converted_at.data
        ++ ("\n    Source Requirement: \"".data ++ (hh.source_requirement.data
        ++ ("\"\n    Manufacturer: ".data ++ (hh.manufacturer.data
        ++ ("\n    Model: ".data ++ (hh.model.data
          ++ ("\n\x7d\n\n".data ++ W))))))))) := by
  rw [headerBlock]
  simp [List.append_assoc]

theorem header_skip_cond (hh : TDLHeader)
    (hH : ¬ "GOAL".data <:+: (headerBlock hh).data) (t : List Char) :
    ∀ b, b <:+ (headerBlock hh).data → b ≠ [] →
      "GOAL".data.isPrefixOf (b ++ t) = false := by
  intro b hb hbne
  cases hp : "GOAL".data.isPrefixOf (b ++ t)
  · rfl
  exfalso
  have hp' := List.isPrefixOf_iff_prefix.mp hp
  by_cases hlen : 4 ≤ b.length
  · have htake := List.prefix_iff_eq_take.mp hp'
    have h4 : ("GOAL".data).length = 4 := rfl
    rw [h4, List.take_append_eq_append_take,
      show 4 - b.length = 0 from by omega, List.take_zero,
      List.append_nil] at htake
    have hpb : "GOAL".data <+: b :=
      List.prefix_iff_eq_take.mpr (by rw [h4]; exact htake)
    exact hH (hpb.isInfix.trans hb.isInfix)
  · obtain ⟨pre, hpre⟩ := headerBlock_tail hh
    rw [hpre] at hb
    have hb4 : b <:+ ('\n' :: '\x7d' :: '\n' :: '\n' :: []) :=
      suffix_right_of_short hb (by simp; omega)
    obtain ⟨a, ha⟩ := hb4
    rcases a with - | ⟨x1, - | ⟨x2, - | ⟨x3, - | ⟨x4, arest⟩⟩⟩⟩ <;>
      simp only [List.cons_append, List.nil_append] at ha
    · exact hlen (by rw [ha]; decide)
    · injection ha with hq1 h2
      subst h2
      rw [show "GOAL".data = 'G' :: "OAL".data from rfl] at hp'
      rcases List.cons_prefix_cons.mp hp' with ⟨h1, -⟩
      exact absurd h1 (by decide)
    · injection ha with hq1 h2
      injection h2 with hq2 h3
      subst h3
      rw [show "GOAL".data = 'G' :: "OAL".data from rfl] at hp'
      rcases List.cons_prefix_cons.mp hp' with ⟨h1, -⟩
      exact absurd h1 (by decide)
    · injection ha with hq1 h2
      injection h2 with hq2 h3
      injection h3 with hq3 h4
      subst h4
      rw [show "GOAL".data = 'G' :: "OAL".data from rfl] at hp'
      rcases List.cons_prefix_cons.mp hp' with ⟨h1, -⟩
      exact absurd h1 (by decide)
    · injection ha with hq1 h2
      injection h2 with hq2 h3
      injection h3 with hq3 h4
      injection h4 with hq4 h5
      rcases List.append_eq_nil.mp h5 with ⟨-, hb0⟩
      exact hbne hb0

theorem mem_C_cmdJoin {cmds : List CommandDefinition} (hne : cmds ≠ []) :
    'C' ∈ (joinNl (cmds.map commandBlock)).data := by
  obtain ⟨d1, ds, rfl⟩ := List.exists_cons_of_ne_nil hne
  cases ds with
  | nil =>
    rw [show joinNl ([d1].map commandBlock) = commandBlock d1 from rfl,
      commandBlock]
    simp
  | cons y r =>
    rw [show joinNl ((d1 :: y :: r).map commandBlock)
        = commandBlock d1 ++ "\n" ++ joinNl ((y :: r).map commandBlock)
      from rfl, commandBlock]
    simp

theorem header_dropWhile (hh : TDLHeader) (W : List Char) :
    ((headerBlock hh).data ++ W).dropWhile isPySpace
      = (headerBlock hh).data ++ W := by
  rw [headerBlock_cons hh W, dropWhile_cons_neg _ (by decide),
    ← headerBlock_cons hh W]

theorem docRenderWF_spec {doc : TDLDocument} (h : docRenderWF doc = true) :
    ¬ "GOAL".data <:+: (headerBlock doc.header).data ∧
    ¬ "GOAL".data <:+: (joinNl (doc.commands.map commandBlock)).data ∧
    doc.commands ≠ [] ∧ (∀ g ∈ doc.goals, goalWF g = true) ∧
    (∀ d ∈ doc.commands, cmdWF d = true) := by
  simp only [docRenderWF, Bool.and_eq_true] at h
  obtain ⟨⟨⟨⟨h1, h2⟩, h3⟩, h4⟩, h5⟩ := h
  refine ⟨noGoal_of_not_containsSub (by simpa using h1),
    noGoal_of_not_containsSub (by simpa using h2), ?_,
    List.all_eq_true.mp h4, List.all_eq_true.mp h5⟩
  intro he
  rw [he] at h3
  simp at h3

theorem to_text_data_eq (doc : TDLDocument) (hcne : doc.commands ≠ []) :
    (doc.to_text).data
      = (headerBlock doc.header).data
        ++ ((joinNl (doc.goals.map goalBlock)).data
          ++ ('\n' :: '\n'
            :: pyRStripL (joinNl (doc.commands.map commandBlock)).data)) := by
  have h0 : (doc.to_text).data = pyStripL ((headerBlock doc.header).data
      ++ ((joinNl (doc.goals.map goalBlock)).data
        ++ ('\n' :: '\n'
          :: (joinNl (doc.commands.map commandBlock)).data))) := by
    have h1 : doc.to_text = pyStrip (headerBlock doc.header
        ++ joinNl (doc.goals.map goalBlock) ++ "\n\n"
        ++ joinNl (doc.commands.map commandBlock)) := rfl
    have h2 : ∀ s : String, (pyStrip s).data = pyStripL s.data := fun s => rfl
    rw [h1, h2]
    exact congrArg pyStripL (by simp [List.append_assoc])
  rw [h0, pyStripL_as_two, header_dropWhile doc.header]
  rw [show (headerBlock doc.header).data
      ++ ((joinNl (doc.goals.map goalBlock)).data
        ++ ('\n' :: '\n' :: (joinNl (doc.commands.map commandBlock)).data))
      = ((headerBlock doc.header).data
        ++ ((joinNl (doc.goals.map goalBlock)).data ++ ['\n', '\n']))
        ++ (joinNl (doc.commands.map commandBlock)).data
    from by simp [List.append_assoc]]
  rw [pyRStripL_append
    (pyRStripL_ne_nil_of_mem (mem_C_cmdJoin hcne) (by decide))]
  simp [List.append_assoc]

theorem goalFindAll_of_doc (doc : TDLDocument) (h : docRenderWF doc = true) :
    goalFindAll (doc.to_text).data
      = doc.goals.map (fun g => (g.name.data, goalBody g)) := by
  obtain ⟨hH, hC, hcne, hg, -⟩ := docRenderWF_spec h
  rw [goalFindAll, to_text_data_eq doc hcne, List.length_append,
    goalFindAux_skip _ _ _ (header_skip_cond doc.header hH _)]
  refine goalFindAux_goals doc.goals _ _ hg ?_ (le_refl _)
  refine noGoal_cons_nl (noGoal_cons_nl ?_)
  intro hi
  exact hC (hi.trans (pyRStripL_pre _).isInfix)

theorem parse_goals_of_doc (doc : TDLDocument) (h : docRenderWF doc = true) :
    _parse_goal_code doc.to_text = doc.goals := by
  obtain ⟨-, -, -, hg, -⟩ := docRenderWF_spec h
  unfold _parse_goal_code
  rw [goalFindAll_of_doc doc h, List.map_map]
  have hid : ∀ g ∈ doc.goals, ((fun m : List Char × List Char =>
      (⟨⟨m.1⟩,
        (parseGoalLines defaultGoalDesc [] (pySplitlines (pyStripL m.2))).1,
        (parseGoalLines defaultGoalDesc [] (pySplitlines (pyStripL m.2))).2⟩
        : GoalNode))
      ∘ (fun g => (g.name.data, goalBody g))) g = id g := by
    intro g hgg
    simp only [Function.comp, id]
    rw [parse_goalBody g (hg g hgg)]
  exact ((List.map_congr_left hid).trans (List.map_id _) :
    _ = doc.goals)

/-! ### Command-definition cleaning and re-extraction -/

theorem sigShape_spec {l : List Char} (h : sigShape l = true) :
    ∃ mid, l = '(' :: (mid ++ [')']) ∧ ∀ c ∈ mid, c ≠ ')' := by
  unfold sigShape at h
  split at h
  · rename_i rest
    simp only [Bool.and_eq_true] at h
    obtain ⟨⟨h1, h2⟩, h3⟩ := h
    have hne : rest ≠ [] := ne_nil_of_isEmpty_eq_false (by simpa using h1)
    have hlast : rest.getLast hne = ')' := by
      have hsome := List.getLast?_eq_getLast rest hne
      rw [hsome] at h3
      simpa using h3
    refine ⟨rest.dropLast, ?_, ?_⟩
    · rw [show (')') = rest.getLast hne from hlast.symm,
        List.dropLast_append_getLast hne]
    · intro c hcm
      have := List.all_eq_true.mp h2 c hcm
      simpa using this
  · exact absurd h (by simp)

theorem cmdWF_spec {d : CommandDefinition} (h : cmdWF d = true) :
    d.name.data ≠ [] ∧ (∀ c ∈ d.name.data, isWordChar c = true) ∧
    (∃ mid, d.signature.data = '(' :: (mid ++ [')']) ∧ ∀ c ∈ mid, c ≠ ')') ∧
    d.body.data ≠ [] ∧ pyStripL d.body.data = d.body.data := by
  simp only [cmdWF, Bool.and_eq_true] at h
  obtain ⟨⟨⟨⟨h1, h2⟩, h3⟩, h4⟩, h5⟩ := h
  exact ⟨ne_nil_of_isEmpty_eq_false (by simpa using h1),
    List.all_eq_true.mp h2, sigShape_spec h3,
    ne_nil_of_isEmpty_eq_false (by simpa using h4), by simpa using h5⟩

theorem dropWhile_eq_self_of_shape {l m : List Char} {c : Char}
    (hcl : l = c :: m) (hc : isPySpace c = false) :
    l.dropWhile isPySpace = l := by
  rw [hcl, dropWhile_cons_neg _ hc]

theorem getLast?_append_concrete {a b : List Char} {c : Char}
    (hb : b.getLast? = some c) : (a ++ b).getLast? = some c := by
  rw [List.getLast?_append, hb]
  rfl

theorem pyRStripL_tail_concrete {y t : List Char} (h1 : pyRStripL t = t)
    (h2 : t ≠ []) : pyRStripL (y ++ t) = y ++ t := by
  rw [pyRStripL_append (show pyRStripL t ≠ [] from by rw [h1]; exact h2), h1]

theorem clean_commandBlock (d : CommandDefinition) (h : cmdWF d = true) :
    _clean_command_definition_text (commandBlock d)
      = d.name.data ++ (d.signature.data ++ (" \x7b\n        ".data
        ++ (d.body.data ++ "\n    \x7d".data))) := by
  obtain ⟨hnne, hnword, -, hbne, hbf⟩ := cmdWF_spec h
  obtain ⟨n0, ns, hn⟩ := List.exists_cons_of_ne_nil hnne
  have hn0w : isPySpace n0 = false :=
    word_not_space (hnword n0 (by rw [hn]; simp))
  have ht0 : pyStripL (commandBlock d).data
      = ("COMMAND \x7b\n    DEFINE ".data ++ (d.name.data ++ (d.signature.data
        ++ (" \x7b\n        ".data ++ d.body.data)))) ++ "\n    \x7d\n\x7d".data := by
    rw [show (commandBlock d).data
        = ("COMMAND \x7b\n    DEFINE ".data ++ (d.name.data ++ (d.signature.data
          ++ (" \x7b\n        ".data ++ d.body.data)))) ++ "\n    \x7d\n\x7d\n".data
      from by rw [commandBlock]; simp [List.append_assoc]]
    rw [pyStripL_as_two,
      dropWhile_eq_self_of_shape (show ("COMMAND \x7b\n    DEFINE ".data
        ++ (d.name.data ++ (d.signature.data
          ++ (" \x7b\n        ".data ++ d.body.data)))) ++ "\n    \x7d\n\x7d\n".data
        = 'C' :: (("OMMAND \x7b\n    DEFINE ".data ++ (d.name.data
          ++ (d.signature.data ++ (" \x7b\n        ".data ++ d.body.data))))
          ++ "\n    \x7d\n\x7d\n".data) from by simp [List.append_assoc])
        (by decide)]
    rw [pyRStripL_append (show pyRStripL "\n    \x7d\n\x7d\n".data ≠ []
        from by decide),
      show pyRStripL "\n    \x7d\n\x7d\n".data = "\n    \x7d\n\x7d".data
        from by decide]
  unfold _clean_command_definition_text
  simp only []
  rw [ht0]
  rw [if_pos (show ("COMMAND".data.isPrefixOf
    (("COMMAND \x7b\n    DEFINE ".data ++ (d.name.data ++ (d.signature.data
      ++ (" \x7b\n        ".data ++ d.body.data)))) ++ "\n    \x7d\n\x7d".data))
    = true from rfl)]
  rw [show (("COMMAND \x7b\n    DEFINE ".data ++ (d.name.data
      ++ (d.signature.data ++ (" \x7b\n        ".data ++ d.body.data))))
      ++ "\n    \x7d\n\x7d".data).drop 7
    = ' ' :: '\x7b' :: (("\n    DEFINE ".data ++ (d.name.data
      ++ (d.signature.data ++ (" \x7b\n        ".data ++ d.body.data))))
      ++ "\n    \x7d\n\x7d".data) from by simp [List.append_assoc]]
  have ht1 : pyStripL (' ' :: '\x7b' :: (("\n    DEFINE ".data ++ (d.name.data
      ++ (d.signature.data ++ (" \x7b\n        ".data ++ d.body.data))))
      ++ "\n    \x7d\n\x7d".data))
      = '\x7b' :: (("\n    DEFINE ".data ++ (d.name.data
        ++ (d.signature.data ++ (" \x7b\n        ".data ++ d.body.data))))
        ++ "\n    \x7d\n\x7d".data) := by
    rw [pyStripL_as_two, List.dropWhile_cons_of_pos (by decide),
      dropWhile_cons_neg _ (by decide)]
    rw [show '\x7b' :: (("\n    DEFINE ".data ++ (d.name.data
        ++ (d.signature.data ++ (" \x7b\n        ".data ++ d.body.data))))
        ++ "\n    \x7d\n\x7d".data)
      = ('\x7b' :: ("\n    DEFINE ".data ++ (d.name.data
        ++ (d.signature.data ++ (" \x7b\n        ".data ++ d.body.data)))))
        ++ "\n    \x7d\n\x7d".data from by simp [List.append_assoc]]
    exact pyRStripL_tail_concrete (by decide) (by decide)
  rw [ht1]
  have hcond2 : ('\x7b' :: (("\n    DEFINE ".data ++ (d.name.data
      ++ (d.signature.data ++ (" \x7b\n        ".data ++ d.body.data))))
      ++ "\n    \x7d\n\x7d".data)).head? = some '\x7b'
      ∧ ('\x7b' :: (("\n    DEFINE ".data ++ (d.name.data
      ++ (d.signature.data ++ (" \x7b\n        ".data ++ d.body.data))))
      ++ "\n    \x7d\n\x7d".data)).getLast? = some '\x7d' := by
    refine ⟨rfl, ?_⟩
    rw [show '\x7b' :: (("\n    DEFINE ".data ++ (d.name.data
        ++ (d.signature.data ++ (" \x7b\n        ".data ++ d.body.data))))
        ++ "\n    \x7d\n\x7d".data)
      = ('\x7b' :: ("\n    DEFINE ".data ++ (d.name.data
        ++ (d.signature.data ++ (" \x7b\n        ".data ++ d.body.data)))))
        ++ "\n    \x7d\n\x7d".data from rfl]
    exact getLast?_append_concrete (by decide)
  rw [if_pos hcond2]
  rw [show (('\x7b' :: (("\n    DEFINE ".data ++ (d.name.data
      ++ (d.signature.data ++ (" \x7b\n        ".data ++ d.body.data))))
      ++ "\n    \x7d\n\x7d".data)).drop 1).dropLast
    = (("\n    DEFINE ".data ++ (d.name.data ++ (d.signature.data
      ++ (" \x7b\n        ".data ++ d.body.data)))) ++ "\n    \x7d\n".data)
    from by
      rw [List.drop_one, List.tail_cons,
        show ("\n    DEFINE ".data ++ (d.name.data ++ (d.signature.data
          ++ (" \x7b\n        ".data ++ d.body.data)))) ++ "\n    \x7d\n\x7d".data
        = ((("\n    DEFINE ".data ++ (d.name.data ++ (d.signature.data
          ++ (" \x7b\n        ".data ++ d.body.data)))) ++ "\n    \x7d\n".data)
          ++ ['\x7d']) from by simp [List.append_assoc],
        List.dropLast_concat]]
  have ht2 : pyStripL (("\n    DEFINE ".data ++ (d.name.data
      ++ (d.signature.data ++ (" \x7b\n        ".data ++ d.body.data))))
      ++ "\n    \x7d\n".data)
      = ("DEFINE ".data ++ (d.name.data ++ (d.signature.data
        ++ (" \x7b\n        ".data ++ d.body.data)))) ++ "\n    \x7d".data := by
    rw [pyStripL_as_two,
      show ("\n    DEFINE ".data ++ (d.name.data ++ (d.signature.data
        ++ (" \x7b\n        ".data ++ d.body.data)))) ++ "\n    \x7d\n".data
      = "\n    ".data ++ (("DEFINE ".data ++ (d.name.data ++ (d.signature.data
        ++ (" \x7b\n        ".data ++ d.body.data)))) ++ "\n    \x7d\n".data)
      from by simp [List.append_assoc],
      dropWhile_append_all _ (by decide),
      dropWhile_eq_self_of_shape (show ("DEFINE ".data ++ (d.name.data
        ++ (d.signature.data ++ (" \x7b\n        ".data ++ d.body.data))))
        ++ "\n    \x7d\n".data
        = 'D' :: (("EFINE ".data ++ (d.name.data ++ (d.signature.data
          ++ (" \x7b\n        ".data ++ d.body.data)))) ++ "\n    \x7d\n".data)
        from by simp [List.append_assoc]) (by decide)]
    rw [pyRStripL_append (show pyRStripL "\n    \x7d\n".data ≠ []
        from by decide),
      show pyRStripL "\n    \x7d\n".data = "\n    \x7d".data from by decide]
  rw [ht2]
  rw [if_pos (show ("DEFINE".data.isPrefixOf (("DEFINE ".data ++ (d.name.data
    ++ (d.signature.data ++ (" \x7b\n        ".data ++ d.body.data))))
    ++ "\n    \x7d".data)) = true from rfl)]
  rw [show ((("DEFINE ".data ++ (d.name.data ++ (d.signature.data
      ++ (" \x7b\n        ".data ++ d.body.data)))) ++ "\n    \x7d".data).drop 6)
    = ' ' :: ((d.name.data ++ (d.signature.data
      ++ (" \x7b\n        ".data ++ d.body.data))) ++ "\n    \x7d".data)
    from by simp [List.append_assoc]]
  rw [pyStripL_as_two, List.dropWhile_cons_of_pos (by decide),
    dropWhile_eq_self_of_shape (show (d.name.data ++ (d.signature.data
      ++ (" \x7b\n        ".data ++ d.body.data))) ++ "\n    \x7d".data
      = n0 :: ((ns ++ (d.signature.data
        ++ (" \x7b\n        ".data ++ d.body.data))) ++ "\n    \x7d".data)
      from by rw [hn]; simp [List.append_assoc]) hn0w]
  rw [pyRStripL_tail_concrete (by decide) (by decide)]
  simp [List.append_assoc]

theorem cmdDefMatch_clean (d : CommandDefinition) (h : cmdWF d = true) :
    cmdDefMatch (_clean_command_definition_text (commandBlock d))
      = some (d.name.data, d.signature.data,
        "\n        ".data ++ (d.body.data ++ "\n    ".data)) := by
  obtain ⟨hnne, hnword, ⟨mid, hsig, hmid⟩, hbne, hbf⟩ := cmdWF_spec h
  obtain ⟨n0, ns, hn⟩ := List.exists_cons_of_ne_nil hnne
  have hmid' : ∀ c ∈ mid, (decide (c ≠ ')')) = true := by
    intro c hc
    simp only [decide_eq_true_eq]
    exact hmid c hc
  rw [clean_commandBlock d h, hsig]
  rw [show d.name.data ++ (('(' :: (mid ++ [')'])) ++ (" \x7b\n        ".data
      ++ (d.body.data ++ "\n    \x7d".data)))
    = d.name.data ++ ('(' :: ((mid ++ [')']) ++ (" \x7b\n        ".data
      ++ (d.body.data ++ "\n    \x7d".data)))) from by simp]
  unfold cmdDefMatch
  simp only []
  have eName : (d.name.data ++ ('(' :: ((mid ++ [')'])
      ++ (" \x7b\n        ".data
        ++ (d.body.data ++ "\n    \x7d".data))))).takeWhile isWordChar
      = d.name.data := by
    rw [takeWhile_append_all _ hnword, takeWhile_cons_neg _ (by decide),
      List.append_nil]
  have eDrop : (d.name.data ++ ('(' :: ((mid ++ [')'])
      ++ (" \x7b\n        ".data
        ++ (d.body.data ++ "\n    \x7d".data))))).dropWhile isWordChar
      = '(' :: ((mid ++ [')']) ++ (" \x7b\n        ".data
        ++ (d.body.data ++ "\n    \x7d".data))) := by
    rw [dropWhile_append_all _ hnword, dropWhile_cons_neg _ (by decide)]
  rw [eName, if_neg (by rw [hn]; simp), eDrop,
    dropWhile_cons_neg (p := isPySpace) _ (by decide)]
  have eB : List.dropWhile (fun c => decide (c ≠ ')'))
      ((mid ++ [')']) ++ (" \x7b\n        ".data
        ++ (d.body.data ++ "\n    \x7d".data)))
      = ')' :: (" \x7b\n        ".data
        ++ (d.body.data ++ "\n    \x7d".data)) := by
    rw [show (mid ++ [')']) ++ (" \x7b\n        ".data
        ++ (d.body.data ++ "\n    \x7d".data))
      = mid ++ (')' :: (" \x7b\n        ".data
        ++ (d.body.data ++ "\n    \x7d".data))) from by simp,
      dropWhile_append_all _ hmid',
      dropWhile_cons_neg _ (show decide (')' ≠ ')') = false from by decide)]
  have eC : List.dropWhile isPySpace (" \x7b\n        ".data
      ++ (d.body.data ++ "\n    \x7d".data))
      = '\x7b' :: ("\n        ".data
        ++ (d.body.data ++ "\n    \x7d".data)) := by
    rw [show " \x7b\n        ".data ++ (d.body.data ++ "\n    \x7d".data)
        = ' ' :: '\x7b' :: ("\n        ".data
          ++ (d.body.data ++ "\n    \x7d".data)) from by simp,
      List.dropWhile_cons_of_pos (by decide),
      dropWhile_cons_neg _ (by decide)]
  have eD : lastBraceSplit ("\n        ".data
      ++ (d.body.data ++ "\n    \x7d".data))
      = some ("\n        ".data ++ (d.body.data ++ "\n    ".data)) := by
    unfold lastBraceSplit
    rw [show "\n        ".data ++ (d.body.data ++ "\n    \x7d".data)
        = ("\n        ".data ++ (d.body.data ++ "\n    ".data)) ++ ['\x7d']
      from by simp [List.append_assoc],
      List.reverse_append,
      show (['\x7d'] : List Char).reverse ++ ("\n        ".data
        ++ (d.body.data ++ "\n    ".data)).reverse
      = '\x7d' :: ("\n        ".data
        ++ (d.body.data ++ "\n    ".data)).reverse from rfl,
      dropWhile_cons_neg _
        (show decide ('\x7d' ≠ '\x7d') = false from by decide)]
    simp
  have eE : List.takeWhile (fun c => decide (c ≠ ')'))
      ((mid ++ [')']) ++ (" \x7b\n        ".data
        ++ (d.body.data ++ "\n    \x7d".data))) = mid := by
    rw [show (mid ++ [')']) ++ (" \x7b\n        ".data
        ++ (d.body.data ++ "\n    \x7d".data))
      = mid ++ (')' :: (" \x7b\n        ".data
        ++ (d.body.data ++ "\n    \x7d".data))) from by simp,
      takeWhile_append_all _ hmid',
      takeWhile_cons_neg _
        (show decide (')' ≠ ')') = false from by decide),
      List.append_nil]
  simp only [eB, eC, eD, eE]
  simp [List.cons_append]

theorem strip_commandBlock (d : CommandDefinition) :
    pyStripL (commandBlock d).data
      = ("COMMAND \x7b\n    DEFINE ".data ++ (d.name.data ++ (d.signature.data
        ++ (" \x7b\n        ".data ++ d.body.data)))) ++ "\n    \x7d\n\x7d".data := by
  rw [show (commandBlock d).data
      = ("COMMAND \x7b\n    DEFINE ".data ++ (d.name.data ++ (d.signature.data
        ++ (" \x7b\n        ".data ++ d.body.data)))) ++ "\n    \x7d\n\x7d\n".data
    from by rw [commandBlock]; simp [List.append_assoc]]
  rw [pyStripL_as_two,
    dropWhile_eq_self_of_shape (show ("COMMAND \x7b\n    DEFINE ".data
      ++ (d.name.data ++ (d.signature.data
        ++ (" \x7b\n        ".data ++ d.body.data)))) ++ "\n    \x7d\n\x7d\n".data
      = 'C' :: (("OMMAND \x7b\n    DEFINE ".data ++ (d.name.data
        ++ (d.signature.data ++ (" \x7b\n        ".data ++ d.body.data))))
        ++ "\n    \x7d\n\x7d\n".data) from by simp [List.append_assoc])
      (by decide)]
  rw [pyRStripL_append (show pyRStripL "\n    \x7d\n\x7d\n".data ≠ []
      from by decide),
    show pyRStripL "\n    \x7d\n\x7d\n".data = "\n    \x7d\n\x7d".data
      from by decide]

theorem strip_body_group {d : CommandDefinition} (h : cmdWF d = true) :
    pyStripL ("\n        ".data ++ (d.body.data ++ "\n    ".data))
      = d.body.data := by
  obtain ⟨-, -, -, hbne, hbf⟩ := cmdWF_spec h
  obtain ⟨b0, bs, hb⟩ := List.exists_cons_of_ne_nil hbne
  have hb0 : isPySpace b0 = false := by
    have := (pyStripL_fixed hbf).1
    rw [hb] at this
    exact dropWhile_self_head this
  obtain ⟨bd, bds, hbrev⟩ := List.exists_cons_of_ne_nil
    (fun he => hbne (by simpa using congrArg List.reverse he)
      : d.body.data.reverse ≠ [])
  have hbdns : isPySpace bd = false := by
    have hrev := (pyStripL_fixed hbf).2
    rw [hbrev] at hrev
    exact dropWhile_self_head hrev
  rw [pyStripL_as_two, dropWhile_append_all _ (by decide),
    dropWhile_eq_self_of_shape (show d.body.data ++ "\n    ".data
      = b0 :: (bs ++ "\n    ".data) from by rw [hb]; simp) hb0]
  exact pyRStripL_ws_tail (by decide)
    (pyRStripL_fixed_of_rev_head hbrev hbdns)

theorem mem_join_sub {d : CommandDefinition} :
    ∀ {cmds : List CommandDefinition}, d ∈ cmds →
    (commandBlock d).data <:+: (joinNl (cmds.map commandBlock)).data := by
  intro cmds
  induction cmds with
  | nil => intro hd; exact absurd hd (by simp)
  | cons x rest ih =>
    intro hd
    rcases List.mem_cons.mp hd with rfl | hd
    · cases rest with
      | nil =>
        rw [show joinNl ([d].map commandBlock) = commandBlock d from rfl]
      | cons y r =>
        rw [show joinNl ((d :: y :: r).map commandBlock)
            = commandBlock d ++ "\n"
              ++ joinNl ((y :: r).map commandBlock) from rfl]
        refine ⟨[], '\n' :: (joinNl ((y :: r).map commandBlock)).data, ?_⟩
        simp [List.append_assoc]
    · have hrne : rest ≠ [] := by
        intro he
        rw [he] at hd
        exact absurd hd (by simp)
      obtain ⟨y, r, rfl⟩ := List.exists_cons_of_ne_nil hrne
      rw [show joinNl ((x :: y :: r).map commandBlock)
          = commandBlock x ++ "\n"
            ++ joinNl ((y :: r).map commandBlock) from rfl]
      obtain ⟨s, t, hst⟩ := ih hd
      refine ⟨(commandBlock x).data ++ ('\n' :: s), t, ?_⟩
      simp only [String.data_append, List.append_assoc, List.cons_append]
      rw [← hst]
      simp [List.append_assoc]

theorem block_sub_to_text (doc : TDLDocument) (h : docRenderWF doc = true)
    {d : CommandDefinition} (hd : d ∈ doc.commands) :
    containsSub (pyStripL (commandBlock d).data) (doc.to_text).data = true := by
  obtain ⟨-, -, hcne, -, -⟩ := docRenderWF_spec h
  refine containsSub_iff.mpr ?_
  have hlast : (pyStripL (commandBlock d).data).getLast? = some '\x7d' := by
    rw [strip_commandBlock]
    exact getLast?_append_concrete (by decide)
  have h3 : pyStripL (commandBlock d).data
      <:+: (joinNl (doc.commands.map commandBlock)).data :=
    (pyStripL_sub _).trans (mem_join_sub hd)
  have h4 := sub_pyRStripL h3 hlast (by decide)
  rw [to_text_data_eq doc hcne]
  obtain ⟨s, t, hst⟩ := h4
  refine ⟨(headerBlock doc.header).data
    ++ ((joinNl (doc.goals.map goalBlock)).data ++ ('\n' :: '\n' :: s)), t, ?_⟩
  rw [← hst]
  simp [List.append_assoc]

set_option maxRecDepth 100000

/-- C4 (counterexample): for the requirement "move GOAL X(", the heuristic
document's rendered header embeds the unbalanced fragment `GOAL X(` inside
the Source Requirement line; GOAL_PATTERN's `[^)]*` then scans across the
rest of the header into `Initialize_Process()`, so re-parsing the rendered
text loses the Initialize_Process goal: the round trip does not recover
every goal with its original name. -/
theorem goal_roundtrip_counterexample :
    ((_generate_tdl_document_heuristic "2024-01-01T00:00:00"
        (analyze_requirement_heuristic "move GOAL X(") "Doosan"
        "M1013").goals.map GoalNode.name
      = ["Initialize_Process", "Execute_Process", "Finalize_Process"])
    ∧ ((_parse_goal_code (TDLDocument.to_text
        (_generate_tdl_document_heuristic "2024-01-01T00:00:00"
          (analyze_requirement_heuristic "move GOAL X(") "Doosan"
          "M1013"))).map GoalNode.name
      = ["X", "Execute_Process", "Finalize_Process"]) :=
  ⟨by decide, by decide⟩

/-- C4 (amended): for every document whose rendered header and command
section contain no `GOAL` occurrence, with at least one command definition,
well-formed goals (nonempty word-character names; nonempty, trimmed,
single-line, brace-free descriptions and command invocations) and
well-formed command definitions (word-character names, `(...)` signatures,
trimmed nonempty bodies), GOAL_PATTERN parsing of the rendered text recovers
exactly the original goal list (names, descriptions and command lists), and
the rendered text contains every command definition's block in a form from
which COMMAND_DEF_PATTERN re-extracts its name, signature and body. -/
theorem render_parse_roundtrip (doc : TDLDocument) (h : docRenderWF doc = true) :
    _parse_goal_code doc.to_text = doc.goals
    ∧ ∀ d ∈ doc.commands,
        containsSub (pyStripL (commandBlock d).data) (doc.to_text).data = true
        ∧ cmdDefMatch (_clean_command_definition_text (commandBlock d))
            = some (d.name.data, d.signature.data,
              "\n        ".data ++ (d.body.data ++ "\n    ".data))
        ∧ (⟨pyStripL ("\n        ".data
            ++ (d.body.data ++ "\n    ".data))⟩ : String) = d.body := by
  obtain ⟨-, -, -, -, hcmds⟩ := docRenderWF_spec h
  refine ⟨parse_goals_of_doc doc h, ?_⟩
  intro d hd
  exact ⟨block_sub_to_text doc h hd, cmdDefMatch_clean d (hcmds d hd),
    by rw [strip_body_group (hcmds d hd)]⟩

/-- A concrete heuristic document used to witness the amended round trip. -/
def roundtripDoc : TDLDocument :=
  _generate_tdl_document_heuristic "2024-01-01T00:00:00"
    (analyze_requirement_heuristic "Move the box to the station")
    "Doosan" "M1013"

theorem render_parse_roundtrip_witness :
    docRenderWF roundtripDoc = true
    ∧ (_parse_goal_code roundtripDoc.to_text = roundtripDoc.goals
      ∧ ∀ d ∈ roundtripDoc.commands,
          containsSub (pyStripL (commandBlock d).data)
            (roundtripDoc.to_text).data = true
          ∧ cmdDefMatch (_clean_command_definition_text (commandBlock d))
              = some (d.name.data, d.signature.data,
                "\n        ".data ++ (d.body.data ++ "\n    ".data))
          ∧ (⟨pyStripL ("\n        ".data
              ++ (d.body.data ++ "\n    ".data))⟩ : String) = d.body) :=
  ⟨by decide, render_parse_roundtrip roundtripDoc (by decide)⟩

end NL2TDL
